import Mathlib

/-!
# WinBtrfs: superblock selection, chunk bootstrap, address translation, tree parsers

A shallow embedding of `src/WinBtrfsCLI/btrfs_system.cpp` and of the tree parsers of
`src/WinBtrfsCLI/btrfs_trees.cpp`.

* Memory images (a superblock, the embedded chunk array, a tree node) are lists of bytes,
  each byte a natural number.
* The recursive tree parsers take the depth they may reach; a tree is described by the
  predicate `TreeAt`, and a parser run on a tree within that depth is shown to be the run of
  its leaf-item hook over the items of the tree in traversal order.
* The host is little-endian, so reading an integer field of an on-disk
  structure and passing it through `endian16/32/64` yields the little-endian
  value of the field's bytes (`readLE`).
* `unsigned __int64` arithmetic is arithmetic modulo `2 ^ 64`, written out.
* A failed `assert` and a read outside the object a pointer was derived from
  are results of type `Fault`.
-/

namespace WinBtrfs

/-! ## Machine integers and bytes -/

/-- Ways in which a modelled function can stop without a value. -/
inductive Fault where
  /-- An `assert` of the source evaluated to false. -/
  | assertFailed
  /-- A read through a pointer left the object it points into. -/
  | outOfBounds
  /-- The iteration budget of a modelled loop ran out (shown unreachable). -/
  | outOfFuel
  deriving DecidableEq, Repr

/-- Equality of results is decidable, so that results can be evaluated and compared. -/
instance instDecidableEqExcept {ε α : Type} [DecidableEq ε] [DecidableEq α] :
    DecidableEq (Except ε α)
  | .ok a, .ok b => if h : a = b then isTrue (by rw [h]) else isFalse (fun e => h (by cases e; rfl))
  | .error a, .error b =>
    if h : a = b then isTrue (by rw [h]) else isFalse (fun e => h (by cases e; rfl))
  | .ok _, .error _ => isFalse (fun e => by cases e)
  | .error _, .ok _ => isFalse (fun e => by cases e)

/-- Number of values of an `unsigned __int64`. -/
def U64 : Nat := 2 ^ 64

/-- Addition of two `unsigned __int64` values. -/
def add64 (a b : Nat) : Nat := (a + b) % U64

/-- Subtraction of two `unsigned __int64` values. -/
def sub64 (a b : Nat) : Nat := (a % U64 + U64 - b % U64) % U64

/-- Little-endian value of a byte string. -/
def leDecode : List Nat → Nat
  | [] => 0
  | b :: bs => b + 256 * leDecode bs

/-- The `len` bytes of `mem` starting at `off`. -/
def slice (mem : List Nat) (off len : Nat) : List Nat := (mem.drop off).take len

/-- Little-endian integer of `width` bytes stored at offset `off` of `mem`. -/
def readLE (mem : List Nat) (off width : Nat) : Nat := leDecode (slice mem off width)

/-! ## On-disk layout

`structures.h` and `constants.h` are not among the sources; the sizes and
offsets below are the Btrfs on-disk layout that the specification describes
and that the source's own comments use (`30+20n` for a chunk item with `n`
stripes, `+ 0x2c` for `numStripes`). -/

/-- Modelled from the spec: `sizeof(BtrfsChecksum)`, the 32-byte checksum slot. -/
def sizeofBtrfsChecksum : Nat := 0x20

/-- Modelled from the spec: `sizeof(BtrfsSuperblock)`. -/
def sizeofBtrfsSuperblock : Nat := 0x1000

/-- Modelled from the spec: `sizeof(BtrfsDiskKey)`, objectID u64, type u8, offset u64. -/
def sizeofBtrfsDiskKey : Nat := 0x11

/-- Modelled from the spec: `sizeof(BtrfsChunkItem)` without its stripes. -/
def sizeofBtrfsChunkItem : Nat := 0x30

/-- Modelled from the spec: `sizeof(BtrfsChunkItemStripe)`. -/
def sizeofBtrfsChunkItemStripe : Nat := 0x20

/-- Modelled from the spec: key type of a chunk item. -/
def TYPE_CHUNK_ITEM : Nat := 0xE8

/-- Modelled from the spec: physical address of superblock copy 1. -/
def SUPERBLOCK_1_PADDR : Nat := 0x10000

/-- Modelled from the spec: physical address of superblock copy 2. -/
def SUPERBLOCK_2_PADDR : Nat := 0x4000000

/-- Modelled from the spec: physical address of superblock copy 3. -/
def SUPERBLOCK_3_PADDR : Nat := 0x4000000000

/-- Modelled from the spec: physical address of superblock copy 4. -/
def SUPERBLOCK_4_PADDR : Nat := 0x4000000000000

/-- Modelled from the spec: offset of `magic` in `BtrfsSuperblock`. -/
def offMagic : Nat := 0x40

/-- Modelled from the spec: offset of `generation` in `BtrfsSuperblock`. -/
def offGeneration : Nat := 0x48

/-- Modelled from the spec: offset of `n`, the byte length of the embedded chunk array. -/
def offN : Nat := 0xa0

/-- Modelled from the spec: offset of `chunkData` in `BtrfsSuperblock`. -/
def offChunkData : Nat := 0x32b

/-- Stripe of a chunk: `BtrfsChunkItemStripe`. -/
structure BtrfsChunkItemStripe where
  devID : Nat
  offset : Nat
  devUUID : List Nat
  deriving DecidableEq, Repr

/-- Fixed part of a chunk item: `BtrfsChunkItem`. -/
structure BtrfsChunkItem where
  chunkSize : Nat
  rootObjID : Nat
  stripeLen : Nat
  type : Nat
  optIOAlign : Nat
  optIOWidth : Nat
  minIOSize : Nat
  numStripes : Nat
  subStripes : Nat
  deriving DecidableEq, Repr

/-- In-memory chunk: `Chunk`. -/
structure Chunk where
  logiOffset : Nat
  chunkItem : BtrfsChunkItem
  stripes : List BtrfsChunkItemStripe
  deriving DecidableEq, Repr

/-! ## `logiToPhys` -/

/-- The test of the `for` loop of `logiToPhys`, in `unsigned __int64` arithmetic. -/
def Fits (logiAddr len : Nat) (c : Chunk) : Prop :=
  c.logiOffset ≤ logiAddr ∧ add64 logiAddr len ≤ add64 c.logiOffset c.chunkItem.chunkSize

instance (logiAddr len : Nat) (c : Chunk) : Decidable (Fits logiAddr len c) := by
  unfold Fits; infer_instance

/-- The `for` loop of `logiToPhys`: index of the first chunk, from index `i` on,
that passes the test; `none` stands for `chunk == -1`. -/
def logiToPhysScan (logiAddr len : Nat) : List Chunk → Nat → Option Nat
  | [], _ => none
  | c :: rest, i => if Fits logiAddr len c then some i else logiToPhysScan logiAddr len rest (i + 1)

/-- Translation of a logical address: `logiToPhys`. The list is `chunks[0..numChunks)`. -/
def logiToPhys (chunks : List Chunk) (logiAddr len : Nat) : Except Fault Nat :=
  if chunks.length = 0 then .error .assertFailed
  else
    match logiToPhysScan logiAddr len chunks 0 with
    | none => .error .assertFailed
    | some chunk =>
      match chunks[chunk]? with
      | none => .error .outOfBounds
      | some c =>
        match c.stripes[0]? with
        | none => .error .outOfBounds
        | some s => .ok (add64 (sub64 logiAddr c.logiOffset) s.offset)

/-! ## CRC-32C

`crc32c.h` and its implementation are not among the sources. `validateSB` and
`findSecondarySBs` below take the checksum function as a parameter; the model
`crc32c` is used where a concrete superblock image is evaluated. -/

/-- One bit step of the reflected CRC-32C division (Castagnoli polynomial `0x1EDC6F41`,
bit-reversed `0x82F63B78`). -/
def crc32cBit (c : Nat) : Nat := if c % 2 = 1 then (c / 2) ^^^ 0x82F63B78 else c / 2

/-- One byte step: what a table-driven implementation computes as
`table[(crc ^ b) & 0xFF] ^ (crc >> 8)`. -/
@[irreducible]
def crc32cByte (crc b : Nat) : Nat :=
  crc32cBit (crc32cBit (crc32cBit (crc32cBit (crc32cBit (crc32cBit (crc32cBit (crc32cBit
    (crc ^^^ b))))))))

/-- The byte loop of the checksum. The register is examined at every step, so that the
loop evaluates step by step. -/
def crc32cLoop : Nat → List Nat → Nat
  | crc, [] => crc
  | crc, b :: data =>
    match crc32cByte crc b with
    | 0 => crc32cLoop 0 data
    | c + 1 => crc32cLoop (c + 1) data

/-- Modelled from the spec: `crc32c(seed, bytes)`, the CRC-32C (Castagnoli) of Btrfs,
reflected, the register being the complement of the seed at the start and complemented
at the end, so that `crc32c(0, "") = 0` and `crc32c(0, "123456789") = 0xE3069283`,
the two test vectors of the specification. -/
def crc32c (seed : Nat) (data : List Nat) : Nat :=
  crc32cLoop ((seed % 2 ^ 32) ^^^ 0xFFFFFFFF) data ^^^ 0xFFFFFFFF

/-! ## Superblock validation and selection -/

/-- The magic bytes `_BHRfS_M`. -/
def magic : List Nat := [0x5F, 0x42, 0x48, 0x52, 0x66, 0x53, 0x5F, 0x4D]

/-- The bytes the checksum of a superblock covers: from `sizeof(BtrfsChecksum)` to the end. -/
def sbChecksummed (s : List Nat) : List Nat :=
  slice s sizeofBtrfsChecksum (sizeofBtrfsSuperblock - sizeofBtrfsChecksum)

/-- The field `generation` of a superblock image, through `endian64`. -/
def sbGeneration (s : List Nat) : Nat := readLE s offGeneration 8

/-- Validation of a superblock: `validateSB`. The argument `none` is the null pointer,
for which the in-memory superblock `super` is validated. Returns `0`, `1` (magic) or
`2` (checksum). -/
def validateSB (crc32c : Nat → List Nat → Nat) (super : List Nat) (s : Option (List Nat)) : Nat :=
  let s := match s with
    | none => super
    | some p => p
  if slice s offMagic 8 ≠ magic then 1
  else if crc32c 0 (sbChecksummed s) ≠ readLE s 0 4 then 2
  else 0

/-- One of the three `if` statements of `findSecondarySBs`: read a superblock copy at
`paddr` and, when the read succeeds, the copy validates and its generation is greater than
`bestGen`, make it the best one, numbered `k`. The state is `(best, sBest, bestGen)`. -/
def trySecondarySB (crc32c : Nat → List Nat → Nat) (directRead : Nat → Nat → Option (List Nat))
    (super : List Nat) (paddr k : Nat) (st : Nat × List Nat × Nat) : Nat × List Nat × Nat :=
  match directRead paddr sizeofBtrfsSuperblock with
  | none => st
  | some sk =>
    if validateSB crc32c super (some sk) = 0 ∧ sbGeneration sk > st.2.2 then
      (k, sk, sbGeneration sk)
    else st

/-- Selection of the newest superblock: `findSecondarySBs`. `directRead addr len` is the
physical read of the block reader, `none` when it returns a nonzero code. The result is
the returned number and the in-memory superblock afterwards. All three reads are made at
`SUPERBLOCK_2_PADDR`, as in the source. -/
def findSecondarySBs (crc32c : Nat → List Nat → Nat)
    (directRead : Nat → Nat → Option (List Nat)) (super : List Nat) : Nat × List Nat :=
  let st0 : Nat × List Nat × Nat := (1, super, sbGeneration super)
  let st2 := trySecondarySB crc32c directRead super SUPERBLOCK_2_PADDR 2 st0
  let st3 := trySecondarySB crc32c directRead super SUPERBLOCK_2_PADDR 3 st2
  let st4 := trySecondarySB crc32c directRead super SUPERBLOCK_2_PADDR 4 st3
  if st4.1 ≠ 1 then (st4.1, st4.2.1) else (st4.1, super)

/-! ## `getSBChunks`

The in-memory superblock `super` is the object that `super.chunkData` points into: a byte
string. `sbPtr` is kept as an offset from `super.chunkData`. The pair
`(chunks, numChunks)` of the source is an optional list: `none` is
`chunks == NULL && numChunks == -1`, `some l` is an allocated array holding `l`. -/

/-- Read of an integer field through a pointer into `mem`, at offset `off`. -/
def loadLE (mem : List Nat) (off width : Nat) : Except Fault Nat :=
  if off + width ≤ mem.length then .ok (readLE mem off width) else .error .outOfBounds

/-- The fields of the `BtrfsChunkItem` stored at offset `off` of `mem`. -/
def readChunkItem (mem : List Nat) (off : Nat) : BtrfsChunkItem :=
  { chunkSize := readLE mem off 8
    rootObjID := readLE mem (off + 0x08) 8
    stripeLen := readLE mem (off + 0x10) 8
    type := readLE mem (off + 0x18) 8
    optIOAlign := readLE mem (off + 0x20) 4
    optIOWidth := readLE mem (off + 0x24) 4
    minIOSize := readLE mem (off + 0x28) 4
    numStripes := readLE mem (off + 0x2c) 2
    subStripes := readLE mem (off + 0x2e) 2 }

/-- The fields of the `BtrfsChunkItemStripe` stored at offset `off` of `mem`. -/
def readStripe (mem : List Nat) (off : Nat) : BtrfsChunkItemStripe :=
  { devID := readLE mem off 8
    offset := readLE mem (off + 0x08) 8
    devUUID := slice mem (off + 0x10) 0x10 }

/-- Structure copy `*((BtrfsChunkItem *)p)`. -/
def loadChunkItem (mem : List Nat) (off : Nat) : Except Fault BtrfsChunkItem :=
  if off + sizeofBtrfsChunkItem ≤ mem.length then .ok (readChunkItem mem off)
  else .error .outOfBounds

/-- The stripe loop of `getSBChunks`: `count` structure copies of consecutive stripes. -/
def loadStripes (mem : List Nat) : Nat → Nat → Except Fault (List BtrfsChunkItemStripe)
  | 0, _ => .ok []
  | count + 1, off =>
    if off + sizeofBtrfsChunkItemStripe ≤ mem.length then
      match loadStripes mem count (off + sizeofBtrfsChunkItemStripe) with
      | .ok rest => .ok (readStripe mem off :: rest)
      | .error e => .error e
    else .error .outOfBounds

/-- Body of the `while` loop of `getSBChunks` at `sbPtr`: the decoded chunk and the
advanced `sbPtr`. -/
def getSBChunksStep (super : List Nat) (sbPtr : Nat) : Except Fault (Chunk × Nat) := do
  let key := offChunkData + sbPtr
  let sbPtr := sbPtr + sizeofBtrfsDiskKey
  let objectID ← loadLE super key 8
  if objectID ≠ 0x100 then throw Fault.assertFailed
  let type ← loadLE super (key + 8) 1
  if type ≠ TYPE_CHUNK_ITEM then throw Fault.assertFailed
  let logiOffset ← loadLE super (key + 9) 8
  let chunkItem ← loadChunkItem super (offChunkData + sbPtr)
  let sbPtr := sbPtr + sizeofBtrfsChunkItem
  let stripes ← loadStripes super chunkItem.numStripes (offChunkData + sbPtr)
  return ({ logiOffset := logiOffset, chunkItem := chunkItem, stripes := stripes },
    sbPtr + chunkItem.numStripes * sizeofBtrfsChunkItemStripe)

/-- The `while (sbPtr < sbMax)` loop of `getSBChunks`, with an iteration budget. -/
def getSBChunksLoop (super : List Nat) (sbMax : Nat) :
    Nat → Nat → Option (List Chunk) → Except Fault (Option (List Chunk))
  | 0, sbPtr, chunks => if sbPtr < sbMax then .error .outOfFuel else .ok chunks
  | fuel + 1, sbPtr, chunks =>
    if sbPtr < sbMax then
      match getSBChunksStep super sbPtr with
      | .error e => .error e
      | .ok (chunk, next) =>
        getSBChunksLoop super sbMax fuel next
          (if sbPtr = 0 then some [chunk] else some (chunks.getD [] ++ [chunk]))
    else .ok chunks

/-- Chunks embedded in the superblock: `getSBChunks`. Every iteration advances `sbPtr`,
so `sbMax` iterations are a sufficient budget. -/
def getSBChunks (super : List Nat) (chunks : Option (List Chunk)) :
    Except Fault (Option (List Chunk)) :=
  if chunks ≠ none then .error .assertFailed
  else
    let sbMax := readLE super offN 4
    getSBChunksLoop super sbMax sbMax 0 chunks

/-- One record of the embedded chunk array, as bytes: a key, a chunk item, stripes. -/
structure SBRecord where
  key : List Nat
  item : List Nat
  stripes : List (List Nat)
  deriving DecidableEq, Repr

/-- The bytes of a record, in array order. -/
def SBRecord.bytes (r : SBRecord) : List Nat := r.key ++ r.item ++ r.stripes.flatten

/-- The parts of a record have the sizes of their structures and the record holds
`numStripes` stripes. -/
def SBRecord.Sized (r : SBRecord) : Prop :=
  r.key.length = sizeofBtrfsDiskKey ∧ r.item.length = sizeofBtrfsChunkItem ∧
    (∀ s ∈ r.stripes, s.length = sizeofBtrfsChunkItemStripe) ∧
    r.stripes.length = (readChunkItem r.item 0).numStripes

/-- The key of a record has objectID `0x100` and type `CHUNK_ITEM`. -/
def SBRecord.KeyOk (r : SBRecord) : Prop :=
  readLE r.key 0 8 = 0x100 ∧ readLE r.key 8 1 = TYPE_CHUNK_ITEM

/-- A well-formed record. -/
def SBRecord.WellFormed (r : SBRecord) : Prop := r.Sized ∧ r.KeyOk

instance (r : SBRecord) : Decidable r.WellFormed := by
  unfold SBRecord.WellFormed SBRecord.Sized SBRecord.KeyOk; infer_instance

/-- The chunk a record describes. -/
def SBRecord.chunk (r : SBRecord) : Chunk :=
  { logiOffset := readLE r.key 9 8
    chunkItem := readChunkItem r.item 0
    stripes := r.stripes.map (fun s => readStripe s 0) }

/-- The bytes of a sequence of records. -/
def recordBytes (recs : List SBRecord) : List Nat := (recs.map SBRecord.bytes).flatten

/-! ## Tree nodes

A node is the buffer that `loadNode` fills: `super.nodeSize` bytes. Structures that the
source reads through a pointer into the node (`BtrfsHeader`, `BtrfsItem`, `BtrfsKeyPtr`,
`BtrfsDirItem`) are decoded from the bytes at the pointer; a structure that does not lie
inside the node is a read outside the buffer. -/

/-- Modelled from the spec: `sizeof(BtrfsHeader)`, 101 bytes. -/
def sizeofBtrfsHeader : Nat := 0x65

/-- Modelled from the spec: `sizeof(BtrfsItem)`, a key, a 32-bit offset and a 32-bit size. -/
def sizeofBtrfsItem : Nat := 0x19

/-- Modelled from the spec: `sizeof(BtrfsKeyPtr)`, a key, a block number and a generation. -/
def sizeofBtrfsKeyPtr : Nat := 0x21

/-- Modelled from the spec: `sizeof(BtrfsDevItem)`. -/
def sizeofBtrfsDevItem : Nat := 0x62

/-- Modelled from the spec: `sizeof(BtrfsInodeItem)`. -/
def sizeofBtrfsInodeItem : Nat := 0xa0

/-- Modelled from the spec: `sizeof(BtrfsInodeRef)` without the name. -/
def sizeofBtrfsInodeRef : Nat := 0x0a

/-- Modelled from the spec: `sizeof(BtrfsDirItem)` without name and data. -/
def sizeofBtrfsDirItem : Nat := 0x1e

/-- Modelled from the spec: `sizeof(BtrfsRootItem)`. -/
def sizeofBtrfsRootItem : Nat := 0xef

/-- Modelled from the spec: `sizeof(BtrfsRootBackref)` without the name. -/
def sizeofBtrfsRootBackref : Nat := 0x12

/-- Modelled from the spec: `sizeof(BtrfsRootRef)` without the name. -/
def sizeofBtrfsRootRef : Nat := 0x12

/-- Modelled from the spec: offset of `rootNodeBlockNum` in `BtrfsRootItem`. -/
def offRootNodeBlockNum : Nat := 0xb0

/-- Modelled from the spec: offset of `stMode` in `BtrfsInodeItem`. -/
def offStMode : Nat := 0x34

/-- Modelled from the spec: offset of `rootTreeLAddr` in `BtrfsSuperblock`. -/
def offRootTreeLAddr : Nat := 0x50

/-- Modelled from the spec: offset of `chunkTreeLAddr` in `BtrfsSuperblock`. -/
def offChunkTreeLAddr : Nat := 0x58

/-- Modelled from the spec: offset of `nodeSize` in `BtrfsSuperblock`. -/
def offNodeSize : Nat := 0x94

/-- Modelled from the spec: key type `INODE_ITEM`. -/
def TYPE_INODE_ITEM : Nat := 0x01

/-- Modelled from the spec: key type `INODE_REF`. -/
def TYPE_INODE_REF : Nat := 0x0C

/-- Modelled from the spec: key type `DIR_ITEM`. -/
def TYPE_DIR_ITEM : Nat := 0x54

/-- Modelled from the spec: key type `EXTENT_DATA`. -/
def TYPE_EXTENT_DATA : Nat := 0x6C

/-- Modelled from the spec: key type `ROOT_ITEM`. -/
def TYPE_ROOT_ITEM : Nat := 0xA8

/-- Modelled from the spec: key type `ROOT_BACKREF`. -/
def TYPE_ROOT_BACKREF : Nat := 0xAC

/-- Modelled from the spec: key type `ROOT_REF`. -/
def TYPE_ROOT_REF : Nat := 0xB0

/-- Modelled from the spec: key type `DEV_ITEM`. -/
def TYPE_DEV_ITEM : Nat := 0xE4

/-- Modelled from the spec: object id of the root tree. -/
def OBJID_ROOT_TREE : Nat := 1

/-- Modelled from the spec: object id of the chunk tree. -/
def OBJID_CHUNK_TREE : Nat := 3

/-- Modelled from the spec: object id of the default FS tree. -/
def OBJID_FS_TREE : Nat := 5

/-- Modelled from the spec: object id of the directory of the root tree. -/
def OBJID_ROOT_TREE_DIR : Nat := 6

/-- Modelled from the spec: object id of the root directory of an FS tree. -/
def OBJID_ROOT_DIR : Nat := 0x100

/-- Modelled from the spec: the directory bit `S_IFDIR` of an inode mode. -/
def S_IFDIR : Nat := 0x4000

/-- Modelled from the spec: address kind of a physical address. -/
def ADDR_PHYSICAL : Nat := 0

/-- Modelled from the spec: address kind of a logical address. -/
def ADDR_LOGICAL : Nat := 1

/-- Key of an item: `BtrfsDiskKey`. -/
structure BtrfsDiskKey where
  objectID : Nat
  type : Nat
  offset : Nat
  deriving DecidableEq, Repr

/-- The fields of `BtrfsHeader` that the tree parsers use. -/
structure BtrfsHeader where
  tree : Nat
  nrItems : Nat
  level : Nat
  deriving DecidableEq, Repr

/-- Item of a leaf: `BtrfsItem`. -/
structure BtrfsItem where
  key : BtrfsDiskKey
  offset : Nat
  size : Nat
  deriving DecidableEq, Repr

/-- Fixed part of a directory entry: `BtrfsDirItem`. -/
structure BtrfsDirItem where
  child : BtrfsDiskKey
  transID : Nat
  m : Nat
  n : Nat
  type : Nat
  deriving DecidableEq, Repr

/-- A key and a heap copy of a payload: `KeyedItem`. -/
structure KeyedItem where
  key : BtrfsDiskKey
  data : List Nat
  deriving DecidableEq, Repr

/-- The fields of the `BtrfsDiskKey` stored at offset `off` of `mem`. -/
def readKey (mem : List Nat) (off : Nat) : BtrfsDiskKey :=
  { objectID := readLE mem off 8
    type := readLE mem (off + 0x08) 1
    offset := readLE mem (off + 0x09) 8 }

/-- The fields of the header of a node. -/
def readHeader (node : List Nat) : BtrfsHeader :=
  { tree := readLE node 0x58 8
    nrItems := readLE node 0x60 4
    level := readLE node 0x64 1 }

/-- The `i`-th `BtrfsItem` of a leaf, at `nodeBlock + sizeof(BtrfsHeader) + i * sizeof(BtrfsItem)`. -/
def readItem (node : List Nat) (i : Nat) : BtrfsItem :=
  { key := readKey node (sizeofBtrfsHeader + i * sizeofBtrfsItem)
    offset := readLE node (sizeofBtrfsHeader + i * sizeofBtrfsItem + 0x11) 4
    size := readLE node (sizeofBtrfsHeader + i * sizeofBtrfsItem + 0x15) 4 }

/-- The fields of the `BtrfsDirItem` stored at offset `off` of a node. -/
def readDirItem (node : List Nat) (off : Nat) : BtrfsDirItem :=
  { child := readKey node off
    transID := readLE node (off + 0x11) 8
    m := readLE node (off + 0x19) 2
    n := readLE node (off + 0x1b) 2
    type := readLE node (off + 0x1d) 1 }

/-- Read of `len` bytes through a pointer into `mem`, at offset `off`. -/
def loadBytes (mem : List Nat) (off len : Nat) : Except Fault (List Nat) :=
  if off + len ≤ mem.length then .ok (slice mem off len) else .error .outOfBounds

/-- Use of the header of a node through `header`. -/
def loadHeader (node : List Nat) : Except Fault BtrfsHeader :=
  if sizeofBtrfsHeader ≤ node.length then .ok (readHeader node) else .error .outOfBounds

/-- Use of the `i`-th item of a leaf through `item`. -/
def loadItem (node : List Nat) (i : Nat) : Except Fault BtrfsItem :=
  if sizeofBtrfsHeader + i * sizeofBtrfsItem + sizeofBtrfsItem ≤ node.length then
    .ok (readItem node i)
  else .error .outOfBounds

/-- The block number `endian64(keyPtr->blockNum)` of the `i`-th key pointer of a node. -/
def loadKeyPtr (node : List Nat) (i : Nat) : Except Fault Nat :=
  if sizeofBtrfsHeader + i * sizeofBtrfsKeyPtr + sizeofBtrfsKeyPtr ≤ node.length then
    .ok (readLE node (sizeofBtrfsHeader + i * sizeofBtrfsKeyPtr + 0x11) 8)
  else .error .outOfBounds

/-- Use of the directory entry at offset `off` of a node through `dirItem`. -/
def loadDirItem (node : List Nat) (off : Nat) : Except Fault BtrfsDirItem :=
  if off + sizeofBtrfsDirItem ≤ node.length then .ok (readDirItem node off)
  else .error .outOfBounds

/-- Offset in the node of the payload of an item:
`sizeof(BtrfsHeader) + endian32(item->offset)`. -/
def payloadOff (item : BtrfsItem) : Nat := sizeofBtrfsHeader + item.offset

/-- The `memcpy` of the payload of an item into a fresh `KeyedItem`. -/
def loadKeyedItem (node : List Nat) (item : BtrfsItem) : Except Fault KeyedItem :=
  match loadBytes node (payloadOff item) item.size with
  | .error e => .error e
  | .ok data => .ok { key := item.key, data := data }

/-! ## `loadNode` -/

/-- Loading of a node: `loadNode`. `cachedRead addr kind len` is the read of the block
reader: a fault when it aborts, `none` when it returns a nonzero code, the filled buffer
otherwise. The result is the buffer `*nodeDest` and the view `*header` of its first
`sizeof(BtrfsHeader)` bytes. The checksum is computed over `blockSize - sizeof(BtrfsChecksum)`
bytes, which leaves the buffer when `blockSize` is smaller than the checksum slot. -/
def loadNode (crc32c : Nat → List Nat → Nat)
    (cachedRead : Nat → Nat → Nat → Except Fault (Option (List Nat))) (super : List Nat)
    (blockAddr addrType : Nat) : Except Fault (List Nat × List Nat) :=
  let blockSize := readLE super offNodeSize 4
  match cachedRead blockAddr addrType blockSize with
  | .error e => .error e
  | .ok none => .error .assertFailed
  | .ok (some nodeDest) =>
    if blockSize < sizeofBtrfsChecksum then .error .outOfBounds
    else if crc32c 0 (slice nodeDest sizeofBtrfsChecksum (blockSize - sizeofBtrfsChecksum))
        = readLE nodeDest 0 4 then
      .ok (nodeDest, nodeDest.take sizeofBtrfsHeader)
    else .error .assertFailed

/-- Modelled from the spec: the block reader's `cachedRead`, which is not among the sources.
A logical address is first translated by `logiToPhys` on the chunks loaded so far; the read
itself is the positioned read `readPhysical` of the device. -/
def cachedRead (readPhysical : Nat → Nat → Option (List Nat)) (chunks : List Chunk)
    (addr addrType len : Nat) : Except Fault (Option (List Nat)) :=
  if addrType = ADDR_LOGICAL then
    match logiToPhys chunks addr len with
    | .error e => .error e
    | .ok physAddr => .ok (readPhysical physAddr len)
  else .ok (readPhysical addr len)

/-! ## `getTreeRootAddr` -/

/-- The `for` loop of `getTreeRootAddr` over the cached root-tree items. -/
def getTreeRootAddrLoop (tree : Nat) : List KeyedItem → Except Fault Nat
  | [] => .error .assertFailed
  | kItem :: rest =>
    if kItem.key.type = TYPE_ROOT_ITEM ∧ kItem.key.objectID = tree then
      loadLE kItem.data offRootNodeBlockNum 8
    else getTreeRootAddrLoop tree rest

/-- Address of the root node of a tree: `getTreeRootAddr` on the cache `rootTree`. -/
def getTreeRootAddr (rootTree : List KeyedItem) (tree : Nat) : Except Fault Nat :=
  if rootTree.length = 0 then .error .assertFailed
  else getTreeRootAddrLoop tree rootTree

/-! ## The tree walk

`parseChunkTreeRec`, `parseRootTreeRec` and `parseFSTreeRec` share one shape: load the node,
then either run the leaf loop over the items or the loop over the key pointers, which
recurses. The source recursion has no bound; the model takes the depth it may reach. -/

/-- The `for` loop over the items of a leaf. `hook` is the body of the loop for one item;
it returns the new state and whether the loop is left (`break` or `return`). -/
def leafLoop {σ : Type} (hook : List Nat → BtrfsItem → σ → Except Fault (σ × Bool))
    (node : List Nat) : Nat → Nat → σ → Except Fault σ
  | 0, _, st => .ok st
  | count + 1, i, st =>
    match loadItem node i with
    | .error e => .error e
    | .ok item =>
      match hook node item st with
      | .error e => .error e
      | .ok (st', leave) =>
        if leave then .ok st' else leafLoop hook node count (i + 1) st'

/-- The `for` loop over the key pointers of a non-leaf node. `recurse` is the recursive
call, `flag` the test `*shortCircuit` made after it. -/
def keyPtrLoop {σ : Type} (flag : σ → Bool) (recurse : Nat → σ → Except Fault σ)
    (node : List Nat) : Nat → Nat → σ → Except Fault σ
  | 0, _, st => .ok st
  | count + 1, i, st =>
    match loadKeyPtr node i with
    | .error e => .error e
    | .ok blockNum =>
      match recurse blockNum st with
      | .error e => .error e
      | .ok st' =>
        if flag st' then .ok st' else keyPtrLoop flag recurse node count (i + 1) st'

/-- The recursive descent. `load` is `loadNode(addr, ADDR_LOGICAL, ..)`; `treeID` is the
value that `header->tree` is asserted to have, if the parser asserts one. -/
def walkTree {σ : Type} (load : Nat → Except Fault (List Nat)) (treeID : Option Nat)
    (hook : List Nat → BtrfsItem → σ → Except Fault (σ × Bool)) (flag : σ → Bool) :
    Nat → Nat → σ → Except Fault σ
  | 0, _, _ => .error .outOfFuel
  | depth + 1, addr, st =>
    match load addr with
    | .error e => .error e
    | .ok node =>
      match loadHeader node with
      | .error e => .error e
      | .ok header =>
        if treeID.isSome ∧ treeID ≠ some header.tree then .error .assertFailed
        else if header.level = 0 then leafLoop hook node header.nrItems 0 st
        else keyPtrLoop flag (walkTree load treeID hook flag depth) node header.nrItems 0 st

/-! ## Chunk tree, older revision (`btrfs_system.cpp`) -/

/-- The globals that the older `parseChunkTreeRec` updates: the array `chunks` (its
`numChunks` entries) and the array `devices` (`none` is `numDevices == -1`; a device item is
kept as its bytes). -/
structure ChunkTreeState where
  chunks : List Chunk
  devices : Option (List (List Nat))
  deriving DecidableEq, Repr

/-- The `switch` of the leaf loop of the older `parseChunkTreeRec` for one item.
`nodeSize` is `endian32(super.nodeSize)`. The type `size_t` is taken to be 64 bits wide: the
bounds sum cannot wrap, and `size - sizeof(BtrfsChunkItem)` wraps modulo `2 ^ 64` (its
remainder modulo `0x20` is the same with 32 bits). -/
def chunkTreeItem (nodeSize : Nat) (node : List Nat) (item : BtrfsItem) (st : ChunkTreeState) :
    Except Fault (ChunkTreeState × Bool) :=
  if item.key.type = TYPE_DEV_ITEM then
    if item.size ≠ sizeofBtrfsDevItem then .error .assertFailed
    else if ¬ (sizeofBtrfsHeader + item.offset + item.size ≤ nodeSize) then .error .assertFailed
    else
      match loadBytes node (payloadOff item) sizeofBtrfsDevItem with
      | .error e => .error e
      | .ok devItem => .ok ({ st with devices := some (st.devices.getD [] ++ [devItem]) }, false)
  else if item.key.type = TYPE_CHUNK_ITEM then
    if sub64 item.size sizeofBtrfsChunkItem % sizeofBtrfsChunkItemStripe ≠ 0 then
      .error .assertFailed
    else if ¬ (sizeofBtrfsHeader + item.offset + item.size ≤ nodeSize) then .error .assertFailed
    else
      match loadChunkItem node (payloadOff item) with
      | .error e => .error e
      | .ok chunkItem =>
        match loadStripes node chunkItem.numStripes (payloadOff item + sizeofBtrfsChunkItem) with
        | .error e => .error e
        | .ok stripes =>
          .ok ({ st with chunks := st.chunks ++
            [{ logiOffset := item.key.offset, chunkItem := chunkItem, stripes := stripes }] }, false)
  else .ok (st, false)

/-- The older `parseChunkTreeRec`. `loadNode chunks addr` is `loadNode(addr, ADDR_LOGICAL, ..)`
with the chunks loaded at the time of the call. After the node is loaded and its tree id
asserted, `numChunks` is set to zero: in every call. -/
def parseChunkTreeRec (loadNode : List Chunk → Nat → Except Fault (List Nat)) (nodeSize : Nat) :
    Nat → Nat → ChunkTreeState → Except Fault ChunkTreeState
  | 0, _, _ => .error .outOfFuel
  | depth + 1, addr, st =>
    match loadNode st.chunks addr with
    | .error e => .error e
    | .ok node =>
      match loadHeader node with
      | .error e => .error e
      | .ok header =>
        if header.tree ≠ OBJID_CHUNK_TREE then .error .assertFailed
        else
          let st := { st with chunks := [] }
          if header.level = 0 then leafLoop (chunkTreeItem nodeSize) node header.nrItems 0 st
          else
            keyPtrLoop (fun _ => false) (parseChunkTreeRec loadNode nodeSize depth) node
              header.nrItems 0 st

/-- The node loader of the older revision on a device: `loadNode` over `cachedRead`. -/
def loadNodeLogical (crc32c : Nat → List Nat → Nat) (readPhysical : Nat → Nat → Option (List Nat))
    (super : List Nat) (chunks : List Chunk) (addr : Nat) : Except Fault (List Nat) :=
  match loadNode crc32c (cachedRead readPhysical chunks) super addr ADDR_LOGICAL with
  | .error e => .error e
  | .ok (nodeBlock, _) => .ok nodeBlock

/-- The older `parseChunkTree`: `getSBChunks`, then `parseChunkTreeRec` from
`super.chunkTreeLAddr`. -/
def parseChunkTree (crc32c : Nat → List Nat → Nat) (readPhysical : Nat → Nat → Option (List Nat))
    (super : List Nat) (depth : Nat) (chunks : Option (List Chunk))
    (devices : Option (List (List Nat))) : Except Fault ChunkTreeState :=
  match getSBChunks super chunks with
  | .error e => .error e
  | .ok chunks =>
    parseChunkTreeRec (loadNodeLogical crc32c readPhysical super) (readLE super offNodeSize 4) depth
      (readLE super offChunkTreeLAddr 8) { chunks := chunks.getD [], devices := devices }

/-! ## Chunk tree, newer revision (`btrfs_trees.cpp`), operation `CTOP_LOAD` -/

/-- The `push_back` of a copy of an item and its payload onto a vector of keyed items. -/
def pushKeyedItem (node : List Nat) (item : BtrfsItem) (items : List KeyedItem) :
    Except Fault (List KeyedItem × Bool) :=
  match loadKeyedItem node item with
  | .error e => .error e
  | .ok kItem => .ok (items ++ [kItem], false)

/-- The `switch` of the leaf loop of the newer `parseChunkTreeRec` under `CTOP_LOAD` for one
item; the state is the vector `chunkTree`. -/
def chunkTreeLoadItem (node : List Nat) (item : BtrfsItem) (chunkTree : List KeyedItem) :
    Except Fault (List KeyedItem × Bool) :=
  if item.key.type = TYPE_DEV_ITEM then
    if item.size ≠ sizeofBtrfsDevItem then .error .assertFailed
    else pushKeyedItem node item chunkTree
  else if item.key.type = TYPE_CHUNK_ITEM then
    if sub64 item.size sizeofBtrfsChunkItem % sizeofBtrfsChunkItemStripe ≠ 0 then
      .error .assertFailed
    else
      match loadLE node (payloadOff item + 0x2c) 2 with
      | .error e => .error e
      | .ok temp =>
        if item.size ≠ sizeofBtrfsChunkItem + temp * sizeofBtrfsChunkItemStripe then
          .error .assertFailed
        else pushKeyedItem node item chunkTree
  else .ok (chunkTree, false)

/-- The newer `parseChunkTreeRec` under `CTOP_LOAD`. -/
def parseChunkTreeRecLoad (load : Nat → Except Fault (List Nat)) :
    Nat → Nat → List KeyedItem → Except Fault (List KeyedItem) :=
  walkTree load (some OBJID_CHUNK_TREE) chunkTreeLoadItem (fun _ => false)

/-- The `switch` of the leaf loop of `parseRootTreeRec` under `RTOP_LOAD` for one item; the
state is the vector `rootTree`. -/
def rootTreeLoadItem (node : List Nat) (item : BtrfsItem) (rootTree : List KeyedItem) :
    Except Fault (List KeyedItem × Bool) :=
  if item.key.type = TYPE_INODE_ITEM then
    if item.size ≠ sizeofBtrfsInodeItem then .error .assertFailed
    else pushKeyedItem node item rootTree
  else if item.key.type = TYPE_INODE_REF then
    if item.size < sizeofBtrfsInodeRef then .error .assertFailed
    else pushKeyedItem node item rootTree
  else if item.key.type = TYPE_DIR_ITEM then
    if item.size < sizeofBtrfsDirItem then .error .assertFailed
    else pushKeyedItem node item rootTree
  else if item.key.type = TYPE_ROOT_ITEM then
    if item.size ≠ sizeofBtrfsRootItem then .error .assertFailed
    else pushKeyedItem node item rootTree
  else if item.key.type = TYPE_ROOT_BACKREF then
    if item.size < sizeofBtrfsRootBackref then .error .assertFailed
    else pushKeyedItem node item rootTree
  else if item.key.type = TYPE_ROOT_REF then
    if item.size < sizeofBtrfsRootRef then .error .assertFailed
    else pushKeyedItem node item rootTree
  else .ok (rootTree, false)

/-- The function `parseRootTreeRec` under `RTOP_LOAD`. -/
def parseRootTreeRecLoad (load : Nat → Except Fault (List Nat)) :
    Nat → Nat → List KeyedItem → Except Fault (List KeyedItem) :=
  walkTree load (some OBJID_ROOT_TREE) rootTreeLoadItem (fun _ => false)

/-- The function `parseRootTree` under `RTOP_LOAD`. -/
def parseRootTreeLoad (load : Nat → Except Fault (List Nat)) (super : List Nat) (depth : Nat)
    (rootTree : List KeyedItem) : Except Fault (List KeyedItem) :=
  parseRootTreeRecLoad load depth (readLE super offRootTreeLAddr 8) rootTree

/-- The body of the leaf loop of `parseRootTreeRec` under `RTOP_DEFAULT_SUBVOL` for one item;
the state is the global `defaultSubvol`. On a match the function returns: the leaf loop is
left. -/
def rootTreeDefaultSubvolItem (node : List Nat) (item : BtrfsItem) (defaultSubvol : Nat) :
    Except Fault (Nat × Bool) :=
  if item.key.type = TYPE_DIR_ITEM ∧ item.key.objectID = OBJID_ROOT_TREE_DIR then
    match loadDirItem node (payloadOff item) with
    | .error e => .error e
    | .ok dirItem => .ok (dirItem.child.objectID, true)
  else .ok (defaultSubvol, false)

/-- The function `parseRootTreeRec` under `RTOP_DEFAULT_SUBVOL`. The loop over the key
pointers makes no test after the recursive call. -/
def parseRootTreeRecDefaultSubvol (load : Nat → Except Fault (List Nat)) :
    Nat → Nat → Nat → Except Fault Nat :=
  walkTree load (some OBJID_ROOT_TREE) rootTreeDefaultSubvolItem (fun _ => false)

/-- The function `parseRootTree` under `RTOP_DEFAULT_SUBVOL`. -/
def parseRootTreeDefaultSubvol (load : Nat → Except Fault (List Nat)) (super : List Nat)
    (depth : Nat) (defaultSubvol : Nat) : Except Fault Nat :=
  parseRootTreeRecDefaultSubvol load depth (readLE super offRootTreeLAddr 8) defaultSubvol

/-! ## FS tree (`btrfs_trees.cpp`) -/

/-- The `while (true)` loop over the chained directory entries of an item, as the newer
revision writes it: after the body, advance to the next entry if
`item->size > (dirItem - firstDirItem) + sizeof(BtrfsDirItem) + m + n`. `base` is the offset of
the payload, `off` is `dirItem - firstDirItem`; `body` gets the offset of the entry in the
node and returns whether it leaves the loop. Every advance is by at least
`sizeof(BtrfsDirItem)`, so `size + 1` iterations are a sufficient budget. -/
def dirItemLoop {σ : Type} (body : Nat → BtrfsDirItem → σ → Except Fault (σ × Bool))
    (node : List Nat) (base size : Nat) : Nat → Nat → σ → Except Fault σ
  | 0, _, _ => .error .outOfFuel
  | fuel + 1, off, st =>
    match loadDirItem node (base + off) with
    | .error e => .error e
    | .ok dirItem =>
      match body (base + off) dirItem st with
      | .error e => .error e
      | .ok (st', leave) =>
        if leave then .ok st'
        else if size > off + sizeofBtrfsDirItem + dirItem.m + dirItem.n then
          dirItemLoop body node base size fuel (off + sizeofBtrfsDirItem + dirItem.m + dirItem.n) st'
        else .ok st'

/-- The outputs of `parseFSTreeRec` under `FSOP_NAME_TO_ID`. -/
structure NameToIdState where
  childID : Nat
  returnCode : Nat
  shortCircuit : Bool
  deriving DecidableEq, Repr

/-- The body of the chain loop under `FSOP_NAME_TO_ID`. `name` holds the bytes of the C
string `name` before its terminator, so `strlen(name)` is its length. -/
def nameToIdDirEntry (name : List Nat) (node : List Nat) (entry : Nat) (dirItem : BtrfsDirItem)
    (st : NameToIdState) : Except Fault (NameToIdState × Bool) :=
  if dirItem.n = name.length then
    match loadBytes node (entry + sizeofBtrfsDirItem) dirItem.n with
    | .error e => .error e
    | .ok namePlusData =>
      if namePlusData = name then
        .ok ({ childID := dirItem.child.objectID, returnCode := 0, shortCircuit := true }, true)
      else .ok (st, false)
  else .ok (st, false)

/-- The body of the leaf loop of `parseFSTreeRec` under `FSOP_NAME_TO_ID` for one item,
with the test `if (*shortCircuit) break;` that follows it. -/
def fsNameToIdItem (parentID hash : Nat) (name : List Nat) (node : List Nat) (item : BtrfsItem)
    (st : NameToIdState) : Except Fault (NameToIdState × Bool) :=
  if item.key.type = TYPE_DIR_ITEM ∧ item.key.objectID = parentID ∧
      item.key.offset % 2 ^ 32 = hash then
    match dirItemLoop (nameToIdDirEntry name node) node (payloadOff item) item.size
        (item.size + 1) 0 st with
    | .error e => .error e
    | .ok st' => .ok (st', st'.shortCircuit)
  else .ok (st, st.shortCircuit)

/-- The function `parseFSTreeRec` under `FSOP_NAME_TO_ID`. -/
def parseFSTreeRecNameToId (load : Nat → Except Fault (List Nat)) (parentID hash : Nat)
    (name : List Nat) : Nat → Nat → NameToIdState → Except Fault NameToIdState :=
  walkTree load none (fsNameToIdItem parentID hash name) (fun st => st.shortCircuit)

/-- The function `parseFSTree` under `FSOP_NAME_TO_ID`: the return code and `*childID`. -/
def parseFSTreeNameToId (load : Nat → Except Fault (List Nat)) (rootTree : List KeyedItem)
    (depth tree parentID hash : Nat) (name : List Nat) (childID : Nat) :
    Except Fault (Nat × Nat) :=
  match getTreeRootAddr rootTree tree with
  | .error e => .error e
  | .ok addr =>
    match parseFSTreeRecNameToId load parentID hash name depth addr
        { childID := childID, returnCode := 0x1, shortCircuit := false } with
    | .error e => .error e
    | .ok st => .ok (st.returnCode, st.childID)

/-- Modelled from the spec: `FilePkg`, declared in a header that is not among the sources.
The name is a buffer of 256 bytes holding a C string; the inode is the copied
`BtrfsInodeItem`. -/
structure FilePkg where
  objectID : Nat
  name : List Nat
  parentID : Nat
  inode : List Nat
  extents : List KeyedItem
  numExtents : Nat
  hidden : Bool
  deriving DecidableEq, Repr

/-- The `memcpy` of `src` to the start of the buffer `dst`. -/
def memcpyInto (dst src : List Nat) : List Nat := src ++ dst.drop src.length

/-- The store `buf[i] = v` into a buffer. -/
def storeByte (buf : List Nat) (i v : Nat) : Except Fault (List Nat) :=
  if i < buf.length then .ok (buf.set i v) else .error .outOfBounds

/-- The statement `*returnCode &= ~mask` on a return code that is not negative. -/
def clearBits (returnCode mask : Nat) : Nat := returnCode &&& (0xFFFFFFFF ^^^ mask)

/-- The C string held by a buffer: the bytes before the first zero. -/
def cstr (buf : List Nat) : List Nat := buf.takeWhile (fun b => b ≠ 0)

/-- The outputs of `parseFSTreeRec` under `FSOP_GET_FILE_PKG`. -/
structure GetFilePkgState where
  filePkg : FilePkg
  returnCode : Nat
  shortCircuit : Bool
  deriving DecidableEq, Repr

/-- The body of the chain loop under `FSOP_GET_FILE_PKG`; `keyObjectID` is
`endian64(item->key.objectID)`. -/
def getFilePkgDirEntry (objectID keyObjectID : Nat) (node : List Nat) (entry : Nat)
    (dirItem : BtrfsDirItem) (st : GetFilePkgState) : Except Fault (GetFilePkgState × Bool) :=
  if dirItem.child.objectID = objectID then
    match loadBytes node (entry + sizeofBtrfsDirItem) (if dirItem.n ≤ 255 then dirItem.n else 255) with
    | .error e => .error e
    | .ok namePlusData =>
      match storeByte (memcpyInto st.filePkg.name namePlusData) dirItem.n 0 with
      | .error e => .error e
      | .ok name =>
        .ok ({ st with
          filePkg := { st.filePkg with name := name, parentID := keyObjectID }
          returnCode := clearBits st.returnCode 0x2 }, false)
  else .ok (st, false)

/-- The three branches of the leaf loop under `FSOP_GET_FILE_PKG` that follow the test
`item->key.objectID > *objectID`. -/
def getFilePkgBranches (objectID : Nat) (node : List Nat) (item : BtrfsItem)
    (st : GetFilePkgState) : Except Fault GetFilePkgState :=
  if item.key.type = TYPE_INODE_ITEM ∧ item.key.objectID = objectID then
    match loadBytes node (payloadOff item) sizeofBtrfsInodeItem with
    | .error e => .error e
    | .ok inodeItem =>
      let returnCode := clearBits st.returnCode 0x1
      .ok { st with
        filePkg := { st.filePkg with inode := inodeItem }
        returnCode :=
          if readLE inodeItem offStMode 4 &&& S_IFDIR ≠ 0 then clearBits returnCode 0x4
          else returnCode }
  else if item.key.type = TYPE_DIR_ITEM then
    dirItemLoop (getFilePkgDirEntry objectID item.key.objectID node) node (payloadOff item)
      item.size (item.size + 1) 0 st
  else if item.key.type = TYPE_EXTENT_DATA ∧ item.key.objectID = objectID then
    match loadKeyedItem node item with
    | .error e => .error e
    | .ok kItem =>
      .ok { st with
        filePkg := { st.filePkg with
          extents := st.filePkg.extents ++ [kItem]
          numExtents := st.filePkg.numExtents + 1 } }
  else .ok st

/-- The body of the leaf loop of `parseFSTreeRec` under `FSOP_GET_FILE_PKG` for one item,
with the test `if (*shortCircuit) break;` that follows it. -/
def fsGetFilePkgItem (objectID : Nat) (node : List Nat) (item : BtrfsItem)
    (st : GetFilePkgState) : Except Fault (GetFilePkgState × Bool) :=
  if item.key.objectID > objectID then .ok ({ st with shortCircuit := true }, true)
  else
    match getFilePkgBranches objectID node item st with
    | .error e => .error e
    | .ok st' => .ok (st', st'.shortCircuit)

/-- The function `parseFSTreeRec` under `FSOP_GET_FILE_PKG`. -/
def parseFSTreeRecGetFilePkg (load : Nat → Except Fault (List Nat)) (objectID : Nat) :
    Nat → Nat → GetFilePkgState → Except Fault GetFilePkgState :=
  walkTree load none (fsGetFilePkgItem objectID) (fun st => st.shortCircuit)

/-- The bytes of the string `ROOT_DIR` with its terminator. -/
def strRootDir : List Nat := [0x52, 0x4F, 0x4F, 0x54, 0x5F, 0x44, 0x49, 0x52, 0]

/-- The test that sets `hidden`: the name starts with a dot and is neither `.` nor `..`. -/
def isHiddenName (name : List Nat) : Bool :=
  name.head? = some 0x2E && cstr name ≠ [0x2E] && cstr name ≠ [0x2E, 0x2E]

/-- The function `parseFSTree` under `FSOP_GET_FILE_PKG`: the return code and `*filePkg`;
`filePkg` is the structure that `output1` points to when the function is called. -/
def parseFSTreeGetFilePkg (load : Nat → Except Fault (List Nat)) (rootTree : List KeyedItem)
    (depth tree objectID : Nat) (filePkg : FilePkg) : Except Fault (Nat × FilePkg) :=
  let returnCode := if objectID ≠ OBJID_ROOT_DIR then 0x1 ||| 0x2 else 0x1
  let filePkg := { filePkg with objectID := objectID, numExtents := 0, extents := [] }
  let filePkg :=
    if objectID = OBJID_ROOT_DIR then
      { filePkg with name := memcpyInto filePkg.name strRootDir, parentID := 0x0 }
    else filePkg
  match getTreeRootAddr rootTree tree with
  | .error e => .error e
  | .ok addr =>
    match parseFSTreeRecGetFilePkg load objectID depth addr
        { filePkg := filePkg, returnCode := returnCode, shortCircuit := false } with
    | .error e => .error e
    | .ok st =>
      if st.returnCode = 0 then
        .ok (st.returnCode, { st.filePkg with hidden := isHiddenName st.filePkg.name })
      else .ok (st.returnCode, st.filePkg)

/-! ## Trees and traversal order

What the statements about "every tree" range over: the nodes that `load` returns, arranged
as the walk finds them. -/

/-- The assertion on `header->tree`, when the parser makes one. -/
def TreeIDOk (treeID : Option Nat) (header : BtrfsHeader) : Prop :=
  ∀ t, treeID = some t → header.tree = t

/-- A tree of height at most `h` is rooted at address `addr`, and `leaves` are its leaf
nodes from left to right. Every node loads, holds a whole header and passes the assertion
on its tree id; a node of level 0 is a leaf; any other node has `nrItems` key pointers, all
inside the node, each the root of a tree of height at most `h - 1`. -/
inductive TreeAt (load : Nat → Except Fault (List Nat)) (treeID : Option Nat) :
    Nat → Nat → List (List Nat) → Prop
  | leaf (h addr : Nat) (node : List Nat) :
      load addr = .ok node → sizeofBtrfsHeader ≤ node.length →
      TreeIDOk treeID (readHeader node) → (readHeader node).level = 0 →
      TreeAt load treeID h addr [node]
  | inner (h addr : Nat) (node : List Nat) (kids : List (Nat × List (List Nat))) :
      load addr = .ok node → sizeofBtrfsHeader ≤ node.length →
      TreeIDOk treeID (readHeader node) → (readHeader node).level ≠ 0 →
      kids.length = (readHeader node).nrItems →
      (∀ i (hi : i < kids.length), loadKeyPtr node i = .ok (kids.get ⟨i, hi⟩).1) →
      (∀ k ∈ kids, TreeAt load treeID h k.1 k.2) →
      TreeAt load treeID (h + 1) addr (kids.map (fun k => k.2)).flatten

/-- The leaf loops of a sequence of leaves, one after the other, with the test of `flag`
after each leaf. -/
def foldLeaves {σ : Type} (hook : List Nat → BtrfsItem → σ → Except Fault (σ × Bool))
    (flag : σ → Bool) : List (List Nat) → σ → Except Fault σ
  | [], st => .ok st
  | node :: rest, st =>
    match leafLoop hook node (readHeader node).nrItems 0 st with
    | .error e => .error e
    | .ok st' => if flag st' then .ok st' else foldLeaves hook flag rest st'

/-- The items of a leaf, in array order. -/
def leafItems (node : List Nat) : List BtrfsItem :=
  (List.range (readHeader node).nrItems).map (readItem node)

/-- The item array of a leaf lies inside the node. -/
def LeafOk (node : List Nat) : Prop :=
  sizeofBtrfsHeader + (readHeader node).nrItems * sizeofBtrfsItem ≤ node.length

instance (node : List Nat) : Decidable (LeafOk node) := by
  unfold LeafOk; infer_instance

/-- The items of a sequence of leaves in traversal order, each with its node. -/
def treeItems (leaves : List (List Nat)) : List (List Nat × BtrfsItem) :=
  (leaves.map (fun node => (leafItems node).map (fun item => (node, item)))).flatten

/-- A hook run over a sequence of items, up to the first item at which it leaves. -/
def walkItems {σ : Type} (hook : List Nat → BtrfsItem → σ → Except Fault (σ × Bool)) :
    List (List Nat × BtrfsItem) → σ → Except Fault σ
  | [], st => .ok st
  | (node, item) :: rest, st =>
    match hook node item st with
    | .error e => .error e
    | .ok (st', leave) => if leave then .ok st' else walkItems hook rest st'

/-- The payload of an item: the `item.size` bytes at `sizeof(BtrfsHeader) + item.offset`. -/
def payload (node : List Nat) (item : BtrfsItem) : List Nat :=
  slice node (payloadOff item) item.size

/-- The payload of an item lies inside the node. -/
def PayloadOk (node : List Nat) (item : BtrfsItem) : Prop :=
  payloadOff item + item.size ≤ node.length

instance (node : List Nat) (item : BtrfsItem) : Decidable (PayloadOk node item) := by
  unfold PayloadOk; infer_instance

/-- The hook leaves the leaf loop exactly when it has set the flag that the loop over the
key pointers tests. -/
def LeaveIsFlag {σ : Type} (hook : List Nat → BtrfsItem → σ → Except Fault (σ × Bool))
    (flag : σ → Bool) : Prop :=
  ∀ node item st st' leave, hook node item st = .ok (st', leave) → leave = flag st'

/-- A cached entry is the `ROOT_ITEM` of tree `tree`: the test of `getTreeRootAddr`. -/
def IsRootItemOf (tree : Nat) (kItem : KeyedItem) : Prop :=
  kItem.key.type = TYPE_ROOT_ITEM ∧ kItem.key.objectID = tree

instance (tree : Nat) (kItem : KeyedItem) : Decidable (IsRootItemOf tree kItem) := by
  unfold IsRootItemOf; infer_instance

/-- The item types that root-tree Load caches. -/
def rootTreeCached (type : Nat) : Bool :=
  decide (type = TYPE_INODE_ITEM) || decide (type = TYPE_INODE_REF) ||
    decide (type = TYPE_DIR_ITEM) || decide (type = TYPE_ROOT_ITEM) ||
    decide (type = TYPE_ROOT_BACKREF) || decide (type = TYPE_ROOT_REF)

/-- The size that root-tree Load asserts for an item, by its type: the exact size of the
structure for `INODE_ITEM` and `ROOT_ITEM`, at least the size of the fixed part for the
other four types. -/
def RootSizeOk (item : BtrfsItem) : Prop :=
  (item.key.type = TYPE_INODE_ITEM → item.size = sizeofBtrfsInodeItem) ∧
    (item.key.type = TYPE_INODE_REF → sizeofBtrfsInodeRef ≤ item.size) ∧
    (item.key.type = TYPE_DIR_ITEM → sizeofBtrfsDirItem ≤ item.size) ∧
    (item.key.type = TYPE_ROOT_ITEM → item.size = sizeofBtrfsRootItem) ∧
    (item.key.type = TYPE_ROOT_BACKREF → sizeofBtrfsRootBackref ≤ item.size) ∧
    (item.key.type = TYPE_ROOT_REF → sizeofBtrfsRootRef ≤ item.size)

instance (item : BtrfsItem) : Decidable (RootSizeOk item) := by
  unfold RootSizeOk; infer_instance

/-- The cache entry of an item: its key and its payload. -/
def keyedItemOf (p : List Nat × BtrfsItem) : KeyedItem :=
  { key := p.2.key, data := payload p.1 p.2 }

/-! ## Chained directory entries -/

/-- The chained entries of a `DIR_ITEM` payload, each with its offset in the node: the
entry at `base + off`, then, while `size` exceeds the end of the current entry, the entry
that follows it. -/
def dirEntries (node : List Nat) (base size : Nat) : Nat → Nat → List (Nat × BtrfsDirItem)
  | 0, _ => []
  | fuel + 1, off =>
    (base + off, readDirItem node (base + off)) ::
      (if size > off + sizeofBtrfsDirItem + (readDirItem node (base + off)).m
          + (readDirItem node (base + off)).n then
        dirEntries node base size fuel
          (off + sizeofBtrfsDirItem + (readDirItem node (base + off)).m
            + (readDirItem node (base + off)).n)
      else [])

/-- The chained entries of an item of type `DIR_ITEM`. -/
def itemDirEntries (node : List Nat) (item : BtrfsItem) : List (Nat × BtrfsDirItem) :=
  dirEntries node (payloadOff item) item.size (item.size + 1) 0

/-- Every chained entry of the item has its fixed part and its name inside the node. -/
def ChainOk (node : List Nat) (item : BtrfsItem) : Prop :=
  ∀ e ∈ itemDirEntries node item, e.1 + sizeofBtrfsDirItem + e.2.n ≤ node.length

instance (node : List Nat) (item : BtrfsItem) : Decidable (ChainOk node item) := by
  unfold ChainOk; infer_instance

/-- A body run over a sequence of chained entries, up to the first entry at which it
leaves. -/
def walkEntries {σ : Type} (body : Nat → BtrfsDirItem → σ → Except Fault (σ × Bool)) :
    List (Nat × BtrfsDirItem) → σ → Except Fault σ
  | [], st => .ok st
  | (entry, dirItem) :: rest, st =>
    match body entry dirItem st with
    | .error e => .error e
    | .ok (st', leave) => if leave then .ok st' else walkEntries body rest st'

/-- The item is one that `FSOP_NAME_TO_ID` examines: a `DIR_ITEM` of `parentID` whose key
offset, truncated to 32 bits, is `hash`. -/
def isCandidate (parentID hash : Nat) (item : BtrfsItem) : Bool :=
  decide (item.key.type = TYPE_DIR_ITEM ∧ item.key.objectID = parentID ∧
    item.key.offset % 2 ^ 32 = hash)

/-- The entry names `name`: `n` is the length of `name` and the `n` bytes after the fixed
part are those of `name`. -/
def entryMatches (name : List Nat) (node : List Nat) (e : Nat × BtrfsDirItem) : Bool :=
  decide (e.2.n = name.length ∧ slice node (e.1 + sizeofBtrfsDirItem) e.2.n = name)

/-- The child named by the first chained entry of a candidate item that matches `name`. -/
def nameToIdItem (parentID hash : Nat) (name : List Nat) (p : List Nat × BtrfsItem) :
    Option Nat :=
  if isCandidate parentID hash p.2 then
    ((itemDirEntries p.1 p.2).find? (entryMatches name p.1)).map (fun e => e.2.child.objectID)
  else none

/-- The child named by the first matching entry in traversal order, if there is one. -/
def nameToIdSpec (parentID hash : Nat) (name : List Nat) (items : List (List Nat × BtrfsItem)) :
    Option Nat :=
  items.findSome? (nameToIdItem parentID hash name)

/-! ## `FSOP_GET_FILE_PKG`: what the walk meets -/

/-- The items that the walk under `FSOP_GET_FILE_PKG` processes: those before the first
item whose key objectID exceeds the target. -/
def visitedItems (objectID : Nat) (items : List (List Nat × BtrfsItem)) :
    List (List Nat × BtrfsItem) :=
  items.takeWhile (fun p => decide (p.2.key.objectID ≤ objectID))

/-- The item is the `INODE_ITEM` of the target. -/
def isTargetInode (objectID : Nat) (p : List Nat × BtrfsItem) : Bool :=
  decide (p.2.key.type = TYPE_INODE_ITEM ∧ p.2.key.objectID = objectID)

/-- The item is an `EXTENT_DATA` item of the target. -/
def isTargetExtent (objectID : Nat) (p : List Nat × BtrfsItem) : Bool :=
  decide (p.2.key.type = TYPE_EXTENT_DATA ∧ p.2.key.objectID = objectID)

/-- The chained entry names the target as its child. -/
def entryNames (objectID : Nat) (e : Nat × BtrfsDirItem) : Bool :=
  decide (e.2.child.objectID = objectID)

/-- The item is a `DIR_ITEM` one of whose chained entries names the target. -/
def namesTarget (objectID : Nat) (p : List Nat × BtrfsItem) : Bool :=
  decide (p.2.key.type = TYPE_DIR_ITEM) && (itemDirEntries p.1 p.2).any (entryNames objectID)

/-- What `FSOP_GET_FILE_PKG` reads of an item lies inside the node and the name buffer: the
inode of the target is a whole `BtrfsInodeItem`; the chained entries of a `DIR_ITEM` are
inside the node and those naming the target have a name of at most 255 bytes; the payload
of an `EXTENT_DATA` item of the target is inside the node. -/
def FilePkgItemOk (objectID : Nat) (p : List Nat × BtrfsItem) : Prop :=
  (isTargetInode objectID p = true → payloadOff p.2 + sizeofBtrfsInodeItem ≤ p.1.length) ∧
    (p.2.key.type = TYPE_DIR_ITEM → ChainOk p.1 p.2 ∧
      ∀ e ∈ itemDirEntries p.1 p.2, entryNames objectID e = true → e.2.n ≤ 255) ∧
    (isTargetExtent objectID p = true → PayloadOk p.1 p.2)

instance (objectID : Nat) (p : List Nat × BtrfsItem) : Decidable (FilePkgItemOk objectID p) := by
  unfold FilePkgItemOk; infer_instance

/-- The return code with bit 0 clear iff `inode` and bit 1 clear iff `name`; bit 2 is
clear. -/
def rcOf (inode name : Bool) : Nat := (if inode then 0 else 0x1) + (if name then 0 else 0x2)

/-! ## FS tree, `FSOP_DIR_LIST` (`btrfs_trees.cpp`) -/

/-- What `parseFSTreeRec` updates under `FSOP_DIR_LIST`: the array `dirList->entries` with
its `dirList->numEntries` elements (the empty list when the array is `NULL`), the inode
buffer `temp`, the return code and the flag. The return code is an `int`; it changes by one
per entry, so it stays far from the ends of its range. -/
structure DirListState where
  entries : List FilePkg
  temp : List Nat
  returnCode : Int
  shortCircuit : Bool
  deriving DecidableEq, Repr

/-- The bytes of the string `.` with its terminator. -/
def strDot : List Nat := [0x2E, 0]

/-- The bytes of the string `..` with its terminator. -/
def strDotDot : List Nat := [0x2E, 0x2E, 0]

/-- The loop `for (j = 0; j < numEntries; j++)` of the newer revision: the inode is copied
into every entry whose objectID is that of the item, and the return code is decremented for
each of them. -/
def fillInodes (keyObjectID : Nat) (inodeItem : List Nat) :
    List FilePkg → Int → List FilePkg × Int
  | [], returnCode => ([], returnCode)
  | e :: rest, returnCode =>
    if keyObjectID = e.objectID then
      let r := fillInodes keyObjectID inodeItem rest (returnCode - 1)
      ({ e with inode := inodeItem } :: r.1, r.2)
    else
      let r := fillInodes keyObjectID inodeItem rest returnCode
      (e :: r.1, r.2)

/-- The number of entries before any entry is created by the walk: `.` for a directory
other than the root directory. -/
def seedCount (objectID : Nat) : Nat := if objectID = OBJID_ROOT_DIR then 0 else 1

/-- The branch for an `INODE_ITEM` under `FSOP_DIR_LIST`. The payload is read by the two
`memcpy` only: into `temp` while no entry has been created, and into the matching
entries. -/
def dirListInode (objectID : Nat) (node : List Nat) (item : BtrfsItem) (st : DirListState) :
    Except Fault DirListState :=
  if st.entries.length = seedCount objectID ∨
      st.entries.any (fun e => decide (item.key.objectID = e.objectID)) then
    match loadBytes node (payloadOff item) sizeofBtrfsInodeItem with
    | .error e => .error e
    | .ok inodeItem =>
      let r := fillInodes item.key.objectID inodeItem st.entries st.returnCode
      .ok { st with
        entries := r.1
        temp := if st.entries.length = seedCount objectID then inodeItem else st.temp
        returnCode := r.2 }
  else .ok st

/-- The copy of the name of a chained entry into the name buffer `name`: `memcpy` of at most
255 bytes, then the store `name[n] = 0`. -/
def copyName (name : List Nat) (node : List Nat) (entry : Nat) (dirItem : BtrfsDirItem) :
    Except Fault (List Nat) :=
  match loadBytes node (entry + sizeofBtrfsDirItem)
      (if dirItem.n ≤ 255 then dirItem.n else 255) with
  | .error e => .error e
  | .ok namePlusData => storeByte (memcpyInto name namePlusData) dirItem.n 0

/-- The special case for `..`: after the array has grown by one element, `entries[0]` gets
its `parentID` and the new element is filled. `fresh` is the content of newly allocated
memory. -/
def placeDotDot (keyObjectID : Nat) (fresh : FilePkg) (temp : List Nat) :
    List FilePkg → List FilePkg
  | [] =>
    [{ fresh with parentID := keyObjectID, objectID := keyObjectID,
                  name := memcpyInto fresh.name strDotDot, inode := temp }]
  | first :: rest =>
    ({ first with parentID := keyObjectID } :: rest) ++
      [{ fresh with objectID := keyObjectID, name := memcpyInto fresh.name strDotDot,
                    inode := temp }]

/-- The body of the chain loop under `FSOP_DIR_LIST`; `keyObjectID` is
`endian64(item->key.objectID)`, `fresh` the content of newly allocated memory. -/
def dirListDirEntry (objectID keyObjectID : Nat) (fresh : FilePkg) (node : List Nat)
    (entry : Nat) (dirItem : BtrfsDirItem) (st : DirListState) :
    Except Fault (DirListState × Bool) :=
  let placed : Except Fault DirListState :=
    if keyObjectID = objectID then
      match copyName fresh.name node entry dirItem with
      | .error e => .error e
      | .ok name =>
        .ok { st with
          entries := st.entries ++
            [{ fresh with objectID := dirItem.child.objectID, parentID := keyObjectID,
                          name := name }]
          returnCode := st.returnCode + 1 }
    else .ok st
  match placed with
  | .error e => .error e
  | .ok st1 =>
    if objectID ≠ OBJID_ROOT_DIR ∧ dirItem.child.objectID = objectID then
      .ok ({ st1 with entries := placeDotDot keyObjectID fresh st1.temp st1.entries }, false)
    else .ok (st1, false)

/-- The body of the leaf loop of `parseFSTreeRec` under `FSOP_DIR_LIST` for one item, with
the test `if (*shortCircuit) break;` that follows it. -/
def fsDirListItem (objectID : Nat) (fresh : FilePkg) (node : List Nat) (item : BtrfsItem)
    (st : DirListState) : Except Fault (DirListState × Bool) :=
  if item.key.type = TYPE_INODE_ITEM then
    match dirListInode objectID node item st with
    | .error e => .error e
    | .ok st1 => .ok (st1, st1.shortCircuit)
  else if item.key.type = TYPE_DIR_ITEM then
    match dirItemLoop (dirListDirEntry objectID item.key.objectID fresh node) node
        (payloadOff item) item.size (item.size + 1) 0 st with
    | .error e => .error e
    | .ok st1 => .ok (st1, st1.shortCircuit)
  else .ok (st, st.shortCircuit)

/-- The function `parseFSTreeRec` under `FSOP_DIR_LIST`. -/
def parseFSTreeRecDirList (load : Nat → Except Fault (List Nat)) (objectID : Nat)
    (fresh : FilePkg) : Nat → Nat → DirListState → Except Fault DirListState :=
  walkTree load none (fsDirListItem objectID fresh) (fun st => st.shortCircuit)

/-- Modelled from the spec: `DirList`, declared in a header that is not among the sources:
the array `entries` and the count `numEntries`. The array is `none` once it has been
freed. -/
structure DirList where
  entries : Option (List FilePkg)
  numEntries : Nat
  deriving DecidableEq, Repr

/-- The state before the walk under `FSOP_DIR_LIST`: the return code 0 and, for a directory
other than the root directory, the entry `.` and one more in the return code. -/
def dirListSeed (objectID : Nat) (fresh : FilePkg) (temp : List Nat) : DirListState :=
  if objectID ≠ OBJID_ROOT_DIR then
    { entries := [{ fresh with objectID := objectID, name := memcpyInto fresh.name strDot }]
      temp := temp, returnCode := 0 + 1, shortCircuit := false }
  else { entries := [], temp := temp, returnCode := 0, shortCircuit := false }

/-- The post-step under `FSOP_DIR_LIST`: the hidden flags when the return code is 0, the
release of the array otherwise. -/
def dirListPost (st : DirListState) : Int × DirList :=
  if st.returnCode = 0 then
    (st.returnCode,
      { entries := some (st.entries.map (fun e => { e with hidden := isHiddenName e.name }))
        numEntries := st.entries.length })
  else (st.returnCode, { entries := none, numEntries := st.entries.length })

/-- The function `parseFSTree` under `FSOP_DIR_LIST`: the return code and `*dirList`.
`fresh` is the content of newly allocated memory, `temp` that of the local `inode`. -/
def parseFSTreeDirList (load : Nat → Except Fault (List Nat)) (rootTree : List KeyedItem)
    (depth tree objectID : Nat) (fresh : FilePkg) (temp : List Nat) :
    Except Fault (Int × DirList) :=
  match getTreeRootAddr rootTree tree with
  | .error e => .error e
  | .ok addr =>
    match parseFSTreeRecDirList load objectID fresh depth addr (dirListSeed objectID fresh temp) with
    | .error e => .error e
    | .ok st => .ok (dirListPost st)

/-! ## FS tree, `FSOP_DIR_LIST`, older revision (`btrfs_system.cpp`) -/

/-- The loop `for (j = 0; j < numEntries; j++)` of the older revision: it ends with `break`
at the first entry whose objectID is that of the item. -/
def fillInodeFirst (keyObjectID : Nat) (inodeItem : List Nat) :
    List FilePkg → Int → List FilePkg × Int
  | [], returnCode => ([], returnCode)
  | e :: rest, returnCode =>
    if keyObjectID = e.objectID then ({ e with inode := inodeItem } :: rest, returnCode - 1)
    else
      let r := fillInodeFirst keyObjectID inodeItem rest returnCode
      (e :: r.1, r.2)

/-- The branch for an `INODE_ITEM` under `FSOP_DIR_LIST` in the older revision, which
first asserts that the inode lies inside the node block. -/
def dirListInodeOld (nodeSize objectID : Nat) (node : List Nat) (item : BtrfsItem)
    (st : DirListState) : Except Fault DirListState :=
  if ¬ (payloadOff item + sizeofBtrfsInodeItem ≤ nodeSize) then .error .assertFailed
  else if st.entries.length = seedCount objectID ∨
      st.entries.any (fun e => decide (item.key.objectID = e.objectID)) then
    match loadBytes node (payloadOff item) sizeofBtrfsInodeItem with
    | .error e => .error e
    | .ok inodeItem =>
      let r := fillInodeFirst item.key.objectID inodeItem st.entries st.returnCode
      .ok { st with
        entries := r.1
        temp := if st.entries.length = seedCount objectID then inodeItem else st.temp
        returnCode := r.2 }
  else .ok st

/-- The `while (true)` loop over the chained entries as the older revision writes it: each
entry is asserted to lie inside the node block, and the loop advances if
`item->size > sizeof(BtrfsDirItem) + m + n`, with no account of the entries already passed.
`pos` is the offset of `dirItem` in the node. Every advance is by at least
`sizeof(BtrfsDirItem)` and the assertion bounds `pos`, so `nodeSize + 1` iterations are a
sufficient budget. -/
def dirItemLoopOld {σ : Type} (nodeSize : Nat)
    (body : Nat → BtrfsDirItem → σ → Except Fault (σ × Bool)) (node : List Nat) (size : Nat) :
    Nat → Nat → σ → Except Fault σ
  | 0, _, _ => .error .outOfFuel
  | fuel + 1, pos, st =>
    if ¬ (pos + sizeofBtrfsDirItem ≤ nodeSize) then .error .assertFailed
    else
      match loadDirItem node pos with
      | .error e => .error e
      | .ok dirItem =>
        if ¬ (pos + sizeofBtrfsDirItem + dirItem.m + dirItem.n ≤ nodeSize) then
          .error .assertFailed
        else
          match body pos dirItem st with
          | .error e => .error e
          | .ok (st', leave) =>
            if leave then .ok st'
            else if size > sizeofBtrfsDirItem + dirItem.m + dirItem.n then
              dirItemLoopOld nodeSize body node size fuel
                (pos + sizeofBtrfsDirItem + dirItem.m + dirItem.n) st'
            else .ok st'

/-- The body of the leaf loop of the older `parseFSTreeRec` under `FSOP_DIR_LIST` for one
item; the body of its chain loop is that of the newer revision. -/
def fsDirListItemOld (nodeSize objectID : Nat) (fresh : FilePkg) (node : List Nat)
    (item : BtrfsItem) (st : DirListState) : Except Fault (DirListState × Bool) :=
  if item.key.type = TYPE_INODE_ITEM then
    match dirListInodeOld nodeSize objectID node item st with
    | .error e => .error e
    | .ok st1 => .ok (st1, st1.shortCircuit)
  else if item.key.type = TYPE_DIR_ITEM then
    match dirItemLoopOld nodeSize (dirListDirEntry objectID item.key.objectID fresh node) node
        item.size (nodeSize + 1) (payloadOff item) st with
    | .error e => .error e
    | .ok st1 => .ok (st1, st1.shortCircuit)
  else .ok (st, st.shortCircuit)

/-- The older `parseFSTreeRec` under `FSOP_DIR_LIST`; it asserts the tree id of every
node. -/
def parseFSTreeRecDirListOld (load : Nat → Except Fault (List Nat)) (nodeSize objectID : Nat)
    (fresh : FilePkg) : Nat → Nat → DirListState → Except Fault DirListState :=
  walkTree load (some OBJID_FS_TREE) (fsDirListItemOld nodeSize objectID fresh)
    (fun st => st.shortCircuit)

/-- The older `parseFSTree` under `FSOP_DIR_LIST`; `fsRootBlockNum` is the value of
`getFSRootBlockNum()`. The pre-step and the post-step are those of the newer revision. -/
def parseFSTreeDirListOld (load : Nat → Except Fault (List Nat))
    (nodeSize fsRootBlockNum depth objectID : Nat) (fresh : FilePkg) (temp : List Nat) :
    Except Fault (Int × DirList) :=
  match parseFSTreeRecDirListOld load nodeSize objectID fresh depth fsRootBlockNum
      (dirListSeed objectID fresh temp) with
  | .error e => .error e
  | .ok st => .ok (dirListPost st)

/-! ## `FSOP_GET_FILE_PKG` without early termination -/

/-- The full walk that the specification compares the early termination with: the body of
the leaf loop under `FSOP_GET_FILE_PKG` without the test `item->key.objectID > *objectID`.
It is not in the source. -/
def fsGetFilePkgItemFullWalk (objectID : Nat) (node : List Nat) (item : BtrfsItem)
    (st : GetFilePkgState) : Except Fault (GetFilePkgState × Bool) :=
  match getFilePkgBranches objectID node item st with
  | .error e => .error e
  | .ok st1 => .ok (st1, st1.shortCircuit)

/-- The full walk of `parseFSTree(FSOP_GET_FILE_PKG)`: the pre-step and the post-step of
`parseFSTreeGetFilePkg` around a walk that never stops early. It is not in the source. -/
def parseFSTreeGetFilePkgFullWalk (load : Nat → Except Fault (List Nat))
    (rootTree : List KeyedItem) (depth tree objectID : Nat) (filePkg : FilePkg) :
    Except Fault (Nat × FilePkg) :=
  let returnCode := if objectID ≠ OBJID_ROOT_DIR then 0x1 ||| 0x2 else 0x1
  let filePkg := { filePkg with objectID := objectID, numExtents := 0, extents := [] }
  let filePkg :=
    if objectID = OBJID_ROOT_DIR then
      { filePkg with name := memcpyInto filePkg.name strRootDir, parentID := 0x0 }
    else filePkg
  match getTreeRootAddr rootTree tree with
  | .error e => .error e
  | .ok addr =>
    match walkTree load none (fsGetFilePkgItemFullWalk objectID) (fun st => st.shortCircuit)
        depth addr { filePkg := filePkg, returnCode := returnCode, shortCircuit := false } with
    | .error e => .error e
    | .ok st =>
      if st.returnCode = 0 then
        .ok (st.returnCode, { st.filePkg with hidden := isHiddenName st.filePkg.name })
      else .ok (st.returnCode, st.filePkg)

/-! ## Legal chains of directory entries -/

/-- Offsets of back-to-back entries with the given `(m, n)`, the first at `off`: each entry
starts where the preceding one, of length `sizeof(BtrfsDirItem) + m + n`, ends. -/
def chainOffsets : List (Nat × Nat) → Nat → List Nat
  | [], _ => []
  | (m, n) :: rest, off => off :: chainOffsets rest (off + sizeofBtrfsDirItem + m + n)

/-- Sum of the lengths `sizeof(BtrfsDirItem) + m + n` of the entries. -/
def chainLength : List (Nat × Nat) → Nat
  | [] => 0
  | (m, n) :: rest => sizeofBtrfsDirItem + m + n + chainLength rest

/-- The bytes at `base + off` of the node are back-to-back entries that declare the given
`(m, n)`. -/
def LegalChain (node : List Nat) (base : Nat) : List (Nat × Nat) → Nat → Prop
  | [], _ => True
  | (m, n) :: rest, off =>
    (readDirItem node (base + off)).m = m ∧ (readDirItem node (base + off)).n = n ∧
      LegalChain node base rest (off + sizeofBtrfsDirItem + m + n)

instance (node : List Nat) (base : Nat) :
    ∀ (lens : List (Nat × Nat)) (off : Nat), Decidable (LegalChain node base lens off)
  | [], _ => isTrue trivial
  | (m, n) :: rest, off =>
    have := instDecidableLegalChain node base rest (off + sizeofBtrfsDirItem + m + n)
    by unfold LegalChain; infer_instance

/-! ## `FSOP_DIR_LIST`: what the walk places -/

/-- The identity of an entry of a directory list: its objectID, its parentID and its name
buffer. -/
def face (e : FilePkg) : Nat × Nat × List Nat := (e.objectID, e.parentID, e.name)

/-- The name buffer that holds `name` as a C string: the bytes of the name, a terminator,
and after it what the buffer held before. -/
def nameBuffer (buf name : List Nat) : List Nat := name ++ [0] ++ buf.drop (name.length + 1)

/-- The chained entries of the `DIR_ITEM`s of a sequence of items, in traversal order, each
with its item. -/
def treeDirEntries (items : List (List Nat × BtrfsItem)) :
    List ((List Nat × BtrfsItem) × (Nat × BtrfsDirItem)) :=
  match items with
  | [] => []
  | p :: rest =>
    (if p.2.key.type = TYPE_DIR_ITEM then (itemDirEntries p.1 p.2).map (fun e => (p, e))
      else []) ++ treeDirEntries rest

/-- The name bytes of a chained entry: the `n` bytes after its fixed part. -/
def entryName (x : (List Nat × BtrfsItem) × (Nat × BtrfsDirItem)) : List Nat :=
  slice x.1.1 (x.2.1 + sizeofBtrfsDirItem) x.2.2.n

/-- The chained entry names the directory `objectID`, which is not the root directory: the
case of `..`. -/
def namesDir (objectID : Nat) (x : (List Nat × BtrfsItem) × (Nat × BtrfsDirItem)) : Bool :=
  decide (objectID ≠ OBJID_ROOT_DIR ∧ x.2.2.child.objectID = objectID)

/-- The entries that one chained entry adds to the list of directory `objectID`: an entry
for the child when the item belongs to the directory, then an entry `..` when the chained
entry names the directory. -/
def placedFaces (objectID : Nat) (fresh : FilePkg)
    (x : (List Nat × BtrfsItem) × (Nat × BtrfsDirItem)) : List (Nat × Nat × List Nat) :=
  (if x.1.2.key.objectID = objectID then
      [(x.2.2.child.objectID, objectID, nameBuffer fresh.name (entryName x))]
    else []) ++
    (if namesDir objectID x = true then
      [(x.1.2.key.objectID, fresh.parentID, memcpyInto fresh.name strDotDot)]
    else [])

/-- The first identity of a list with its parentID replaced. -/
def setHeadParent (parent : Nat) : List (Nat × Nat × List Nat) → List (Nat × Nat × List Nat)
  | [] => []
  | (objectID, _, name) :: rest => (objectID, parent, name) :: rest

/-- The effect of one chained entry on the identities of the entries of the list. -/
def stepFaces (objectID : Nat) (fresh : FilePkg) (faces : List (Nat × Nat × List Nat))
    (x : (List Nat × BtrfsItem) × (Nat × BtrfsDirItem)) : List (Nat × Nat × List Nat) :=
  (if namesDir objectID x = true then setHeadParent x.1.2.key.objectID faces else faces) ++
    placedFaces objectID fresh x

/-- The parentID that `.` ends with: the key objectID of the last chained entry, in
traversal order, that names the directory; `parent` if there is none. -/
def dotParent (objectID : Nat) (xs : List ((List Nat × BtrfsItem) × (Nat × BtrfsDirItem)))
    (parent : Nat) : Nat :=
  match (xs.filter (fun x => decide (x.2.2.child.objectID = objectID))).getLast? with
  | some x => x.1.2.key.objectID
  | none => parent

/-- What `FSOP_DIR_LIST` reads of an item lies inside the node and the name buffers: an
`INODE_ITEM` is a whole `BtrfsInodeItem`; the chained entries of a `DIR_ITEM` are inside
the node, and those of a `DIR_ITEM` of the directory have a name of at most 255 bytes. -/
def DirListItemOk (objectID : Nat) (p : List Nat × BtrfsItem) : Prop :=
  (p.2.key.type = TYPE_INODE_ITEM → payloadOff p.2 + sizeofBtrfsInodeItem ≤ p.1.length) ∧
    (p.2.key.type = TYPE_DIR_ITEM → ChainOk p.1 p.2 ∧
      (p.2.key.objectID = objectID → ∀ e ∈ itemDirEntries p.1 p.2, e.2.n ≤ 255))

instance (objectID : Nat) (p : List Nat × BtrfsItem) : Decidable (DirListItemOk objectID p) := by
  unfold DirListItemOk; infer_instance

/-- The name is one that is hidden: it starts with a dot and is neither `.` nor `..`. -/
def HiddenName (name : List Nat) : Prop :=
  name.head? = some 0x2E ∧ name ≠ [0x2E] ∧ name ≠ [0x2E, 0x2E]

instance (name : List Nat) : Decidable (HiddenName name) := by
  unfold HiddenName; infer_instance

/-! ## The point at which a walk is cut short -/

/-- The walk from `addr`, entered with state `st`, reaches a leaf item at which the hook
leaves the loop with state `st'`. The predicate describes the path to that item only: the
items of the leaf before it, and, in every node on the path, the key pointers before the
one that is followed, each the root of a tree that the walk passes without the flag being
set. It says nothing about what comes after the item: the later items of the leaf, the
later key pointers and the nodes they lead to. -/
inductive StopsAt {σ : Type} (load : Nat → Except Fault (List Nat)) (treeID : Option Nat)
    (hook : List Nat → BtrfsItem → σ → Except Fault (σ × Bool)) (flag : σ → Bool) :
    Nat → Nat → σ → σ → Prop
  | leaf (h addr : Nat) (node : List Nat) (i : Nat) (st st1 st' : σ) :
      load addr = .ok node → sizeofBtrfsHeader ≤ node.length →
      TreeIDOk treeID (readHeader node) → (readHeader node).level = 0 →
      i < (readHeader node).nrItems →
      sizeofBtrfsHeader + (i + 1) * sizeofBtrfsItem ≤ node.length →
      walkItems hook ((List.range' 0 i).map (fun j => (node, readItem node j))) st = .ok st1 →
      flag st1 = false →
      hook node (readItem node i) st1 = .ok (st', true) →
      StopsAt load treeID hook flag h addr st st'
  | inner (h addr : Nat) (node : List Nat) (done : List (Nat × List (List Nat))) (next : Nat)
      (st st1 st' : σ) :
      load addr = .ok node → sizeofBtrfsHeader ≤ node.length →
      TreeIDOk treeID (readHeader node) → (readHeader node).level ≠ 0 →
      done.length < (readHeader node).nrItems →
      (∀ i (hi : i < done.length), loadKeyPtr node i = .ok (done.get ⟨i, hi⟩).1) →
      (∀ k ∈ done, TreeAt load treeID h k.1 k.2) →
      (∀ k ∈ done, ∀ leafNode ∈ k.2, LeafOk leafNode) →
      walkItems hook (treeItems (done.map (fun k => k.2)).flatten) st = .ok st1 →
      flag st1 = false →
      loadKeyPtr node done.length = .ok next →
      StopsAt load treeID hook flag h next st1 st' →
      StopsAt load treeID hook flag (h + 1) addr st st'

/-! ## Canonical key order -/

/-- The canonical order of keys: lexicographic on `(objectID, type, offset)`. -/
def keyLe (a b : BtrfsDiskKey) : Prop :=
  a.objectID < b.objectID ∨
    (a.objectID = b.objectID ∧ (a.type < b.type ∨ (a.type = b.type ∧ a.offset ≤ b.offset)))

instance (a b : BtrfsDiskKey) : Decidable (keyLe a b) := by
  unfold keyLe; infer_instance

/-- The key of the `i`-th key pointer of a non-leaf node. -/
def keyPtrKey (node : List Nat) (i : Nat) : BtrfsDiskKey :=
  readKey node (sizeofBtrfsHeader + i * sizeofBtrfsKeyPtr)

/-- The keys of the items of a sequence of leaves, in traversal order. -/
def treeKeys (leaves : List (List Nat)) : List BtrfsDiskKey :=
  (treeItems leaves).map (fun p => p.2.key)

/-- A valid tree of height at most `h` is rooted at `addr`, and `leaves` are its leaf nodes
from left to right. It is a tree in the sense of `TreeAt` whose leaves hold their item
arrays; the items of every leaf and the key pointers of every other node are stored in
canonical order, and the keys below the `i`-th key pointer of a node are bounded by the
key pointers: none is less than the key of that pointer, none is greater than the key of
the pointer that follows. -/
inductive ValidTreeAt (load : Nat → Except Fault (List Nat)) (treeID : Option Nat) :
    Nat → Nat → List (List Nat) → Prop
  | leaf (h addr : Nat) (node : List Nat) :
      load addr = .ok node → sizeofBtrfsHeader ≤ node.length →
      TreeIDOk treeID (readHeader node) → (readHeader node).level = 0 →
      LeafOk node →
      List.Pairwise keyLe ((leafItems node).map (fun item => item.key)) →
      ValidTreeAt load treeID h addr [node]
  | inner (h addr : Nat) (node : List Nat) (kids : List (Nat × List (List Nat))) :
      load addr = .ok node → sizeofBtrfsHeader ≤ node.length →
      TreeIDOk treeID (readHeader node) → (readHeader node).level ≠ 0 →
      kids.length = (readHeader node).nrItems →
      (∀ i (hi : i < kids.length), loadKeyPtr node i = .ok (kids.get ⟨i, hi⟩).1) →
      List.Pairwise keyLe ((List.range kids.length).map (keyPtrKey node)) →
      (∀ i (hi : i < kids.length), ∀ key ∈ treeKeys (kids.get ⟨i, hi⟩).2,
        keyLe (keyPtrKey node i) key) →
      (∀ i (hi : i + 1 < kids.length),
        ∀ key ∈ treeKeys (kids.get ⟨i, Nat.lt_of_succ_lt hi⟩).2,
          keyLe key (keyPtrKey node (i + 1))) →
      (∀ k ∈ kids, ValidTreeAt load treeID h k.1 k.2) →
      ValidTreeAt load treeID (h + 1) addr (kids.map (fun k => k.2)).flatten

/-! ## Item types that an operation handles -/

/-- The item types that have a `case` in the `switch` of the chunk-tree Load, in both
revisions. -/
def chunkTreeKnown (type : Nat) : Bool :=
  decide (type = TYPE_DEV_ITEM) || decide (type = TYPE_CHUNK_ITEM)

/-- The items of a leaf, each with the node, as the leaf loop meets them. -/
def leafPairs (node : List Nat) : List (List Nat × BtrfsItem) :=
  (leafItems node).map (fun item => (node, item))

/-! ## Levels of the nodes -/

/-- The precondition under which the recursion of the walkers is well-founded, for the
nodes that `load` returns: every node holds a whole header and passes the assertion on its
tree id, and every key pointer of a node of level `L > 0` lies inside the node and refers
to a node that loads and whose level is `L - 1`. -/
def LevelsDescend (load : Nat → Except Fault (List Nat)) (treeID : Option Nat) : Prop :=
  ∀ addr node, load addr = .ok node →
    sizeofBtrfsHeader ≤ node.length ∧ TreeIDOk treeID (readHeader node) ∧
      ((readHeader node).level ≠ 0 → ∀ i, i < (readHeader node).nrItems →
        ∃ child cnode, loadKeyPtr node i = .ok child ∧ load child = .ok cnode ∧
          (readHeader cnode).level + 1 = (readHeader node).level)

/-! ## FS tree, `FSOP_DUMP_TREE` (`btrfs_trees.cpp`) -/

/-- Modelled from the spec: key type `XATTR_ITEM`. -/
def TYPE_XATTR_ITEM : Nat := 0x18

/-- Modelled from the spec: key type `DIR_INDEX`. -/
def TYPE_DIR_INDEX : Nat := 0x60

/-- Modelled from the spec: the extent type `FILEDATA_INLINE`. -/
def FILEDATA_INLINE : Nat := 0

/-- Modelled from the spec: `sizeof(BtrfsExtentData)`, the part of an extent payload that
precedes the inline data or the non-inline part; the last of its bytes is `type`. -/
def sizeofBtrfsExtentData : Nat := 0x15

/-- Modelled from the spec: offset of `stSize` in `BtrfsInodeItem`. -/
def offStSize : Nat := 0x10

/-- Modelled from the spec: offset of `stUID` in `BtrfsInodeItem`. -/
def offStUID : Nat := 0x2c

/-- Modelled from the spec: offset of `stGID` in `BtrfsInodeItem`. -/
def offStGID : Nat := 0x30

/-- The table `fdTypeStrs` of `parseFSTreeRec`: four strings, `inline`, `regular`,
`prealloc` and `unknown`. -/
def fdTypeStrs : List (List Nat) :=
  [[0x69, 0x6E, 0x6C, 0x69, 0x6E, 0x65], [0x72, 0x65, 0x67, 0x75, 0x6C, 0x61, 0x72],
   [0x70, 0x72, 0x65, 0x61, 0x6C, 0x6C, 0x6F, 0x63], [0x75, 0x6E, 0x6B, 0x6E, 0x6F, 0x77, 0x6E]]

/-- One line that `parseFSTreeRec` prints under `FSOP_DUMP_TREE`: the `printf` statement
and the values it is given after the format. A name is the C string held by the buffer
`name`; `mode` is the `stMode` handed to `stModeToStr`, which is not among the sources;
`first` tells whether the line of a chained entry begins with the index of the item. -/
inductive DumpLine where
  | node (tree addr level nrItems : Nat)
  | keyPtr (i objectID offset blockNum generation : Nat)
  | inodeItem (i objectID uid gid mode size : Nat)
  | inodeRef (i objectID : Nat) (name : List Nat) (parent : Nat)
  | xattrItem (first : Bool) (i objectID hash : Nat) (name : List Nat)
  | dirItem (first : Bool) (i objectID hash child : Nat) (name : List Nat)
  | dirIndex (i objectID offset : Nat)
  | extentData (i objectID offset size : Nat) (type : List Nat)
  | extentNonInline (addr size offset : Nat)
  | unknown (i objectID type offset : Nat)
  deriving DecidableEq, Repr

/-- The body of the chain loop of the `XATTR_ITEM` and `DIR_ITEM` cases under
`FSOP_DUMP_TREE`: the `n` bytes of the name are copied into a new buffer of `n + 1` bytes,
then the line is printed. `first` is the offset of the first entry of the item. -/
def dumpDirEntry (xattr : Bool) (i : Nat) (key : BtrfsDiskKey) (first : Nat) (node : List Nat)
    (entry : Nat) (dirItem : BtrfsDirItem) (out : List DumpLine) :
    Except Fault (List DumpLine × Bool) :=
  match loadBytes node (entry + sizeofBtrfsDirItem) dirItem.n with
  | .error e => .error e
  | .ok name =>
    if xattr then
      .ok (out ++ [.xattrItem (decide (entry = first)) i key.objectID key.offset
        (cstr (name ++ [0]))], false)
    else
      .ok (out ++ [.dirItem (decide (entry = first)) i key.objectID key.offset
        dirItem.child.objectID (cstr (name ++ [0]))], false)

/-- The `switch` of the leaf loop of `parseFSTreeRec` under `FSOP_DUMP_TREE` for the item
of index `i`; the state is what has been printed. The extent-type name is the element of
`fdTypeStrs` at the index `extentData->type`. -/
def fsDumpItem (node : List Nat) (i : Nat) (item : BtrfsItem) (out : List DumpLine) :
    Except Fault (List DumpLine) :=
  if item.key.type = TYPE_INODE_ITEM then do
    let mode ← loadLE node (payloadOff item + offStMode) 4
    let uid ← loadLE node (payloadOff item + offStUID) 4
    let gid ← loadLE node (payloadOff item + offStGID) 4
    let size ← loadLE node (payloadOff item + offStSize) 8
    return out ++ [.inodeItem i item.key.objectID uid gid mode size]
  else if item.key.type = TYPE_INODE_REF then do
    let len ← loadLE node (payloadOff item + 8) 2
    let name ← loadBytes node (payloadOff item + sizeofBtrfsInodeRef) len
    return out ++ [.inodeRef i item.key.objectID (cstr (name ++ [0])) item.key.offset]
  else if item.key.type = TYPE_XATTR_ITEM then
    dirItemLoop (dumpDirEntry true i item.key (payloadOff item) node) node (payloadOff item)
      item.size (item.size + 1) 0 out
  else if item.key.type = TYPE_DIR_ITEM then
    dirItemLoop (dumpDirEntry false i item.key (payloadOff item) node) node (payloadOff item)
      item.size (item.size + 1) 0 out
  else if item.key.type = TYPE_DIR_INDEX then
    .ok (out ++ [.dirIndex i item.key.objectID item.key.offset])
  else if item.key.type = TYPE_EXTENT_DATA then do
    let n ← loadLE node (payloadOff item + 8) 8
    let type ← loadLE node (payloadOff item + 0x14) 1
    match fdTypeStrs[type]? with
    | none => throw Fault.outOfBounds
    | some typeStr =>
      let out := out ++ [.extentData i item.key.objectID item.key.offset n typeStr]
      if type ≠ FILEDATA_INLINE then do
        let extAddr ← loadLE node (payloadOff item + sizeofBtrfsExtentData) 8
        let extSize ← loadLE node (payloadOff item + sizeofBtrfsExtentData + 8) 8
        let offset ← loadLE node (payloadOff item + sizeofBtrfsExtentData + 0x10) 8
        return out ++ [.extentNonInline extAddr extSize offset]
      else return out
  else .ok (out ++ [.unknown i item.key.objectID item.key.type item.key.offset])

/-- The `for` loop over the items of a leaf under `FSOP_DUMP_TREE`. -/
def dumpLeafLoop (node : List Nat) : Nat → Nat → List DumpLine → Except Fault (List DumpLine)
  | 0, _, out => .ok out
  | count + 1, i, out =>
    match loadItem node i with
    | .error e => .error e
    | .ok item =>
      match fsDumpItem node i item out with
      | .error e => .error e
      | .ok out' => dumpLeafLoop node count (i + 1) out'

/-- The first `for` loop over the key pointers of a non-leaf node under `FSOP_DUMP_TREE`,
which prints them. -/
def dumpKeyPtrs (node : List Nat) : Nat → Nat → List DumpLine → Except Fault (List DumpLine)
  | 0, _, out => .ok out
  | count + 1, i, out =>
    if sizeofBtrfsHeader + i * sizeofBtrfsKeyPtr + sizeofBtrfsKeyPtr ≤ node.length then
      dumpKeyPtrs node count (i + 1)
        (out ++ [.keyPtr i (keyPtrKey node i).objectID (keyPtrKey node i).offset
          (readLE node (sizeofBtrfsHeader + i * sizeofBtrfsKeyPtr + 0x11) 8)
          (readLE node (sizeofBtrfsHeader + i * sizeofBtrfsKeyPtr + 0x19) 8)])
    else .error .outOfBounds

/-- The function `parseFSTreeRec` under `FSOP_DUMP_TREE`: the line of the node, then the
items of a leaf, or the key pointers of any other node and the recursion into each of
them. No case of this operation sets `*shortCircuit`, so the test after the recursive call
never leaves the loop. The source recursion has no bound; the model takes the depth it may
reach. -/
def parseFSTreeRecDumpTree (load : Nat → Except Fault (List Nat)) :
    Nat → Nat → List DumpLine → Except Fault (List DumpLine)
  | 0, _, _ => .error .outOfFuel
  | depth + 1, addr, out =>
    match load addr with
    | .error e => .error e
    | .ok node =>
      match loadHeader node with
      | .error e => .error e
      | .ok header =>
        let out := out ++ [.node header.tree addr header.level header.nrItems]
        if header.level = 0 then dumpLeafLoop node header.nrItems 0 out
        else
          match dumpKeyPtrs node header.nrItems 0 out with
          | .error e => .error e
          | .ok out' =>
            keyPtrLoop (fun _ => false) (parseFSTreeRecDumpTree load depth) node
              header.nrItems 0 out'

/-- The function `parseFSTree` under `FSOP_DUMP_TREE`: the return code, which starts at 0
and is not changed, and what is printed. -/
def parseFSTreeDumpTree (load : Nat → Except Fault (List Nat)) (rootTree : List KeyedItem)
    (depth tree : Nat) : Except Fault (Int × List DumpLine) :=
  match getTreeRootAddr rootTree tree with
  | .error e => .error e
  | .ok addr =>
    match parseFSTreeRecDumpTree load depth addr [] with
    | .error e => .error e
    | .ok out => .ok (0, out)

/-! ## Chain loops that record the entries they visit -/

/-- A body of the chain loop that records the offset of the entry it is given and does
nothing else. -/
def recordEntry (entry : Nat) (_dirItem : BtrfsDirItem) (visited : List Nat) :
    Except Fault (List Nat × Bool) :=
  .ok (visited ++ [entry], false)

/-! ## Concrete inputs -/

/-- Little-endian bytes of `n`, `width` of them. -/
def leEncode : Nat → Nat → List Nat
  | 0, _ => []
  | width + 1, n => n % 256 :: leEncode width (n / 256)

/-- Bytes `0x20 .. 0x1000` of a superblock image that holds its own physical address,
the magic and a generation, every other field being zero. -/
def sbBody (paddr gen : Nat) (magicBytes : List Nat) : List Nat :=
  List.replicate 16 0 ++ leEncode 8 paddr ++ List.replicate 8 0 ++ magicBytes ++ leEncode 8 gen
    ++ List.replicate (0x1000 - 0x50) 0

/-- Superblock image with the stored checksum `csum`. -/
def mkSB (csum paddr gen : Nat) (magicBytes : List Nat) : List Nat :=
  leEncode 4 csum ++ List.replicate 28 0 ++ sbBody paddr gen magicBytes

/-- Chunk covering logical `[0, 100)`, backed at physical `1000`. -/
def overlapLo : Chunk :=
  { logiOffset := 0
    chunkItem := ⟨100, 3, 0x10000, 2, 0, 0, 0, 1, 0⟩
    stripes := [⟨1, 1000, []⟩] }

/-- Chunk covering logical `[50, 150)`, backed at physical `5000`; it overlaps `overlapLo`. -/
def overlapHi : Chunk :=
  { logiOffset := 50
    chunkItem := ⟨100, 3, 0x10000, 2, 0, 0, 0, 1, 0⟩
    stripes := [⟨1, 5000, []⟩] }

/-- Chunk list with two overlapping chunks. -/
def overlapChunks : List Chunk := [overlapLo, overlapHi]

/-- Chunk covering logical `[200, 300)` with two stripes (a DUP chunk). -/
def dupChunk : Chunk :=
  { logiOffset := 200
    chunkItem := ⟨100, 3, 0x10000, 0x22, 0, 0, 0, 2, 0⟩
    stripes := [⟨1, 7000, []⟩, ⟨1, 9000, []⟩] }

/-- Chunk covering logical `[0, 0x800000)`, backed at physical `0x100000`. -/
def lowChunk : Chunk :=
  { logiOffset := 0
    chunkItem := ⟨0x800000, 3, 0x10000, 2, 0, 0, 0, 1, 0⟩
    stripes := [⟨1, 0x100000, []⟩] }

/-- Valid superblock copy 1, generation 10. -/
def sbCopy1 : List Nat := mkSB 55808389 SUPERBLOCK_1_PADDR 10 magic

/-- Valid superblock copy 2, generation 10. -/
def sbCopy2 : List Nat := mkSB 3447451685 SUPERBLOCK_2_PADDR 10 magic

/-- Valid superblock copy 2, generation 20. -/
def sbCopy2New : List Nat := mkSB 1883336860 SUPERBLOCK_2_PADDR 20 magic

/-- Valid superblock copy 3, generation 30. -/
def sbCopy3 : List Nat := mkSB 704743670 SUPERBLOCK_3_PADDR 30 magic

/-- Corrupted superblock copy 1 (the stored checksum is wrong), generation 50. -/
def sbBadPrimary : List Nat := mkSB 0 SUPERBLOCK_1_PADDR 50 magic

/-- Corrupted superblock copy 1 (the stored checksum is wrong), generation 5. -/
def sbBadPrimaryOld : List Nat := mkSB 0 SUPERBLOCK_1_PADDR 5 magic

/-- Block reader of a device that holds superblock-sized blocks `c1`, `c2`, `c3`, `c4`
(when present) at the four superblock addresses and refuses every other read. -/
def sbDevice (c1 c2 c3 c4 : Option (List Nat)) (addr len : Nat) : Option (List Nat) :=
  if len ≠ sizeofBtrfsSuperblock then none
  else if addr = SUPERBLOCK_1_PADDR then c1
  else if addr = SUPERBLOCK_2_PADDR then c2
  else if addr = SUPERBLOCK_3_PADDR then c3
  else if addr = SUPERBLOCK_4_PADDR then c4
  else none

/-- Device with three valid copies, of generations 10, 10 and 30; copy 4 is absent. -/
def devThreeCopies : Nat → Nat → Option (List Nat) :=
  sbDevice (some sbCopy1) (some sbCopy2) (some sbCopy3) none

/-- Device with two valid copies, of generations 10 and 20. -/
def devTwoCopies : Nat → Nat → Option (List Nat) :=
  sbDevice (some sbCopy1) (some sbCopy2New) none none

/-- Device whose copy 1 is valid, whose block at the address of copy 2 is zero-filled
and whose copies 3 and 4 cannot be read. -/
def devOnlyPrimary : Nat → Nat → Option (List Nat) :=
  sbDevice (some sbCopy1) (some (List.replicate 0x1000 0)) none none

/-- Device whose copy 1 is corrupted with generation 50 and whose copy 2 is valid with
generation 20. -/
def devBadPrimary : Nat → Nat → Option (List Nat) :=
  sbDevice (some sbBadPrimary) (some sbCopy2New) none none

/-- Device whose copy 1 is corrupted with generation 5 and whose copy 2 is valid with
generation 20. -/
def devBadPrimaryOld : Nat → Nat → Option (List Nat) :=
  sbDevice (some sbBadPrimaryOld) (some sbCopy2New) none none

/-- Bytes of a disk key. -/
def mkKey (objectID type offset : Nat) : List Nat :=
  leEncode 8 objectID ++ [type] ++ leEncode 8 offset

/-- Bytes of a chunk item of the given size and number of stripes. -/
def mkItem (chunkSize numStripes : Nat) : List Nat :=
  leEncode 8 chunkSize ++ leEncode 8 3 ++ leEncode 8 0x10000 ++ leEncode 8 2 ++
    leEncode 4 0x10000 ++ leEncode 4 0x10000 ++ leEncode 4 0x1000 ++ leEncode 2 numStripes ++
    leEncode 2 0

/-- Bytes of a stripe. -/
def mkStripe (devID offset : Nat) : List Nat :=
  leEncode 8 devID ++ leEncode 8 offset ++ List.replicate 16 0xAB

/-- Record of a chunk at logical 0 with one stripe. -/
def recSys : SBRecord :=
  { key := mkKey 0x100 0xE8 0, item := mkItem 0x400000 1, stripes := [mkStripe 1 0] }

/-- Record of a chunk at logical `0x1400000` with two stripes. -/
def recDup : SBRecord :=
  { key := mkKey 0x100 0xE8 0x1400000
    item := mkItem 0x800000 2
    stripes := [mkStripe 1 0x1400000, mkStripe 1 0x1C00000] }

/-- Superblock image whose field `n` and embedded chunk array are given, every other
byte being zero. -/
def sbWithChunks (n : Nat) (chunkData : List Nat) : List Nat :=
  List.replicate 0xa0 0 ++ leEncode 4 n ++ List.replicate (0x32b - 0xa4) 0 ++ chunkData ++
    List.replicate (0x1000 - 0x32b - chunkData.length) 0

/-- Superblock whose chunk array holds `recSys` then `recDup`. -/
def sbTwoRecords : List Nat := sbWithChunks 226 (recordBytes [recSys, recDup])

/-- Superblock whose chunk array holds `recSys` then a record whose key has type `0xE4`. -/
def sbBadSecondKey : List Nat :=
  sbWithChunks 194 (recordBytes [recSys] ++ mkKey 0x100 0xE4 0x1400000 ++ mkItem 0x800000 1 ++
    mkStripe 1 0x1400000)

/-- Superblock image with the given root-tree and chunk-tree addresses, node size and
embedded chunk array of `n` bytes, every other byte being zero. -/
def mkSuper (rootTreeLAddr chunkTreeLAddr nodeSize n : Nat) (chunkData : List Nat) : List Nat :=
  List.replicate 0x50 0 ++ leEncode 8 rootTreeLAddr ++ leEncode 8 chunkTreeLAddr ++
    List.replicate (0x94 - 0x60) 0 ++ leEncode 4 nodeSize ++ List.replicate (0xa0 - 0x98) 0 ++
    leEncode 4 n ++ List.replicate (0x32b - 0xa4) 0 ++ chunkData ++
    List.replicate (0x1000 - 0x32b - chunkData.length) 0

/-- Bytes of a node header with the given stored checksum, tree id, number of items and
level. -/
def mkHeader (csum tree nrItems level : Nat) : List Nat :=
  leEncode 4 csum ++ List.replicate (0x58 - 4) 0 ++ leEncode 8 tree ++ leEncode 4 nrItems ++
    [level]

/-- Item records of a leaf whose payloads are laid out back to back, the first one ending
at offset `top` of the items region. -/
def leafRecords : List (List Nat × List Nat) → Nat → List Nat
  | [], _ => []
  | (key, data) :: rest, top =>
    key ++ leEncode 4 (top - data.length) ++ leEncode 4 data.length ++
      leafRecords rest (top - data.length)

/-- Leaf of `nodeSize` bytes holding the given keys and payloads; the payloads grow from
the end of the node toward the front. -/
def mkLeaf (csum tree nodeSize : Nat) (items : List (List Nat × List Nat)) : List Nat :=
  let records := leafRecords items (nodeSize - 0x65)
  let payloads := (items.reverse.map (fun p => p.2)).flatten
  mkHeader csum tree items.length 0 ++ records ++
    List.replicate (nodeSize - 0x65 - records.length - payloads.length) 0 ++ payloads

/-- Non-leaf node of `nodeSize` bytes and level `level` holding the given key pointers. -/
def mkInner (csum tree level nodeSize : Nat) (ptrs : List (List Nat × Nat)) : List Nat :=
  let records := (ptrs.map (fun p => p.1 ++ leEncode 8 p.2 ++ leEncode 8 0)).flatten
  mkHeader csum tree ptrs.length level ++ records ++
    List.replicate (nodeSize - 0x65 - records.length) 0

/-- Bytes of a directory entry naming `child`, with the given name and data. -/
def mkDirEntry (child : Nat) (name data : List Nat) : List Nat :=
  mkKey child 0x01 0 ++ leEncode 8 0 ++ leEncode 2 data.length ++ leEncode 2 name.length ++ [1] ++
    name ++ data

/-- Bytes of an inode item with the given size and mode. -/
def mkInodeItem (stSize stMode : Nat) : List Nat :=
  List.replicate 0x10 0 ++ leEncode 8 stSize ++ List.replicate (0x34 - 0x18) 0 ++
    leEncode 4 stMode ++ List.replicate (0xa0 - 0x38) 0

/-- Bytes of a root item whose root node is at `rootNodeBlockNum`. -/
def mkRootItem (rootNodeBlockNum : Nat) : List Nat :=
  List.replicate 0xb0 0 ++ leEncode 8 rootNodeBlockNum ++ List.replicate (0xef - 0xb8) 0

/-- Node loader over a table of nodes by logical address; an address outside the table is
a failed read. -/
def tableLoad (nodes : List (Nat × List Nat)) (addr : Nat) : Except Fault (List Nat) :=
  match nodes.lookup addr with
  | some node => .ok node
  | none => .error .assertFailed

/-- Positioned read of a device that holds the given blocks at the given physical
addresses. -/
def diskRead (blocks : List (Nat × List Nat)) (addr len : Nat) : Option (List Nat) :=
  match blocks.lookup addr with
  | some block => if block.length = len then some block else none
  | none => none

/-- Record of the bootstrap chunk: logical `[0x100000, 0x200000)` at physical `0x500000`. -/
def recBoot : SBRecord :=
  { key := mkKey 0x100 0xE8 0x100000, item := mkItem 0x100000 1, stripes := [mkStripe 1 0x500000] }

/-- Payload of a chunk item of size `0x100000` with one stripe at physical `offset`. -/
def chunkPayload (offset : Nat) : List Nat := mkItem 0x100000 1 ++ mkStripe 1 offset

/-- Chunk-tree leaf (node size `0x200`) with one chunk item, for logical `0x100000`. -/
def ctLeafA (csum : Nat) : List Nat :=
  mkLeaf csum 3 0x200 [(mkKey 0x100 0xE8 0x100000, chunkPayload 0x500000)]

/-- Chunk-tree leaf (node size `0x200`) with one chunk item, for logical `0x200000`. -/
def ctLeafB (csum : Nat) : List Nat :=
  mkLeaf csum 3 0x200 [(mkKey 0x100 0xE8 0x200000, chunkPayload 0x600000)]

/-- Chunk-tree root of level 1 with one key pointer, to the leaf at logical `0x100200`. -/
def ctRootOne (csum : Nat) : List Nat :=
  mkInner csum 3 1 0x200 [(mkKey 0x100 0xE8 0x100000, 0x100200)]

/-- Chunk-tree root of level 1 with two key pointers, to the leaves at logical `0x100200`
and `0x100400`. -/
def ctRootTwo (csum : Nat) : List Nat :=
  mkInner csum 3 1 0x200
    [(mkKey 0x100 0xE8 0x100000, 0x100200), (mkKey 0x100 0xE8 0x200000, 0x100400)]

/-- Chunk-tree leaf whose second chunk item declares size `0x50`, the size of a chunk item
with one stripe, while its payload says `numStripes = 2`. -/
def ctLeafBadSize (csum : Nat) : List Nat :=
  mkLeaf csum 3 0x200
    [(mkKey 0x100 0xE8 0x100000, chunkPayload 0x500000),
     (mkKey 0x100 0xE8 0x200000, mkItem 0x100000 2 ++ mkStripe 1 0x600000)]

/-- Superblock with the bootstrap chunk embedded, node size `0x200` and the chunk tree at
logical `chunkTreeLAddr`. -/
def sbBoot (chunkTreeLAddr : Nat) : List Nat :=
  mkSuper 0 chunkTreeLAddr 0x200 97 recBoot.bytes

/-- Device holding a chunk tree of two levels: the root at physical `0x500000` (logical
`0x100000`) and its only leaf at physical `0x500200`, both with valid checksums. -/
def devTwoLevels : Nat → Nat → Option (List Nat) :=
  diskRead [(0x500000, ctRootOne 2931812574), (0x500200, ctLeafA 2671219669)]

/-- Node table of a chunk tree of two levels with two leaves, by logical address. -/
def nodesTwoLeaves : List (Nat × List Nat) :=
  [(0x100000, ctRootTwo 1530241268), (0x100200, ctLeafA 2671219669),
   (0x100400, ctLeafB 273436696)]

/-- Device holding a chunk tree that is the single leaf `ctLeafBadSize`, at physical
`0x500000`, with a valid checksum. -/
def devBadSize : Nat → Nat → Option (List Nat) :=
  diskRead [(0x500000, ctLeafBadSize 1675803625)]

/-- The chunk that `recBoot` and the first item of the leaves describe. -/
def chunkBoot : Chunk :=
  { logiOffset := 0x100000
    chunkItem := ⟨0x100000, 3, 0x10000, 2, 0x10000, 0x10000, 0x1000, 1, 0⟩
    stripes := [⟨1, 0x500000, List.replicate 16 0xAB⟩] }

/-- The chunk that the item of `ctLeafB` describes. -/
def chunkSecond : Chunk :=
  { logiOffset := 0x200000
    chunkItem := ⟨0x100000, 3, 0x10000, 2, 0x10000, 0x10000, 0x1000, 1, 0⟩
    stripes := [⟨1, 0x600000, List.replicate 16 0xAB⟩] }

/-- Superblock whose embedded chunk array is one record with `numStripes = 0`. -/
def sbZeroStripes : List Nat :=
  mkSuper 0 0x100000 0x200 65 (mkKey 0x100 0xE8 0x100000 ++ mkItem 0x100000 0)

/-- Root-tree cache in which two entries of other types with objectID 5 precede two
`ROOT_ITEM`s of tree 5. -/
def cacheTwoRoots : List KeyedItem :=
  [{ key := ⟨5, 0x01, 0⟩, data := mkInodeItem 0 0o40755 },
   { key := ⟨5, 0x0C, 5⟩, data := leEncode 8 0 ++ leEncode 2 2 ++ [0x2E, 0x2E] },
   { key := ⟨5, 0xA8, 0⟩, data := mkRootItem 0x100800 },
   { key := ⟨5, 0xA8, 7⟩, data := mkRootItem 0x100A00 }]

/-- Directory entry of the root tree naming tree `child` as `default`. -/
def defaultEntry (child : Nat) : List Nat :=
  mkDirEntry child [0x64, 0x65, 0x66, 0x61, 0x75, 0x6C, 0x74] []

/-- Node table of a root tree of two levels: each of its two leaves holds a `DIR_ITEM` of
object `ROOT_TREE_DIR`, the first naming tree 5, the second naming tree `0x101`. -/
def nodesTwoDefaults : List (Nat × List Nat) :=
  [(0x1000, mkInner 0 1 1 0x100 [(mkKey 6 0x54 0x8DBFC2D2, 0x2000), (mkKey 6 0x54 0x9DBFC2D2, 0x3000)]),
   (0x2000, mkLeaf 0 1 0x100 [(mkKey 6 0x54 0x8DBFC2D2, defaultEntry 5)]),
   (0x3000, mkLeaf 0 1 0x100 [(mkKey 6 0x54 0x9DBFC2D2, defaultEntry 0x101)])]

/-- Superblock whose root tree is at logical `0x1000`, node size `0x200`. -/
def sbRootAt1000 : List Nat := mkSuper 0x1000 0 0x200 0 []

/-- Node table of a root tree of two levels: the first leaf holds the `ROOT_ITEM` of tree 5,
the second a `DIR_ITEM` of object `ROOT_TREE_DIR` and an item of type `0x84`, which
root-tree Load does not cache. -/
def nodesRootTree : List (Nat × List Nat) :=
  [(0x1000, mkInner 0 1 1 0x200 [(mkKey 5 0xA8 0, 0x2000), (mkKey 6 0x54 0x8DBFC2D2, 0x3000)]),
   (0x2000, mkLeaf 0 1 0x200 [(mkKey 5 0xA8 0, mkRootItem 0x4000)]),
   (0x3000, mkLeaf 0 1 0x200
     [(mkKey 6 0x54 0x8DBFC2D2, defaultEntry 5), (mkKey 7 0x84 0, [1, 2, 3])])]

/-- Root tree that is one leaf holding a `ROOT_ITEM` of 240 bytes, one more than
`sizeof(BtrfsRootItem)`. -/
def nodesLongRootItem : List (Nat × List Nat) :=
  [(0x1000, mkLeaf 0 1 0x200 [(mkKey 5 0xA8 0, mkRootItem 0x4000 ++ [0])])]

/-- The leaves of `nodesRootTree`, from left to right. -/
def leavesRootTree : List (List Nat) :=
  [mkLeaf 0 1 0x200 [(mkKey 5 0xA8 0, mkRootItem 0x4000)],
   mkLeaf 0 1 0x200
     [(mkKey 6 0x54 0x8DBFC2D2, defaultEntry 5), (mkKey 7 0x84 0, [1, 2, 3])]]

/-- The bytes of the name `hello`. -/
def strHello : List Nat := [0x68, 0x65, 0x6C, 0x6C, 0x6F]

/-- The bytes of the name `jello`. -/
def strJello : List Nat := [0x6A, 0x65, 0x6C, 0x6C, 0x6F]

/-- The 32-bit hash under which the directory entries of `nodesFsTree` are filed. -/
def helloHash : Nat := 0x5A17F8E2

/-- First leaf of `nodesFsTree`: the inode of the root directory and its `DIR_ITEM` for
`helloHash`, a chain of two entries: `jello` naming object 300, then `hello` naming object
257. -/
def fsLeafDir : List Nat :=
  mkLeaf 0 5 0x400
    [(mkKey 0x100 0x01 0, mkInodeItem 0 0o40755),
     (mkKey 0x100 0x54 helloHash, mkDirEntry 300 strJello [] ++ mkDirEntry 257 strHello [])]

/-- Second leaf of `nodesFsTree`: the inode of the regular file 257, of mode `0o100644` and
size 3, its `EXTENT_DATA` item at offset 0, and the inode of object 258. -/
def fsLeafFile : List Nat :=
  mkLeaf 0 5 0x400
    [(mkKey 257 0x01 0, mkInodeItem 3 0o100644),
     (mkKey 257 0x6C 0, List.replicate 0x15 0 ++ [0x61, 0x62, 0x63]),
     (mkKey 258 0x01 0, mkInodeItem 0 0o100644)]

/-- Node table of an FS tree of two levels, in key order. -/
def nodesFsTree : List (Nat × List Nat) :=
  [(0x4000, mkInner 0 5 1 0x400 [(mkKey 0x100 0x01 0, 0x5000), (mkKey 257 0x01 0, 0x6000)]),
   (0x5000, fsLeafDir), (0x6000, fsLeafFile)]

/-- Root-tree cache that places the FS tree (tree 5) at logical `0x4000`. -/
def cacheFsTree : List KeyedItem :=
  [{ key := ⟨5, 0xA8, 0⟩, data := mkRootItem 0x4000 }]

/-- A `FilePkg` as the caller passes it: a name buffer of 256 bytes, everything zero. -/
def pkgBlank : FilePkg :=
  { objectID := 0, name := List.replicate 256 0, parentID := 0, inode := [], extents := [],
    numExtents := 0, hidden := false }

/-- Node table of an FS tree in which the regular file 257 has its inode and its naming
entry in the root directory, and no `EXTENT_DATA` item. -/
def nodesFsEmptyFile : List (Nat × List Nat) :=
  [(0x4000, mkInner 0 5 1 0x400 [(mkKey 0x100 0x01 0, 0x5000), (mkKey 257 0x01 0, 0x6000)]),
   (0x5000, fsLeafDir),
   (0x6000, mkLeaf 0 5 0x400
     [(mkKey 257 0x01 0, mkInodeItem 0 0o100644), (mkKey 258 0x01 0, mkInodeItem 0 0o100644)])]

/-- A `FilePkg` whose name buffer has 512 bytes, all `0xCC`: memory that is larger than the
structure and not initialised. -/
def pkgWide : FilePkg :=
  { objectID := 0, name := List.replicate 512 0xCC, parentID := 0, inode := [], extents := [],
    numExtents := 0, hidden := false }

/-- FS tree of one leaf in which the file 257 is named, in the root directory, by an entry
whose name has 256 bytes, all `a`. -/
def nodesFsLongName : List (Nat × List Nat) :=
  [(0x4000, mkLeaf 0 5 0x400
    [(mkKey 0x100 0x01 0, mkInodeItem 0 0o40755),
     (mkKey 0x100 0x54 helloHash, mkDirEntry 257 (List.replicate 256 0x61) []),
     (mkKey 257 0x01 0, mkInodeItem 3 0o100644)])]

/-- FS tree of one leaf, in key order, in which the file 257 lies in the directory 300: its
only naming entry is in a `DIR_ITEM` of object 300. -/
def nodesFsMovedFile : List (Nat × List Nat) :=
  [(0x4000, mkLeaf 0 5 0x400
    [(mkKey 0x100 0x01 0, mkInodeItem 0 0o40755),
     (mkKey 0x100 0x54 0x1111, mkDirEntry 300 [0x64] []),
     (mkKey 257 0x01 0, mkInodeItem 3 0o100644),
     (mkKey 257 0x6C 0, List.replicate 0x15 0 ++ [0x61, 0x62, 0x63]),
     (mkKey 300 0x01 0, mkInodeItem 0 0o40755),
     (mkKey 300 0x54 0x2222, mkDirEntry 257 [0x66] [])])]

/-- First leaf of `nodesFsDir`: the root directory names the directory 260 as `d`; the
directory 260 has its inode and names 261 as `a` and 262 as `.b`. -/
def fsLeafDir260 : List Nat :=
  mkLeaf 0 5 0x400
    [(mkKey 0x100 0x01 0, mkInodeItem 0 0o40755),
     (mkKey 0x100 0x54 0x1111, mkDirEntry 260 [0x64] []),
     (mkKey 260 0x01 0, mkInodeItem 0 0o40700),
     (mkKey 260 0x54 0x2222, mkDirEntry 261 [0x61] []),
     (mkKey 260 0x54 0x3333, mkDirEntry 262 [0x2E, 0x62] [])]

/-- Second leaf of `nodesFsDir`: the inodes of 261 and 262. -/
def fsLeafKids : List Nat :=
  mkLeaf 0 5 0x400
    [(mkKey 261 0x01 0, mkInodeItem 1 0o100644), (mkKey 262 0x01 0, mkInodeItem 2 0o100600)]

/-- Node table of an FS tree of two levels, in key order: the directory 260, in the root
directory, with the files 261 and 262. -/
def nodesFsDir : List (Nat × List Nat) :=
  [(0x4000, mkInner 0 5 1 0x400 [(mkKey 0x100 0x01 0, 0x5000), (mkKey 261 0x01 0, 0x6000)]),
   (0x5000, fsLeafDir260), (0x6000, fsLeafKids)]

/-- FS tree of one leaf, in key order: the directory 260, in the root directory, with the
files 261 and 259; every one of them has its inode. -/
def nodesFsDirLowChild : List (Nat × List Nat) :=
  [(0x4000, mkLeaf 0 5 0x400
    [(mkKey 0x100 0x01 0, mkInodeItem 0 0o40755),
     (mkKey 0x100 0x54 0x1111, mkDirEntry 260 [0x64] []),
     (mkKey 259 0x01 0, mkInodeItem 9 0o100644),
     (mkKey 260 0x01 0, mkInodeItem 0 0o40700),
     (mkKey 260 0x54 0x2222, mkDirEntry 261 [0x61] []),
     (mkKey 260 0x54 0x3333, mkDirEntry 259 [0x62] []),
     (mkKey 261 0x01 0, mkInodeItem 1 0o100644)])]

/-- FS tree of one leaf, in key order: the directory 260 names the file 261 twice, as `a`
and as `b` (two hard links). -/
def nodesFsHardLinks : List (Nat × List Nat) :=
  [(0x4000, mkLeaf 0 5 0x400
    [(mkKey 0x100 0x01 0, mkInodeItem 0 0o40755),
     (mkKey 0x100 0x54 0x1111, mkDirEntry 260 [0x64] []),
     (mkKey 260 0x01 0, mkInodeItem 0 0o40700),
     (mkKey 260 0x54 0x2222, mkDirEntry 261 [0x61] []),
     (mkKey 260 0x54 0x3333, mkDirEntry 261 [0x62] []),
     (mkKey 261 0x01 0, mkInodeItem 1 0o100644)])]

/-- FS tree of one leaf, in key order, in which two directories, 256 and 258, each name the
directory 260. -/
def nodesFsTwoParents : List (Nat × List Nat) :=
  [(0x4000, mkLeaf 0 5 0x400
    [(mkKey 0x100 0x01 0, mkInodeItem 0 0o40755),
     (mkKey 0x100 0x54 0x1111, mkDirEntry 260 [0x64] []),
     (mkKey 258 0x01 0, mkInodeItem 0 0o40755),
     (mkKey 258 0x54 0x2222, mkDirEntry 260 [0x65] []),
     (mkKey 260 0x01 0, mkInodeItem 0 0o40700)])]

/-- Bytes of the fixed part of a directory entry naming `child` that declares `m` data bytes
and `n` name bytes; no name or data follows. -/
def mkDirFixed (child m n : Nat) : List Nat :=
  mkKey child 0x01 0 ++ leEncode 8 0 ++ leEncode 2 m ++ leEncode 2 n ++ [1]

/-- The bytes of the string `secret`. -/
def strSecret : List Nat := [0x73, 0x65, 0x63, 0x72, 0x65, 0x74]

/-- FS tree of one leaf whose `DIR_ITEM` has `item.size = 30`, the fixed part alone, while
its only entry declares a name of 5 bytes: the name lies after the payload of the item, in
the payload of the item stored next to it, which starts with `secret`. -/
def nodesFsShortItem : List (Nat × List Nat) :=
  [(0x4000, mkLeaf 0 5 0x400
    [(mkKey 0x100 0x0C 0x100, strSecret),
     (mkKey 0x100 0x54 0x1111, mkDirFixed 257 0 5),
     (mkKey 257 0x01 0, mkInodeItem 3 0o100644)])]

/-- FS tree of one leaf whose `DIR_ITEM` payload is the last 30 bytes of the node, while its
only entry declares a name of 5 bytes: the name lies after the end of the node. -/
def nodesFsPastNode : List (Nat × List Nat) :=
  [(0x4000, mkLeaf 0 5 0x400 [(mkKey 0x100 0x54 0x1111, mkDirFixed 257 0 5)])]

/-- The node table `nodesFsTree` without its second leaf: the node at `0x6000` cannot be
read. -/
def nodesFsFirstLeafOnly : List (Nat × List Nat) :=
  [(0x4000, mkInner 0 5 1 0x400 [(mkKey 0x100 0x01 0, 0x5000), (mkKey 257 0x01 0, 0x6000)]),
   (0x5000, fsLeafDir)]

/-- Leaf, in key order, in which the directory 256 has an `XATTR_ITEM` and, for `helloHash`,
a `DIR_ITEM` that is a chain of two entries of 35 bytes each, `item.size = 70`. The payload
of the `XATTR_ITEM`, an entry with a name of 6 bytes and 40 bytes of data, is stored right
after the chain. -/
def fsLeafXattr : List Nat :=
  mkLeaf 0 5 0x400
    [(mkKey 0x100 0x18 0x7777, mkDirEntry 0 strSecret (List.replicate 40 0x41)),
     (mkKey 0x100 0x54 helloHash, mkDirEntry 300 strJello [] ++ mkDirEntry 257 strHello [])]

/-- FS tree of one leaf, in key order: the directory 260 names the file 261 as `a`, and is
itself named `d` by the directory 300, its parent, whose objectID is the larger one. The
inode of 260 has size 0, that of 300 has size 7. -/
def nodesFsParentAbove : List (Nat × List Nat) :=
  [(0x4000, mkLeaf 0 5 0x400
    [(mkKey 260 0x01 0, mkInodeItem 0 0o40700),
     (mkKey 260 0x54 0x2222, mkDirEntry 261 [0x61] []),
     (mkKey 261 0x01 0, mkInodeItem 1 0o100644),
     (mkKey 300 0x01 0, mkInodeItem 7 0o40755),
     (mkKey 300 0x54 0x1111, mkDirEntry 260 [0x64] [])])]

/-- FS tree of one leaf: the file 257 with its inode and an `EXTENT_DATA` item whose type
byte is `type`, followed by a non-inline part of zeros. -/
def nodesFsExtent (type : Nat) : List (Nat × List Nat) :=
  [(0x4000, mkLeaf 0 5 0x400
    [(mkKey 257 0x01 0, mkInodeItem 3 0o100644),
     (mkKey 257 0x6C 0, List.replicate 8 0 ++ leEncode 8 3 ++ List.replicate 4 0 ++ [type] ++
        List.replicate 0x20 0)])]

/-- Node table whose only node, of level 1, has one key pointer, to the node itself. -/
def nodesSelfLoop : List (Nat × List Nat) :=
  [(0x4000, mkInner 0 5 1 0x400 [(mkKey 0x100 0x01 0, 0x4000)])]

/-- Superblock whose chunk array holds the 97 bytes of `recBoot` while `n` is 10. -/
def sbCutRecord : List Nat := sbWithChunks 10 recBoot.bytes

/-- Superblock whose `n` is `0x801`, one more than the size of the array `chunkData`,
followed by 22 copies of `recBoot`: the last of them begins at offset 2037 of the array
and ends at offset 2134, after the end of the array. -/
def sbLongArray : List Nat := sbWithChunks 0x801 (recordBytes (List.replicate 22 recBoot))

/-- Chunk-tree leaf (node size `0x200`) with a chunk item between two items whose types,
`0x99` and `0xF0`, no operation knows. -/
def ctLeafUnknown : List Nat :=
  mkLeaf 0 3 0x200
    [(mkKey 0x100 0x99 0, [1, 2, 3]),
     (mkKey 0x100 0xE8 0x100000, chunkPayload 0x500000),
     (mkKey 0x100 0xF0 0, [])]

/-! ## Theorems -/

/-! ### Machine arithmetic -/

theorem add64_of_lt {a b : Nat} (h : a + b < U64) : add64 a b = a + b :=
  Nat.mod_eq_of_lt h

theorem sub64_of_le {a b : Nat} (ha : a < U64) (hb : b ≤ a) : sub64 a b = a - b := by
  unfold sub64
  have hb' : b < U64 := lt_of_le_of_lt hb ha
  rw [Nat.mod_eq_of_lt ha, Nat.mod_eq_of_lt hb']
  have h : a + U64 - b = (a - b) + U64 := by omega
  rw [h, Nat.add_mod_right]
  exact Nat.mod_eq_of_lt (by omega)

/-! ### `logiToPhys` -/

theorem logiToPhysScan_first (logiAddr len : Nat) (c0 : Chunk) (post : List Chunk)
    (h0 : Fits logiAddr len c0) :
    ∀ (pre : List Chunk) (i : Nat), (∀ c ∈ pre, ¬ Fits logiAddr len c) →
      logiToPhysScan logiAddr len (pre ++ c0 :: post) i = some (i + pre.length) := by
  intro pre
  induction pre with
  | nil => intro i _; simp [logiToPhysScan, h0]
  | cons c pre ih =>
    intro i hpre
    have hc : ¬ Fits logiAddr len c := hpre c (List.mem_cons_self _ _)
    have hrest : ∀ d ∈ pre, ¬ Fits logiAddr len d := fun d hd => hpre d (List.mem_cons_of_mem _ hd)
    have harith : i + 1 + pre.length = i + (pre.length + 1) := by omega
    show logiToPhysScan logiAddr len (c :: (pre ++ c0 :: post)) i = _
    rw [logiToPhysScan, if_neg hc, ih (i + 1) hrest, harith, List.length_cons]

theorem logiToPhysScan_none (logiAddr len : Nat) :
    ∀ (chunks : List Chunk) (i : Nat), (∀ c ∈ chunks, ¬ Fits logiAddr len c) →
      logiToPhysScan logiAddr len chunks i = none := by
  intro chunks
  induction chunks with
  | nil => intro i _; rfl
  | cons c rest ih =>
    intro i h
    have hc : ¬ Fits logiAddr len c := h c (List.mem_cons_self _ _)
    simp only [logiToPhysScan, if_neg hc]
    exact ih (i + 1) (fun d hd => h d (List.mem_cons_of_mem _ hd))

/-- Every list holding a fitting chunk splits at its first fitting chunk. -/
theorem exists_first_fit (logiAddr len : Nat) :
    ∀ chunks : List Chunk, (∃ c ∈ chunks, Fits logiAddr len c) →
      ∃ pre c0 post, chunks = pre ++ c0 :: post ∧
        (∀ c ∈ pre, ¬ Fits logiAddr len c) ∧ Fits logiAddr len c0 := by
  intro chunks
  induction chunks with
  | nil => rintro ⟨c, hc, _⟩; cases hc
  | cons d rest ih =>
    rintro ⟨c, hc, hfit⟩
    by_cases hd : Fits logiAddr len d
    · exact ⟨[], d, rest, rfl, fun _ h => (by cases h), hd⟩
    · have hc' : c ∈ rest := by
        rcases List.mem_cons.mp hc with h | h
        · subst h; exact absurd hfit hd
        · exact h
      obtain ⟨pre, c0, post, heq, hpre, h0⟩ := ih ⟨c, hc', hfit⟩
      refine ⟨d :: pre, c0, post, by rw [heq]; rfl, ?_, h0⟩
      intro e he
      rcases List.mem_cons.mp he with h | h
      · subst h; exact hd
      · exact hpre e h

/-- The value `logiToPhys` computes once the scan has stopped at chunk `c0`. -/
theorem logiToPhys_at_first (pre post : List Chunk) (c0 : Chunk) (logiAddr len : Nat)
    (hpre : ∀ c ∈ pre, ¬ Fits logiAddr len c) (h0 : Fits logiAddr len c0) :
    logiToPhys (pre ++ c0 :: post) logiAddr len =
      match c0.stripes[0]? with
      | none => .error .outOfBounds
      | some s => .ok (add64 (sub64 logiAddr c0.logiOffset) s.offset) := by
  unfold logiToPhys
  have hlen : (pre ++ c0 :: post).length ≠ 0 := by simp
  have hget : (pre ++ c0 :: post)[0 + pre.length]? = some c0 := by
    rw [Nat.zero_add, List.getElem?_append_right (Nat.le_refl _), Nat.sub_self,
      List.getElem?_cons_zero]
  rw [if_neg hlen, logiToPhysScan_first logiAddr len c0 post h0 pre 0 hpre]
  simp only [hget]

/-- C1: when some chunk passes the test of the search loop (`logiAddr >= logiOffset` and
`logiAddr + len <= logiOffset + chunkSize`, both sums being the `unsigned __int64` sums the
code computes), `logiToPhys` returns `(logiAddr - c0.logiOffset) + c0.stripes[0].offset`
(64-bit) for the first such chunk `c0` in list order; the stripe used is stripe 0 whatever
`numStripes` and the further stripes are. -/
theorem logiToPhys_first_fit (pre post : List Chunk) (c0 : Chunk) (s0 : BtrfsChunkItemStripe)
    (rest : List BtrfsChunkItemStripe) (logiAddr len : Nat)
    (hA : logiAddr < 2 ^ 64)
    (hpre : ∀ c ∈ pre, ¬ Fits logiAddr len c)
    (h0 : Fits logiAddr len c0)
    (hs : c0.stripes = s0 :: rest) :
    logiToPhys (pre ++ c0 :: post) logiAddr len
      = .ok ((logiAddr - c0.logiOffset + s0.offset) % 2 ^ 64) := by
  rw [logiToPhys_at_first pre post c0 logiAddr len hpre h0, hs]
  simp only [List.getElem?_cons_zero]
  rw [sub64_of_le hA h0.1]
  rfl

/-- Witness for C1: the second chunk of a list is the first that fits; it has two stripes. -/
theorem logiToPhys_first_fit_witness :
    logiToPhys ([overlapLo] ++ dupChunk :: [overlapHi]) 210 16
      = .ok ((210 - dupChunk.logiOffset + 7000) % 2 ^ 64) :=
  logiToPhys_first_fit [overlapLo] [overlapHi] dupChunk ⟨1, 7000, []⟩ [⟨1, 9000, []⟩] 210 16
    (by decide) (by decide) (by decide) rfl

/-- C2, counterexample: `overlapHi` is a chunk of the list and `10 < chunkSize`, yet
translating `overlapHi.logiOffset + 10` goes through the earlier, overlapping chunk
`overlapLo` and yields `1060`, not `overlapHi.stripes[0].offset + 10 = 5010`. -/
theorem logiToPhys_roundtrip_counterexample :
    overlapHi ∈ overlapChunks ∧ 10 < overlapHi.chunkItem.chunkSize ∧
      overlapHi.stripes[0]? = some ⟨1, 5000, []⟩ ∧
      logiToPhys overlapChunks (overlapHi.logiOffset + 10) 1 = .ok 1060 ∧
      logiToPhys overlapChunks (overlapHi.logiOffset + 10) 1 ≠ .ok (5000 + 10) := by
  decide

/-- C2, amended: for a chunk `c` of the list that no earlier chunk of the list overlaps,
whose logical range ends below `2 ^ 64` and which has a stripe 0, and for every
`p < c.chunkSize`, `logiToPhys (c.logiOffset + p) 1` is `c.stripes[0].offset + p`
as an `unsigned __int64`. -/
theorem logiToPhys_roundtrip (pre post : List Chunk) (c : Chunk) (s0 : BtrfsChunkItemStripe)
    (rest : List BtrfsChunkItemStripe) (p : Nat)
    (hdisj : ∀ d ∈ pre, d.logiOffset + d.chunkItem.chunkSize ≤ c.logiOffset ∨
      c.logiOffset + c.chunkItem.chunkSize ≤ d.logiOffset)
    (hend : c.logiOffset + c.chunkItem.chunkSize < 2 ^ 64)
    (hs : c.stripes = s0 :: rest)
    (hp : p < c.chunkItem.chunkSize) :
    logiToPhys (pre ++ c :: post) (c.logiOffset + p) 1 = .ok ((s0.offset + p) % 2 ^ 64) := by
  have hU : U64 = 2 ^ 64 := rfl
  have hA : c.logiOffset + p < 2 ^ 64 := by omega
  have hA1 : add64 (c.logiOffset + p) 1 = c.logiOffset + p + 1 :=
    add64_of_lt (by rw [hU]; omega)
  have hC : add64 c.logiOffset c.chunkItem.chunkSize = c.logiOffset + c.chunkItem.chunkSize :=
    add64_of_lt (by rw [hU]; exact hend)
  have h0 : Fits (c.logiOffset + p) 1 c := by
    refine ⟨Nat.le_add_right _ _, ?_⟩
    rw [hA1, hC]
    omega
  have hpre : ∀ d ∈ pre, ¬ Fits (c.logiOffset + p) 1 d := by
    intro d hd hfit
    obtain ⟨hlo, hhi⟩ := hfit
    rw [hA1] at hhi
    rcases hdisj d hd with h | h
    · have hD : add64 d.logiOffset d.chunkItem.chunkSize
          = d.logiOffset + d.chunkItem.chunkSize := add64_of_lt (by rw [hU]; omega)
      rw [hD] at hhi
      omega
    · omega
  rw [logiToPhys_at_first pre post c (c.logiOffset + p) 1 hpre h0, hs]
  simp only [List.getElem?_cons_zero]
  rw [sub64_of_le hA h0.1]
  have harith : c.logiOffset + p - c.logiOffset + s0.offset = s0.offset + p := by omega
  unfold add64
  rw [harith]
  rfl

/-- Witness for C2 (amended): `dupChunk` follows a chunk that does not overlap it. -/
theorem logiToPhys_roundtrip_witness :
    logiToPhys ([overlapLo] ++ dupChunk :: [overlapHi]) (dupChunk.logiOffset + 99) 1
      = .ok ((7000 + 99) % 2 ^ 64) :=
  logiToPhys_roundtrip [overlapLo] [overlapHi] dupChunk ⟨1, 7000, []⟩ [⟨1, 9000, []⟩] 99
    (by decide) (by decide) rfl (by decide)

/-- Where no 64-bit sum wraps around and every chunk has a stripe 0, `logiToPhys` succeeds
exactly when the range lies in a single chunk. -/
theorem logiToPhys_ok_iff_of_no_wrap (chunks : List Chunk) (logiAddr len : Nat)
    (hA : logiAddr + len < 2 ^ 64)
    (hC : ∀ c ∈ chunks, c.logiOffset + c.chunkItem.chunkSize < 2 ^ 64)
    (hS : ∀ c ∈ chunks, c.stripes ≠ []) :
    (∃ v, logiToPhys chunks logiAddr len = .ok v) ↔
      ∃ c ∈ chunks, c.logiOffset ≤ logiAddr ∧
        logiAddr + len ≤ c.logiOffset + c.chunkItem.chunkSize := by
  have hU : U64 = 2 ^ 64 := rfl
  have hfit : ∀ c ∈ chunks, (Fits logiAddr len c ↔
      (c.logiOffset ≤ logiAddr ∧ logiAddr + len ≤ c.logiOffset + c.chunkItem.chunkSize)) := by
    intro c hc
    unfold Fits
    rw [add64_of_lt (by rw [hU]; exact hA), add64_of_lt (by rw [hU]; exact hC c hc)]
  constructor
  · rintro ⟨v, hv⟩
    by_contra hno
    have hnone : ∀ c ∈ chunks, ¬ Fits logiAddr len c := by
      intro c hc hf
      exact hno ⟨c, hc, (hfit c hc).mp hf⟩
    unfold logiToPhys at hv
    rw [logiToPhysScan_none logiAddr len chunks 0 hnone] at hv
    split at hv <;> cases hv
  · rintro ⟨c, hc, hin⟩
    obtain ⟨pre, c0, post, heq, hpre, h0⟩ :=
      exists_first_fit logiAddr len chunks ⟨c, hc, (hfit c hc).mpr hin⟩
    have hc0 : c0 ∈ chunks := by rw [heq]; simp
    rw [heq, logiToPhys_at_first pre post c0 logiAddr len hpre h0]
    cases hst : c0.stripes with
    | nil => exact absurd hst (hS c0 hc0)
    | cons s0 rest =>
      exact ⟨add64 (sub64 logiAddr c0.logiOffset) s0.offset, by simp only [List.getElem?_cons_zero]⟩

/-- C3, failing input: with the single chunk `[0, 0x800000)` loaded, the request
`logiAddr = 2 ^ 64 - 0x1000`, `len = 0x4000` is translated (to physical `0xFF000`)
although, as mathematical integers, `[logiAddr, logiAddr + len)` lies in no chunk:
`logiAddr + len` wraps around to `0x3000`. -/
theorem logiToPhys_wraparound_accepted :
    logiToPhys [lowChunk] (2 ^ 64 - 0x1000) 0x4000 = .ok 0xFF000 ∧
      ¬ ∃ c ∈ [lowChunk], c.logiOffset ≤ 2 ^ 64 - 0x1000 ∧
          (2 ^ 64 - 0x1000) + 0x4000 ≤ c.logiOffset + c.chunkItem.chunkSize := by
  refine ⟨by decide, ?_⟩
  rintro ⟨c, hc, _, h⟩
  rw [List.mem_singleton] at hc
  subst hc
  revert h
  decide

/-! ### CRC-32C -/

/-- The two test vectors of the specification. -/
theorem crc32c_test_vectors :
    crc32c 0 [] = 0 ∧ crc32c 0 [0x31, 0x32, 0x33, 0x34, 0x35, 0x36, 0x37, 0x38, 0x39] = 0xE3069283 := by
  decide!

/-- The byte loop is the left fold of the byte step. -/
theorem crc32cLoop_eq_foldl (data : List Nat) :
    ∀ crc, crc32cLoop crc data = data.foldl crc32cByte crc := by
  induction data with
  | nil => intro crc; rfl
  | cons b rest ih =>
    intro crc
    rw [List.foldl_cons, crc32cLoop]
    generalize crc32cByte crc b = v
    cases v with
    | zero => exact ih 0
    | succ c => exact ih (c + 1)

/-! ### `validateSB` -/

/-- C4, counterexample: the image `sbCopy1` (0x1000 bytes) validates, yet the CRC-32C of
its bytes `[4, end)` differs from the value stored in its first four bytes. -/
theorem validateSB_crc_range_counterexample :
    sbCopy1.length = 0x1000 ∧ validateSB crc32c [] (some sbCopy1) = 0 ∧
      crc32c 0 (sbCopy1.drop 4) ≠ leDecode (sbCopy1.take 4) := by
  decide!

/-- C4, amended: `validateSB(sb)` returns 0 exactly when the magic bytes (offset 0x40) are
`_BHRfS_M` and the CRC-32C, seed 0, of the bytes after the 32-byte checksum slot,
`sb[0x20 .. 0x1000)`, equals the little-endian 32-bit value in the first 4 bytes of the
slot. It holds for every checksum function put in place of `crc32c`. -/
theorem validateSB_eq_zero_iff (crc : Nat → List Nat → Nat) (super sb : List Nat) :
    validateSB crc super (some sb) = 0 ↔
      (sb.drop 0x40).take 8 = [0x5F, 0x42, 0x48, 0x52, 0x66, 0x53, 0x5F, 0x4D] ∧
        crc 0 ((sb.drop 0x20).take (0x1000 - 0x20)) = leDecode (sb.take 4) := by
  have hm : slice sb offMagic 8 = (sb.drop 0x40).take 8 := rfl
  have hc : sbChecksummed sb = (sb.drop 0x20).take (0x1000 - 0x20) := rfl
  have hr : readLE sb 0 4 = leDecode (sb.take 4) := rfl
  unfold validateSB
  simp only [hm, hc, hr, magic]
  by_cases h1 : (sb.drop 0x40).take 8 = [0x5F, 0x42, 0x48, 0x52, 0x66, 0x53, 0x5F, 0x4D]
  · by_cases h2 : crc 0 ((sb.drop 0x20).take (0x1000 - 0x20)) = leDecode (sb.take 4)
    · simp [h1, h2]
    · simp [h1, h2]
  · simp [h1]

/-- With a null argument `validateSB` validates the in-memory superblock. -/
theorem validateSB_null (crc : Nat → List Nat → Nat) (super : List Nat) :
    validateSB crc super none = validateSB crc super (some super) := rfl

/-- The verdict on a given image does not depend on the in-memory superblock. -/
theorem validateSB_some (crc : Nat → List Nat → Nat) (super super' sb : List Nat) :
    validateSB crc super (some sb) = validateSB crc super' (some sb) := rfl

/-! ### `findSecondarySBs` -/

/-- What `findSecondarySBs` computes, in terms of the block at `SUPERBLOCK_2_PADDR` alone. -/
theorem findSecondarySBs_eq (crc : Nat → List Nat → Nat)
    (directRead : Nat → Nat → Option (List Nat)) (super : List Nat) :
    findSecondarySBs crc directRead super =
      match directRead SUPERBLOCK_2_PADDR sizeofBtrfsSuperblock with
      | none => (1, super)
      | some s2 =>
        if validateSB crc super (some s2) = 0 ∧ sbGeneration super < sbGeneration s2 then (2, s2)
        else (1, super) := by
  unfold findSecondarySBs trySecondarySB
  cases hread : directRead SUPERBLOCK_2_PADDR sizeofBtrfsSuperblock with
  | none => simp
  | some s2 =>
    by_cases hc : validateSB crc super (some s2) = 0 ∧ sbGeneration super < sbGeneration s2
    · simp [hc]
    · simp [hc]

/-- C5, failing input: on the device `devThreeCopies`, whose copies 1, 2 and 3 all read and
validate with generations 10, 10 and 30, `findSecondarySBs` returns 1 and leaves copy 1
(generation 10) in `Super`: the reads meant for copies 3 and 4 are made at
`SUPERBLOCK_2_PADDR`, so copy 3 is never seen. -/
theorem findSecondarySBs_misses_copy3 :
    devThreeCopies SUPERBLOCK_1_PADDR sizeofBtrfsSuperblock = some sbCopy1 ∧
      devThreeCopies SUPERBLOCK_2_PADDR sizeofBtrfsSuperblock = some sbCopy2 ∧
      devThreeCopies SUPERBLOCK_3_PADDR sizeofBtrfsSuperblock = some sbCopy3 ∧
      validateSB crc32c sbCopy1 none = 0 ∧
      validateSB crc32c sbCopy1 (some sbCopy2) = 0 ∧
      validateSB crc32c sbCopy1 (some sbCopy3) = 0 ∧
      sbGeneration sbCopy1 = 10 ∧ sbGeneration sbCopy2 = 10 ∧ sbGeneration sbCopy3 = 30 ∧
      findSecondarySBs crc32c devThreeCopies sbCopy1 = (1, sbCopy1) := by
  decide!

/-- C6: when the copy at `SUPERBLOCK_2_PADDR` reads, validates and has a generation
strictly greater than that of the in-memory copy 1, `findSecondarySBs` returns 2 and
`Super` becomes that copy byte for byte, so its generation is copy 2's. Neither the
validity of copy 1 nor anything about copies 3 and 4 is needed. -/
theorem findSecondarySBs_copy2_newer (crc : Nat → List Nat → Nat)
    (directRead : Nat → Nat → Option (List Nat)) (super s2 : List Nat)
    (h2 : directRead SUPERBLOCK_2_PADDR sizeofBtrfsSuperblock = some s2)
    (hv : validateSB crc super (some s2) = 0)
    (hg : sbGeneration super < sbGeneration s2) :
    findSecondarySBs crc directRead super = (2, s2) ∧
      sbGeneration (findSecondarySBs crc directRead super).2 = sbGeneration s2 := by
  have h : findSecondarySBs crc directRead super = (2, s2) := by
    rw [findSecondarySBs_eq, h2]
    simp [hv, hg]
  exact ⟨h, by rw [h]⟩

/-- Witness for C6: copy 1 of generation 10, copy 2 of generation 20, both valid. -/
theorem findSecondarySBs_copy2_newer_witness :
    (validateSB crc32c sbCopy1 none = 0 ∧ sbGeneration sbCopy1 = 10 ∧
      sbGeneration sbCopy2New = 20) ∧
      findSecondarySBs crc32c devTwoCopies sbCopy1 = (2, sbCopy2New) ∧
      sbGeneration (findSecondarySBs crc32c devTwoCopies sbCopy1).2 = sbGeneration sbCopy2New :=
  ⟨by decide!,
    findSecondarySBs_copy2_newer crc32c devTwoCopies sbCopy1 sbCopy2New (by decide!) (by decide!)
      (by decide!)⟩

/-- C7: when no block at the address of copy 2, 3 or 4 both reads and validates,
`findSecondarySBs` returns 1 and the in-memory superblock is unchanged. -/
theorem findSecondarySBs_no_valid_secondary (crc : Nat → List Nat → Nat)
    (directRead : Nat → Nat → Option (List Nat)) (super : List Nat)
    (h : ∀ paddr ∈ [SUPERBLOCK_2_PADDR, SUPERBLOCK_3_PADDR, SUPERBLOCK_4_PADDR],
      ∀ s, directRead paddr sizeofBtrfsSuperblock = some s → validateSB crc super (some s) ≠ 0) :
    findSecondarySBs crc directRead super = (1, super) := by
  rw [findSecondarySBs_eq]
  cases hread : directRead SUPERBLOCK_2_PADDR sizeofBtrfsSuperblock with
  | none => rfl
  | some s2 =>
    have hbad : validateSB crc super (some s2) ≠ 0 :=
      h SUPERBLOCK_2_PADDR (List.mem_cons_self _ _) s2 hread
    simp [hbad]

/-- Witness for C7: the block at the address of copy 2 reads but is zero-filled, copies 3
and 4 do not read. -/
theorem findSecondarySBs_no_valid_secondary_witness :
    findSecondarySBs crc32c devOnlyPrimary sbCopy1 = (1, sbCopy1) :=
  findSecondarySBs_no_valid_secondary crc32c devOnlyPrimary sbCopy1 (by
    intro paddr hp s hs
    simp only [List.mem_cons, List.mem_singleton, List.not_mem_nil, or_false] at hp
    rcases hp with hp | hp | hp
    · subst hp
      have hs' : s = List.replicate 0x1000 0 := by
        have : devOnlyPrimary SUPERBLOCK_2_PADDR sizeofBtrfsSuperblock
            = some (List.replicate 0x1000 0) := by decide!
        rw [this] at hs
        exact (Option.some.inj hs).symm
      subst hs'
      decide!
    · subst hp
      have : devOnlyPrimary SUPERBLOCK_3_PADDR sizeofBtrfsSuperblock = none := by decide!
      rw [this] at hs
      cases hs
    · subst hp
      have : devOnlyPrimary SUPERBLOCK_4_PADDR sizeofBtrfsSuperblock = none := by decide!
      rw [this] at hs
      cases hs)

/-- C8, counterexample: copy 1 of `devBadPrimary` fails `validateSB` (bad checksum) and
carries generation 50, copy 2 reads and validates with generation 20; `findSecondarySBs`
returns 1 and the superblock left in `Super` is the corrupted copy 1. -/
theorem findSecondarySBs_keeps_bad_primary :
    validateSB crc32c sbBadPrimary none = 2 ∧
      devBadPrimary SUPERBLOCK_2_PADDR sizeofBtrfsSuperblock = some sbCopy2New ∧
      validateSB crc32c sbBadPrimary (some sbCopy2New) = 0 ∧
      findSecondarySBs crc32c devBadPrimary sbBadPrimary = (1, sbBadPrimary) ∧
      validateSB crc32c (findSecondarySBs crc32c devBadPrimary sbBadPrimary).2 none ≠ 0 := by
  decide!

/-- C8, amended: when copy 1 fails `validateSB` while the copy at `SUPERBLOCK_2_PADDR`
reads, validates and has a generation strictly greater than the generation field of the
corrupted copy 1, the superblock left in `Super` passes `validateSB`. -/
theorem findSecondarySBs_replaces_bad_primary (crc : Nat → List Nat → Nat)
    (directRead : Nat → Nat → Option (List Nat)) (super s2 : List Nat)
    (_hbad : validateSB crc super none ≠ 0)
    (h2 : directRead SUPERBLOCK_2_PADDR sizeofBtrfsSuperblock = some s2)
    (hv : validateSB crc super (some s2) = 0)
    (hg : sbGeneration super < sbGeneration s2) :
    validateSB crc (findSecondarySBs crc directRead super).2 none = 0 := by
  have h : findSecondarySBs crc directRead super = (2, s2) := by
    rw [findSecondarySBs_eq, h2]
    simp [hv, hg]
  rw [h, validateSB_null]
  exact hv

/-- Witness for C8 (amended): corrupted copy 1 of generation 5, valid copy 2 of
generation 20. -/
theorem findSecondarySBs_replaces_bad_primary_witness :
    validateSB crc32c sbBadPrimaryOld none ≠ 0 ∧
      validateSB crc32c (findSecondarySBs crc32c devBadPrimaryOld sbBadPrimaryOld).2 none = 0 :=
  ⟨by decide!,
    findSecondarySBs_replaces_bad_primary crc32c devBadPrimaryOld sbBadPrimaryOld sbCopy2New
      (by decide!) (by decide!) (by decide!) (by decide!)⟩

/-! ### Reading through a pointer -/

theorem slice_of_drop_eq {mem a t : List Nat} {off : Nat} (h : mem.drop off = a ++ t)
    (k w : Nat) (hk : k + w ≤ a.length) : slice mem (off + k) w = slice a k w := by
  unfold slice
  have hdd : mem.drop (off + k) = (mem.drop off).drop k := by
    rw [List.drop_drop, Nat.add_comm]
  rw [hdd, h, List.drop_append_of_le_length (by omega),
    List.take_append_of_le_length (by rw [List.length_drop]; omega)]

theorem readLE_of_drop_eq {mem a t : List Nat} {off : Nat} (h : mem.drop off = a ++ t)
    (k w : Nat) (hk : k + w ≤ a.length) : readLE mem (off + k) w = readLE a k w := by
  unfold readLE
  rw [slice_of_drop_eq h k w hk]

theorem length_of_drop_eq {mem a t : List Nat} {off : Nat} (h : mem.drop off = a ++ t)
    (ha : 0 < a.length) : mem.length = off + a.length + t.length := by
  have hl := congrArg List.length h
  rw [List.length_drop, List.length_append] at hl
  omega

theorem drop_of_drop_eq {mem a t : List Nat} {off : Nat} (h : mem.drop off = a ++ t) :
    mem.drop (off + a.length) = t := by
  have hdd : mem.drop (off + a.length) = (mem.drop off).drop a.length := by
    rw [List.drop_drop, Nat.add_comm]
  rw [hdd, h, List.drop_left]

theorem loadLE_of_drop_eq {mem a t : List Nat} {off : Nat} (h : mem.drop off = a ++ t)
    (k w : Nat) (hk : k + w ≤ a.length) (ha : 0 < a.length) :
    loadLE mem (off + k) w = .ok (readLE a k w) := by
  unfold loadLE
  have hl := length_of_drop_eq h ha
  rw [if_pos (by omega), readLE_of_drop_eq h k w hk]

theorem readChunkItem_of_drop_eq {mem a t : List Nat} {off : Nat} (h : mem.drop off = a ++ t)
    (ha : a.length = sizeofBtrfsChunkItem) : readChunkItem mem off = readChunkItem a 0 := by
  have hs : sizeofBtrfsChunkItem = 0x30 := rfl
  rw [hs] at ha
  have h0 : readLE mem off 8 = readLE a 0 8 := readLE_of_drop_eq h 0 8 (by omega)
  unfold readChunkItem
  rw [h0, readLE_of_drop_eq h 0x08 8 (by omega), readLE_of_drop_eq h 0x10 8 (by omega),
    readLE_of_drop_eq h 0x18 8 (by omega), readLE_of_drop_eq h 0x20 4 (by omega),
    readLE_of_drop_eq h 0x24 4 (by omega), readLE_of_drop_eq h 0x28 4 (by omega),
    readLE_of_drop_eq h 0x2c 2 (by omega), readLE_of_drop_eq h 0x2e 2 (by omega)]

theorem readStripe_of_drop_eq {mem a t : List Nat} {off : Nat} (h : mem.drop off = a ++ t)
    (ha : a.length = sizeofBtrfsChunkItemStripe) : readStripe mem off = readStripe a 0 := by
  have hs : sizeofBtrfsChunkItemStripe = 0x20 := rfl
  rw [hs] at ha
  have h0 : readLE mem off 8 = readLE a 0 8 := readLE_of_drop_eq h 0 8 (by omega)
  unfold readStripe
  rw [h0, readLE_of_drop_eq h 0x08 8 (by omega), slice_of_drop_eq h 0x10 0x10 (by omega)]

theorem length_flatten_stripes (stripes : List (List Nat))
    (hs : ∀ s ∈ stripes, s.length = sizeofBtrfsChunkItemStripe) :
    stripes.flatten.length = stripes.length * sizeofBtrfsChunkItemStripe := by
  induction stripes with
  | nil => rfl
  | cons s rest ih =>
    rw [List.flatten_cons, List.length_append, hs s (List.mem_cons_self _ _),
      ih (fun x hx => hs x (List.mem_cons_of_mem _ hx)), List.length_cons]
    ring

theorem loadStripes_of_drop_eq (mem : List Nat) :
    ∀ (stripes : List (List Nat)) (off : Nat) (t : List Nat),
      (∀ s ∈ stripes, s.length = sizeofBtrfsChunkItemStripe) →
      mem.drop off = stripes.flatten ++ t →
      loadStripes mem stripes.length off = .ok (stripes.map (fun s => readStripe s 0)) := by
  intro stripes
  induction stripes with
  | nil => intro off t _ _; rfl
  | cons s rest ih =>
    intro off t hs hmem
    have hlen : s.length = sizeofBtrfsChunkItemStripe := hs s (List.mem_cons_self _ _)
    have hmem' : mem.drop off = s ++ (rest.flatten ++ t) := by
      rw [hmem, List.flatten_cons, List.append_assoc]
    have hpos : 0 < s.length := by rw [hlen]; decide
    have hbound := length_of_drop_eq hmem' hpos
    have hnext : mem.drop (off + sizeofBtrfsChunkItemStripe) = rest.flatten ++ t := by
      rw [← hlen]; exact drop_of_drop_eq hmem'
    rw [List.length_cons, loadStripes, if_pos (by omega),
      ih (off + sizeofBtrfsChunkItemStripe) t (fun x hx => hs x (List.mem_cons_of_mem _ hx)) hnext,
      readStripe_of_drop_eq hmem' hlen]
    rfl

/-! ### `getSBChunks` -/

theorem SBRecord.length_bytes (r : SBRecord) (h : r.Sized) :
    r.bytes.length = sizeofBtrfsDiskKey + sizeofBtrfsChunkItem
      + (readChunkItem r.item 0).numStripes * sizeofBtrfsChunkItemStripe := by
  obtain ⟨hk, hi, hs, hn⟩ := h
  unfold SBRecord.bytes
  rw [List.length_append, List.length_append, hk, hi, length_flatten_stripes r.stripes hs, hn]

/-- The loop body decodes a well-formed record found at `sbPtr` and steps over it. -/
theorem getSBChunksStep_record (super : List Nat) (sbPtr : Nat) (r : SBRecord) (t : List Nat)
    (hwf : r.WellFormed) (hmem : super.drop (offChunkData + sbPtr) = r.bytes ++ t) :
    getSBChunksStep super sbPtr = .ok (r.chunk, sbPtr + r.bytes.length) := by
  have hlenb := r.length_bytes hwf.1
  obtain ⟨⟨hk, hi, hs, hn⟩, hobj, htype⟩ := hwf
  have hkey : super.drop (offChunkData + sbPtr) = r.key ++ (r.item ++ (r.stripes.flatten ++ t)) := by
    rw [hmem, SBRecord.bytes, List.append_assoc, List.append_assoc]
  have hkpos : 0 < r.key.length := by rw [hk]; decide
  have hitem : super.drop (offChunkData + (sbPtr + sizeofBtrfsDiskKey))
      = r.item ++ (r.stripes.flatten ++ t) := by
    rw [← Nat.add_assoc, ← hk]; exact drop_of_drop_eq hkey
  have hipos : 0 < r.item.length := by rw [hi]; decide
  have hstr : super.drop (offChunkData + (sbPtr + sizeofBtrfsDiskKey + sizeofBtrfsChunkItem))
      = r.stripes.flatten ++ t := by
    rw [← Nat.add_assoc, ← hi]; exact drop_of_drop_eq hitem
  have hsk : sizeofBtrfsDiskKey = 0x11 := rfl
  rw [hsk] at hk
  have l1 : loadLE super (offChunkData + sbPtr) 8 = .ok (readLE r.key 0 8) :=
    loadLE_of_drop_eq hkey 0 8 (by omega) hkpos
  have l2 : loadLE super (offChunkData + sbPtr + 8) 1 = .ok (readLE r.key 8 1) :=
    loadLE_of_drop_eq hkey 8 1 (by omega) hkpos
  have l3 : loadLE super (offChunkData + sbPtr + 9) 8 = .ok (readLE r.key 9 8) :=
    loadLE_of_drop_eq hkey 9 8 (by omega) hkpos
  have l4 : loadChunkItem super (offChunkData + (sbPtr + sizeofBtrfsDiskKey))
      = .ok (readChunkItem r.item 0) := by
    unfold loadChunkItem
    have hb := length_of_drop_eq hitem hipos
    rw [if_pos (by omega), readChunkItem_of_drop_eq hitem hi]
  have l5 : loadStripes super (readChunkItem r.item 0).numStripes
      (offChunkData + (sbPtr + sizeofBtrfsDiskKey + sizeofBtrfsChunkItem))
      = .ok (r.stripes.map (fun s => readStripe s 0)) := by
    rw [← hn]; exact loadStripes_of_drop_eq super r.stripes _ t hs hstr
  unfold getSBChunksStep
  simp only [l1, l2, l3, l4, l5, hobj, htype, bind, Except.bind, pure, Except.pure,
    ne_eq, not_true_eq_false, if_false]
  rw [hlenb]
  simp only [SBRecord.chunk, Nat.add_assoc]

/-- The loop body stops with a failed assertion at a key that is not a chunk-item key. -/
theorem getSBChunksStep_bad_key (super : List Nat) (sbPtr : Nat) (key t : List Nat)
    (hk : key.length = sizeofBtrfsDiskKey)
    (hbad : readLE key 0 8 ≠ 0x100 ∨ readLE key 8 1 ≠ TYPE_CHUNK_ITEM)
    (hmem : super.drop (offChunkData + sbPtr) = key ++ t) :
    getSBChunksStep super sbPtr = .error .assertFailed := by
  have hsk : sizeofBtrfsDiskKey = 0x11 := rfl
  rw [hsk] at hk
  have hkpos : 0 < key.length := by omega
  have l1 : loadLE super (offChunkData + sbPtr) 8 = .ok (readLE key 0 8) :=
    loadLE_of_drop_eq hmem 0 8 (by omega) hkpos
  have l2 : loadLE super (offChunkData + sbPtr + 8) 1 = .ok (readLE key 8 1) :=
    loadLE_of_drop_eq hmem 8 1 (by omega) hkpos
  unfold getSBChunksStep
  by_cases hobj : readLE key 0 8 = 0x100
  · have htype : readLE key 8 1 ≠ TYPE_CHUNK_ITEM := by
      rcases hbad with h | h
      · exact absurd hobj h
      · exact h
    simp [l1, l2, hobj, htype, bind, Except.bind, throw, throwThe, MonadExceptOf.throw, pure,
      Except.pure]
  · simp [l1, hobj, bind, Except.bind, throw, throwThe, MonadExceptOf.throw]

theorem recordBytes_cons (r : SBRecord) (rs : List SBRecord) :
    recordBytes (r :: rs) = r.bytes ++ recordBytes rs := rfl

theorem SBRecord.bytes_pos (r : SBRecord) (h : r.Sized) : 0 < r.bytes.length := by
  rw [r.length_bytes h]
  have : 0 < sizeofBtrfsDiskKey := by decide
  omega

/-- The loop on a memory that holds well-formed records up to `sbMax`: it appends their
chunks, in order, and returns. -/
theorem getSBChunksLoop_records (super : List Nat) (sbMax : Nat) :
    ∀ (recs : List SBRecord) (fuel sbPtr : Nat) (acc : Option (List Chunk)) (t : List Nat),
      (∀ r ∈ recs, r.WellFormed) →
      super.drop (offChunkData + sbPtr) = recordBytes recs ++ t →
      sbMax = sbPtr + (recordBytes recs).length →
      sbMax ≤ fuel + sbPtr →
      (sbPtr = 0 → acc = none) →
      getSBChunksLoop super sbMax fuel sbPtr acc =
        .ok (match recs with
          | [] => acc
          | _ :: _ => some (acc.getD [] ++ recs.map SBRecord.chunk)) := by
  intro recs
  induction recs with
  | nil =>
    intro fuel sbPtr acc t _ _ hmax _ _
    have hnl : ¬ sbPtr < sbMax := by rw [hmax]; simp [recordBytes]
    cases fuel with
    | zero => simp only [getSBChunksLoop, if_neg hnl]
    | succ f => simp only [getSBChunksLoop, if_neg hnl]
  | cons r rs ih =>
    intro fuel sbPtr acc t hwf hmem hmax hfuel hacc
    have hr : r.WellFormed := hwf r (List.mem_cons_self _ _)
    have hrs : ∀ x ∈ rs, x.WellFormed := fun x hx => hwf x (List.mem_cons_of_mem _ hx)
    have hpos := r.bytes_pos hr.1
    rw [recordBytes_cons, List.length_append] at hmax
    have hlt : sbPtr < sbMax := by omega
    have hmem' : super.drop (offChunkData + sbPtr) = r.bytes ++ (recordBytes rs ++ t) := by
      rw [hmem, recordBytes_cons, List.append_assoc]
    have hnext : super.drop (offChunkData + (sbPtr + r.bytes.length)) = recordBytes rs ++ t := by
      rw [← Nat.add_assoc]; exact drop_of_drop_eq hmem'
    cases fuel with
    | zero => omega
    | succ f =>
      have hacc' : (if sbPtr = 0 then some [r.chunk] else some (acc.getD [] ++ [r.chunk]))
          = some (acc.getD [] ++ [r.chunk]) := by
        by_cases h0 : sbPtr = 0
        · rw [if_pos h0, hacc h0]; rfl
        · rw [if_neg h0]
      rw [getSBChunksLoop, if_pos hlt, getSBChunksStep_record super sbPtr r _ hr hmem']
      simp only [hacc']
      rw [ih f (sbPtr + r.bytes.length) _ t hrs hnext (by omega) (by omega) (by omega)]
      cases rs with
      | nil => rfl
      | cons r' rs' => simp

/-- The loop on a memory that holds well-formed records and then, still below `sbMax`, a
key that is not a chunk-item key: the assertion fails. -/
theorem getSBChunksLoop_bad_key (super : List Nat) (sbMax : Nat) (key t : List Nat)
    (hk : key.length = sizeofBtrfsDiskKey)
    (hbad : readLE key 0 8 ≠ 0x100 ∨ readLE key 8 1 ≠ TYPE_CHUNK_ITEM) :
    ∀ (recs : List SBRecord) (fuel sbPtr : Nat) (acc : Option (List Chunk)),
      (∀ r ∈ recs, r.WellFormed) →
      super.drop (offChunkData + sbPtr) = recordBytes recs ++ (key ++ t) →
      sbPtr + (recordBytes recs).length < sbMax →
      sbMax ≤ fuel + sbPtr →
      getSBChunksLoop super sbMax fuel sbPtr acc = .error .assertFailed := by
  intro recs
  induction recs with
  | nil =>
    intro fuel sbPtr acc _ hmem hlt hfuel
    have hlt' : sbPtr < sbMax := by
      have : (recordBytes []).length = 0 := rfl
      omega
    have hmem' : super.drop (offChunkData + sbPtr) = key ++ t := by
      rw [hmem]; rfl
    cases fuel with
    | zero => omega
    | succ f =>
      rw [getSBChunksLoop, if_pos hlt', getSBChunksStep_bad_key super sbPtr key t hk hbad hmem']
  | cons r rs ih =>
    intro fuel sbPtr acc hwf hmem hlt hfuel
    have hr : r.WellFormed := hwf r (List.mem_cons_self _ _)
    have hrs : ∀ x ∈ rs, x.WellFormed := fun x hx => hwf x (List.mem_cons_of_mem _ hx)
    have hpos := r.bytes_pos hr.1
    rw [recordBytes_cons, List.length_append] at hlt
    have hlt' : sbPtr < sbMax := by omega
    have hmem' : super.drop (offChunkData + sbPtr)
        = r.bytes ++ (recordBytes rs ++ (key ++ t)) := by
      rw [hmem, recordBytes_cons, List.append_assoc]
    have hnext : super.drop (offChunkData + (sbPtr + r.bytes.length))
        = recordBytes rs ++ (key ++ t) := by
      rw [← Nat.add_assoc]; exact drop_of_drop_eq hmem'
    cases fuel with
    | zero => omega
    | succ f =>
      rw [getSBChunksLoop, if_pos hlt', getSBChunksStep_record super sbPtr r _ hr hmem']
      exact ih f (sbPtr + r.bytes.length) _ hrs hnext (by omega) (by omega)

theorem loadLE_error {mem : List Nat} {off w : Nat} {e : Fault}
    (h : loadLE mem off w = .error e) : e = .outOfBounds := by
  unfold loadLE at h
  split at h
  · cases h
  · cases h; rfl

theorem loadChunkItem_error {mem : List Nat} {off : Nat} {e : Fault}
    (h : loadChunkItem mem off = .error e) : e = .outOfBounds := by
  unfold loadChunkItem at h
  split at h
  · cases h
  · cases h; rfl

theorem loadStripes_error (mem : List Nat) :
    ∀ (count off : Nat) (e : Fault), loadStripes mem count off = .error e → e = .outOfBounds := by
  intro count
  induction count with
  | zero => intro off e h; cases h
  | succ n ih =>
    intro off e h
    rw [loadStripes] at h
    split at h
    · cases hrest : loadStripes mem n (off + sizeofBtrfsChunkItemStripe) with
      | ok rest => rw [hrest] at h; cases h
      | error e' =>
        rw [hrest] at h
        cases h
        exact ih _ _ hrest
    · cases h; rfl

/-- A successful loop body advances `sbPtr`. -/
theorem getSBChunksStep_advances (super : List Nat) (sbPtr : Nat) (chunk : Chunk) (next : Nat)
    (h : getSBChunksStep super sbPtr = .ok (chunk, next)) : sbPtr < next := by
  unfold getSBChunksStep at h
  simp only [bind, Except.bind, pure, Except.pure, throw, throwThe, MonadExceptOf.throw] at h
  repeat' split at h
  all_goals first
    | (cases h; done)
    | (cases h
       have : 0 < sizeofBtrfsDiskKey := by decide
       omega)

/-- The loop body never reports an exhausted budget. -/
theorem getSBChunksStep_error (super : List Nat) (sbPtr : Nat) (e : Fault)
    (h : getSBChunksStep super sbPtr = .error e) : e = .outOfBounds ∨ e = .assertFailed := by
  unfold getSBChunksStep at h
  simp only [bind, Except.bind, pure, Except.pure, throw, throwThe, MonadExceptOf.throw] at h
  repeat' split at h
  all_goals first
    | (cases h; done)
    | (cases h; right; rfl)
    | (cases h; left; exact loadLE_error (by assumption))
    | (cases h; left; exact loadChunkItem_error (by assumption))
    | (cases h; left; exact loadStripes_error _ _ _ _ (by assumption))

/-- The iteration budget of the loop is never exhausted when it is at least the distance
to `sbMax`. -/
theorem getSBChunksLoop_fuel (super : List Nat) (sbMax : Nat) :
    ∀ (fuel sbPtr : Nat) (acc : Option (List Chunk)), sbMax ≤ fuel + sbPtr →
      getSBChunksLoop super sbMax fuel sbPtr acc ≠ .error .outOfFuel := by
  intro fuel
  induction fuel with
  | zero =>
    intro sbPtr acc h
    have hnl : ¬ sbPtr < sbMax := by omega
    simp [getSBChunksLoop, hnl]
  | succ f ih =>
    intro sbPtr acc h
    rw [getSBChunksLoop]
    by_cases hlt : sbPtr < sbMax
    · rw [if_pos hlt]
      cases hstep : getSBChunksStep super sbPtr with
      | error e =>
        intro heq
        have he : e = .outOfFuel := by cases heq; rfl
        rcases getSBChunksStep_error super sbPtr e hstep with h' | h' <;> rw [he] at h' <;> cases h'
      | ok p =>
        obtain ⟨chunk, next⟩ := p
        have := getSBChunksStep_advances super sbPtr chunk next hstep
        exact ih next _ (by omega)
    · rw [if_neg hlt]; simp

/-- The function `getSBChunks` always returns: its budget is sufficient. -/
theorem getSBChunks_total (super : List Nat) (chunks : Option (List Chunk)) :
    getSBChunks super chunks ≠ .error .outOfFuel := by
  unfold getSBChunks
  split
  · simp
  · exact getSBChunksLoop_fuel super _ _ 0 chunks (Nat.le_add_right _ _)

/-- C9: when `chunkData[0..n)` is the concatenation of `k >= 1` well-formed records,
`getSBChunks` returns and leaves exactly `k` chunks, in array order, chunk `i` having the
key offset, the chunk item and the `numStripes` stripes of record `i`. -/
theorem getSBChunks_records (super : List Nat) (recs : List SBRecord)
    (hne : recs ≠ [])
    (hwf : ∀ r ∈ recs, r.WellFormed)
    (hn : readLE super offN 4 = (recordBytes recs).length)
    (hdata : slice super offChunkData (readLE super offN 4) = recordBytes recs) :
    getSBChunks super none = .ok (some (recs.map SBRecord.chunk)) ∧
      (recs.map SBRecord.chunk).length = recs.length := by
  refine ⟨?_, List.length_map _ _⟩
  have hmem : super.drop (offChunkData + 0)
      = recordBytes recs ++ (super.drop offChunkData).drop (readLE super offN 4) := by
    rw [← hdata]
    exact (List.take_append_drop _ _).symm
  unfold getSBChunks
  rw [if_neg (by simp)]
  simp only []
  rw [getSBChunksLoop_records super _ recs _ 0 none _ hwf hmem (by omega) (by omega) (fun _ => rfl)]
  cases recs with
  | nil => exact absurd rfl hne
  | cons r rs => rfl

/-- Witness for C9: a chunk array of two records, with one and with two stripes. -/
theorem getSBChunks_records_witness :
    getSBChunks sbTwoRecords none = .ok (some ([recSys, recDup].map SBRecord.chunk)) ∧
      ([recSys, recDup].map SBRecord.chunk).length = [recSys, recDup].length :=
  getSBChunks_records sbTwoRecords [recSys, recDup] (by decide) (by decide!) (by decide!)
    (by decide!)

/-- C10: when the parse of `chunkData[0..n)`, after any number of well-formed records,
reaches below `chunkData + n` a key whose objectID is not `0x100` or whose type is not
`CHUNK_ITEM` (`0xE8`), `getSBChunks` stops with a failed assertion; no chunk list is
returned. -/
theorem getSBChunks_bad_key (super : List Nat) (recs : List SBRecord) (key t : List Nat)
    (hwf : ∀ r ∈ recs, r.WellFormed)
    (hk : key.length = sizeofBtrfsDiskKey)
    (hbad : readLE key 0 8 ≠ 0x100 ∨ readLE key 8 1 ≠ TYPE_CHUNK_ITEM)
    (hmem : super.drop offChunkData = recordBytes recs ++ (key ++ t))
    (hreach : (recordBytes recs).length < readLE super offN 4) :
    getSBChunks super none = .error .assertFailed := by
  unfold getSBChunks
  rw [if_neg (by simp)]
  simp only []
  exact getSBChunksLoop_bad_key super _ key t hk hbad recs _ 0 none hwf hmem (by omega) (by omega)

/-- Witness for C10: the second key of the chunk array has type `0xE4`. -/
theorem getSBChunks_bad_key_witness :
    getSBChunks sbBadSecondKey none = .error .assertFailed :=
  getSBChunks_bad_key sbBadSecondKey [recSys] (mkKey 0x100 0xE4 0x1400000)
    (mkItem 0x800000 1 ++ mkStripe 1 0x1400000 ++ List.replicate (0x1000 - 0x32b - 194) 0)
    (by decide!) (by decide) (by decide) (by decide!) (by decide!)

/-! ### The tree walk -/

theorem foldLeaves_append {σ : Type} (hook : List Nat → BtrfsItem → σ → Except Fault (σ × Bool))
    (flag : σ → Bool) (l2 : List (List Nat)) :
    ∀ (l1 : List (List Nat)) (st : σ), flag st = false →
      foldLeaves hook flag (l1 ++ l2) st =
        match foldLeaves hook flag l1 st with
        | .error e => .error e
        | .ok st' => if flag st' then .ok st' else foldLeaves hook flag l2 st' := by
  intro l1
  induction l1 with
  | nil => intro st hst; simp [foldLeaves, hst]
  | cons node rest ih =>
    intro st _
    rw [List.cons_append, foldLeaves, foldLeaves]
    cases hl : leafLoop hook node (readHeader node).nrItems 0 st with
    | error e => rfl
    | ok st1 =>
      simp only
      cases hf : flag st1 with
      | true => simp [hf]
      | false => simp only [Bool.false_eq_true, if_false]; exact ih st1 hf

/-- The loop over the key pointers, on children that are roots of trees. -/
theorem keyPtrLoop_eq_foldLeaves {σ : Type}
    (hook : List Nat → BtrfsItem → σ → Except Fault (σ × Bool)) (flag : σ → Bool)
    (recurse : Nat → σ → Except Fault σ) (node : List Nat) :
    ∀ (kids : List (Nat × List (List Nat))) (i : Nat) (st : σ),
      (∀ j (hj : j < kids.length), loadKeyPtr node (i + j) = .ok (kids.get ⟨j, hj⟩).1) →
      (∀ k ∈ kids, ∀ s, flag s = false → recurse k.1 s = foldLeaves hook flag k.2 s) →
      flag st = false →
      keyPtrLoop flag recurse node kids.length i st
        = foldLeaves hook flag (kids.map (fun k => k.2)).flatten st := by
  intro kids
  induction kids with
  | nil => intro i st _ _ _; rfl
  | cons k rest ih =>
    intro i st hptr hrec hst
    have h0 : loadKeyPtr node i = .ok k.1 := hptr 0 (Nat.succ_pos _)
    have hrest : ∀ j (hj : j < rest.length),
        loadKeyPtr node (i + 1 + j) = .ok (rest.get ⟨j, hj⟩).1 := by
      intro j hj
      have := hptr (j + 1) (Nat.succ_lt_succ hj)
      have harith : i + 1 + j = i + (j + 1) := by omega
      rw [harith]; exact this
    rw [List.length_cons, keyPtrLoop, h0]
    simp only
    rw [hrec k (List.mem_cons_self _ _) st hst, List.map_cons, List.flatten_cons,
      foldLeaves_append hook flag _ k.2 st hst]
    cases hk : foldLeaves hook flag k.2 st with
    | error e => rfl
    | ok st1 =>
      simp only
      cases hf : flag st1 with
      | true => simp
      | false =>
        simp only [Bool.false_eq_true, if_false]
        exact ih (i + 1) st1 hrest (fun k' hk' => hrec k' (List.mem_cons_of_mem _ hk')) hf

/-- The walk of a tree is the sequence of the leaf loops of its leaves, from left to right,
when the depth it may reach exceeds the height of the tree. -/
theorem walkTree_eq_foldLeaves {σ : Type} (load : Nat → Except Fault (List Nat))
    (treeID : Option Nat) (hook : List Nat → BtrfsItem → σ → Except Fault (σ × Bool))
    (flag : σ → Bool) (h addr : Nat) (leaves : List (List Nat))
    (hT : TreeAt load treeID h addr leaves) :
    ∀ (depth : Nat) (st : σ), h < depth → flag st = false →
      walkTree load treeID hook flag depth addr st = foldLeaves hook flag leaves st := by
  induction hT with
  | leaf h addr node hload hlen hid hlevel =>
    intro depth st hd _
    cases depth with
    | zero => omega
    | succ d =>
      have hhdr : loadHeader node = .ok (readHeader node) := by
        unfold loadHeader; rw [if_pos hlen]
      have hassert : ¬ (treeID.isSome ∧ treeID ≠ some (readHeader node).tree) := by
        rintro ⟨hsome, hne⟩
        obtain ⟨t, ht⟩ := Option.isSome_iff_exists.mp hsome
        exact hne (by rw [ht, hid t ht])
      rw [walkTree, hload]
      simp only [hhdr, if_neg hassert, if_pos hlevel, foldLeaves]
      cases leafLoop hook node (readHeader node).nrItems 0 st with
      | error e => rfl
      | ok st1 => simp
  | inner h addr node kids hload hlen hid hlevel hn hptr _ ih =>
    intro depth st hd hst
    cases depth with
    | zero => omega
    | succ d =>
      have hhdr : loadHeader node = .ok (readHeader node) := by
        unfold loadHeader; rw [if_pos hlen]
      have hassert : ¬ (treeID.isSome ∧ treeID ≠ some (readHeader node).tree) := by
        rintro ⟨hsome, hne⟩
        obtain ⟨t, ht⟩ := Option.isSome_iff_exists.mp hsome
        exact hne (by rw [ht, hid t ht])
      rw [walkTree, hload]
      simp only [hhdr, if_neg hassert, if_neg hlevel]
      rw [← hn]
      apply keyPtrLoop_eq_foldLeaves hook flag _ node kids 0 st
      · intro j hj; rw [Nat.zero_add]; exact hptr j hj
      · intro k hk s hs
        exact ih k hk d s (by omega) hs
      · exact hst

theorem loadItem_of_le {node : List Nat} {i : Nat}
    (h : sizeofBtrfsHeader + (i + 1) * sizeofBtrfsItem ≤ node.length) :
    loadItem node i = .ok (readItem node i) := by
  unfold loadItem
  rw [if_pos (by rw [Nat.add_mul, Nat.one_mul] at h; omega)]

/-- The leaf loop is the hook run over the items of the leaf, when the item array lies in
the node. -/
theorem leafLoop_eq_walkItems {σ : Type}
    (hook : List Nat → BtrfsItem → σ → Except Fault (σ × Bool)) (node : List Nat) :
    ∀ (count i : Nat) (st : σ),
      sizeofBtrfsHeader + (i + count) * sizeofBtrfsItem ≤ node.length →
      leafLoop hook node count i st
        = walkItems hook ((List.range' i count).map (fun j => (node, readItem node j))) st := by
  intro count
  induction count with
  | zero => intro i st _; rfl
  | succ c ih =>
    intro i st hb
    have hi : sizeofBtrfsHeader + (i + 1) * sizeofBtrfsItem ≤ node.length := by
      have : (i + 1) * sizeofBtrfsItem ≤ (i + (c + 1)) * sizeofBtrfsItem :=
        Nat.mul_le_mul_right _ (by omega)
      omega
    rw [leafLoop, loadItem_of_le hi, List.range'_succ, List.map_cons, walkItems]
    simp only
    cases hh : hook node (readItem node i) st with
    | error e => rfl
    | ok p =>
      obtain ⟨st1, leave⟩ := p
      simp only
      cases leave with
      | true => rfl
      | false =>
        simp only [Bool.false_eq_true, if_false]
        exact ih (i + 1) st1 (by rw [show i + 1 + c = i + (c + 1) by omega]; exact hb)

theorem leafItems_pairs (node : List Nat) :
    (leafItems node).map (fun item => (node, item))
      = (List.range' 0 (readHeader node).nrItems).map (fun j => (node, readItem node j)) := by
  unfold leafItems
  rw [List.range_eq_range', List.map_map]
  rfl

theorem treeItems_cons (node : List Nat) (rest : List (List Nat)) :
    treeItems (node :: rest)
      = (leafItems node).map (fun item => (node, item)) ++ treeItems rest := rfl

theorem walkItems_append {σ : Type} (hook : List Nat → BtrfsItem → σ → Except Fault (σ × Bool))
    (flag : σ → Bool) (hlf : LeaveIsFlag hook flag) (l2 : List (List Nat × BtrfsItem)) :
    ∀ (l1 : List (List Nat × BtrfsItem)) (st : σ), flag st = false →
      walkItems hook (l1 ++ l2) st =
        match walkItems hook l1 st with
        | .error e => .error e
        | .ok st' => if flag st' then .ok st' else walkItems hook l2 st' := by
  intro l1
  induction l1 with
  | nil => intro st hst; simp [walkItems, hst]
  | cons p rest ih =>
    intro st _
    obtain ⟨node, item⟩ := p
    rw [List.cons_append, walkItems, walkItems]
    cases hh : hook node item st with
    | error e => rfl
    | ok q =>
      obtain ⟨st1, leave⟩ := q
      have hl := hlf node item st st1 leave hh
      simp only
      cases hf : flag st1 with
      | true => rw [hf] at hl; subst hl; simp [hf]
      | false =>
        rw [hf] at hl; subst hl
        simp only [Bool.false_eq_true, if_false]
        exact ih st1 hf

/-- The leaf loops of a sequence of leaves are the hook run over their items in traversal
order. -/
theorem foldLeaves_eq_walkItems {σ : Type}
    (hook : List Nat → BtrfsItem → σ → Except Fault (σ × Bool)) (flag : σ → Bool)
    (hlf : LeaveIsFlag hook flag) :
    ∀ (leaves : List (List Nat)) (st : σ), (∀ node ∈ leaves, LeafOk node) → flag st = false →
      foldLeaves hook flag leaves st = walkItems hook (treeItems leaves) st := by
  intro leaves
  induction leaves with
  | nil => intro st _ _; rfl
  | cons node rest ih =>
    intro st hok hst
    have hnode : LeafOk node := hok node (List.mem_cons_self _ _)
    rw [foldLeaves, treeItems_cons, walkItems_append hook flag hlf _ _ st hst, leafItems_pairs,
      leafLoop_eq_walkItems hook node _ 0 st (by rw [Nat.zero_add]; exact hnode)]
    cases walkItems hook
        ((List.range' 0 (readHeader node).nrItems).map (fun j => (node, readItem node j))) st with
    | error e => rfl
    | ok st1 =>
      simp only
      cases hf : flag st1 with
      | true => simp
      | false =>
        simp only [Bool.false_eq_true, if_false]
        exact ih st1 (fun n hn => hok n (List.mem_cons_of_mem _ hn)) hf

/-- The walk of a tree is the hook run over the items of its leaves in traversal order, up
to the first item at which the hook leaves. -/
theorem walkTree_eq_walkItems {σ : Type} (load : Nat → Except Fault (List Nat))
    (treeID : Option Nat) (hook : List Nat → BtrfsItem → σ → Except Fault (σ × Bool))
    (flag : σ → Bool) (hlf : LeaveIsFlag hook flag) (h addr : Nat) (leaves : List (List Nat))
    (hT : TreeAt load treeID h addr leaves) (hok : ∀ node ∈ leaves, LeafOk node)
    (depth : Nat) (st : σ) (hd : h < depth) (hst : flag st = false) :
    walkTree load treeID hook flag depth addr st = walkItems hook (treeItems leaves) st := by
  rw [walkTree_eq_foldLeaves load treeID hook flag h addr leaves hT depth st hd hst,
    foldLeaves_eq_walkItems hook flag hlf leaves st hok hst]

/-! ### Chunk tree -/

/-- C11, failing input: the superblock `sbBoot 0x100000` embeds the chunk `chunkBoot`, and
the chunk tree has a root of level 1 over leaves. `parseChunkTreeRec` sets `numChunks` to
zero in every call, after it has loaded its node. On the device `devTwoLevels` the call for
the root empties the chunk set, so the read of the leaf finds no mapping and the load
fails. With a loader that does not depend on the chunk set, the call for the second leaf of
`nodesTwoLeaves` discards the chunk of the first leaf: the result holds the chunk item of
the last leaf only, not the chunk items of all leaves. -/
theorem parseChunkTree_resets_every_call :
    getSBChunks (sbBoot 0x100000) none = .ok (some [chunkBoot]) ∧
      parseChunkTree crc32c devTwoLevels (sbBoot 0x100000) 3 none none = .error .assertFailed ∧
      (treeItems [ctLeafA 2671219669, ctLeafB 273436696]).map
          (fun p => (p.2.key.type, p.2.key.offset)) = [(0xE8, 0x100000), (0xE8, 0x200000)] ∧
      parseChunkTreeRec (fun _ => tableLoad nodesTwoLeaves) 0x200 3 0x100000 ⟨[chunkBoot], none⟩
        = .ok ⟨[chunkSecond], none⟩ := by
  decide!

theorem loadLE_ok {mem : List Nat} {off width v : Nat} (h : loadLE mem off width = .ok v) :
    v = readLE mem off width := by
  unfold loadLE at h
  split at h
  · injection h with h; exact h.symm
  · cases h

theorem pushKeyedItem_of_ok (node : List Nat) (item : BtrfsItem) (items : List KeyedItem)
    (hp : PayloadOk node item) :
    pushKeyedItem node item items
      = .ok (items ++ [{ key := item.key, data := payload node item }], false) := by
  have hp1 : payloadOff item + item.size ≤ node.length := hp
  unfold pushKeyedItem loadKeyedItem loadBytes
  rw [if_pos hp1]
  rfl

theorem pushKeyedItem_ok {node : List Nat} {item : BtrfsItem} {items items1 : List KeyedItem}
    {leave : Bool} (h : pushKeyedItem node item items = .ok (items1, leave)) :
    PayloadOk node item ∧
      items1 = items ++ [{ key := item.key, data := payload node item }] ∧ leave = false := by
  by_cases hp : PayloadOk node item
  · rw [pushKeyedItem_of_ok node item items hp] at h
    injection h with h
    injection h with h1 h2
    exact ⟨hp, h1.symm, h2.symm⟩
  · have hp1 : ¬ payloadOff item + item.size ≤ node.length := hp
    unfold pushKeyedItem loadKeyedItem loadBytes at h
    rw [if_neg hp1] at h
    cases h

/-- The newer chunk-tree Load accepts a `CHUNK_ITEM` only if its size is that of a chunk
item with the `numStripes` stripes its payload announces, and then caches its key and
payload. -/
theorem chunkTreeLoadItem_chunk (node : List Nat) (item : BtrfsItem)
    (chunkTree chunkTree1 : List KeyedItem) (leave : Bool)
    (hty : item.key.type = TYPE_CHUNK_ITEM)
    (hrun : chunkTreeLoadItem node item chunkTree = .ok (chunkTree1, leave)) :
    item.size = sizeofBtrfsChunkItem
        + readLE node (payloadOff item + 0x2c) 2 * sizeofBtrfsChunkItemStripe ∧
      chunkTree1 = chunkTree ++ [{ key := item.key, data := payload node item }] := by
  have hne : ¬ item.key.type = TYPE_DEV_ITEM := by rw [hty]; decide
  unfold chunkTreeLoadItem at hrun
  rw [if_neg hne, if_pos hty] at hrun
  split at hrun
  · cases hrun
  · cases hl : loadLE node (payloadOff item + 0x2c) 2 with
    | error e => rw [hl] at hrun; cases hrun
    | ok temp =>
      rw [hl] at hrun
      have ht := loadLE_ok hl
      subst ht
      simp only at hrun
      split at hrun
      · cases hrun
      · rename_i hsz
        exact ⟨not_not.mp hsz, (pushKeyedItem_ok hrun).2.1⟩

/-- C12, failing input: the chunk-tree leaf `ctLeafBadSize` holds a `CHUNK_ITEM` of size
`0x50`, the size of a chunk item with one stripe, whose payload announces two stripes.
The older `parseChunkTreeRec` asserts the modulus and the bounds only: it installs the item
as a chunk of two stripes, the second decoded from the bytes after the item. The newer
`parseChunkTreeRec` also asserts `size == sizeof(BtrfsChunkItem) + numStripes *
sizeof(BtrfsChunkItemStripe)` and rejects the same leaf. -/
theorem parseChunkTree_installs_missized_item :
    (leafItems (ctLeafBadSize 1675803625)).map
        (fun item => (item.key.type, item.size,
          readLE (ctLeafBadSize 1675803625) (payloadOff item + 0x2c) 2))
        = [(0xE8, 0x50, 1), (0xE8, 0x50, 2)] ∧
      (parseChunkTree crc32c devBadSize (sbBoot 0x100000) 3 none none).map
          (fun st => st.chunks.map
            (fun c => (c.logiOffset, c.chunkItem.numStripes, c.stripes.length)))
        = .ok [(0x100000, 1, 1), (0x200000, 2, 2)] ∧
      parseChunkTreeRecLoad (tableLoad [(0x100000, ctLeafBadSize 1675803625)]) 3 0x100000 []
        = .error .assertFailed := by
  decide!

theorem loadStripes_length (mem : List Nat) :
    ∀ (count off : Nat) (stripes : List BtrfsChunkItemStripe),
      loadStripes mem count off = .ok stripes → stripes.length = count := by
  intro count
  induction count with
  | zero =>
    intro off stripes h
    rw [loadStripes] at h
    injection h with h
    subst h
    rfl
  | succ c ih =>
    intro off stripes h
    rw [loadStripes] at h
    split at h
    · cases hrest : loadStripes mem c (off + sizeofBtrfsChunkItemStripe) with
      | error e => rw [hrest] at h; cases h
      | ok rest =>
        rw [hrest] at h
        injection h with h
        subst h
        rw [List.length_cons, ih _ _ hrest]
    · cases h

/-- A chunk decoded by the loop body of `getSBChunks` holds `numStripes` stripes. -/
theorem getSBChunksStep_stripes (super : List Nat) (sbPtr : Nat) (chunk : Chunk) (next : Nat)
    (h : getSBChunksStep super sbPtr = .ok (chunk, next)) :
    chunk.stripes.length = chunk.chunkItem.numStripes := by
  unfold getSBChunksStep at h
  simp only [bind, Except.bind, pure, Except.pure, throw, throwThe, MonadExceptOf.throw] at h
  repeat' split at h
  all_goals first
    | (cases h; done)
    | (cases h; exact loadStripes_length _ _ _ _ (by assumption))

theorem getSBChunksLoop_stripes (super : List Nat) (sbMax : Nat) :
    ∀ (fuel sbPtr : Nat) (acc res : Option (List Chunk)),
      (∀ c ∈ acc.getD [], c.stripes.length = c.chunkItem.numStripes) →
      getSBChunksLoop super sbMax fuel sbPtr acc = .ok res →
      ∀ c ∈ res.getD [], c.stripes.length = c.chunkItem.numStripes := by
  intro fuel
  induction fuel with
  | zero =>
    intro sbPtr acc res hacc h
    rw [getSBChunksLoop] at h
    split at h
    · cases h
    · injection h with h; subst h; exact hacc
  | succ f ih =>
    intro sbPtr acc res hacc h
    rw [getSBChunksLoop] at h
    split at h
    · cases hstep : getSBChunksStep super sbPtr with
      | error e => rw [hstep] at h; cases h
      | ok r =>
        obtain ⟨chunk, next⟩ := r
        rw [hstep] at h
        have hc := getSBChunksStep_stripes super sbPtr chunk next hstep
        refine ih next _ res ?_ h
        intro c hcm
        split at hcm
        · simp only [Option.getD_some, List.mem_singleton] at hcm
          subst hcm; exact hc
        · simp only [Option.getD_some, List.mem_append, List.mem_singleton] at hcm
          rcases hcm with hcm | hcm
          · exact hacc c hcm
          · subst hcm; exact hc
    · injection h with h; subst h; exact hacc

/-- C13, counterexample: `getSBChunks` installs the only record of `sbZeroStripes`, whose
`numStripes` is 0, as a chunk without stripes. -/
theorem getSBChunks_zero_stripes_counterexample :
    (getSBChunks sbZeroStripes none).map
        (fun chunks => (chunks.getD []).map
          (fun c => (c.logiOffset, c.chunkItem.numStripes, c.stripes.length)))
      = .ok [(0x100000, 0, 0)] := by
  decide!

/-- C13, amended: every chunk that `getSBChunks` installs holds exactly
`chunkItem.numStripes` decoded stripes, a number that may be 0; and a `CHUNK_ITEM` that the
newer chunk-tree Load accepts has `item.size` equal to
`sizeof(BtrfsChunkItem) + numStripes * sizeof(BtrfsChunkItemStripe)` for the `numStripes`
of its payload, and is cached with its key and payload. -/
theorem decoded_chunk_stripes (super : List Nat) (chunks : List Chunk) (node : List Nat)
    (item : BtrfsItem) (chunkTree chunkTree1 : List KeyedItem) (leave : Bool)
    (hsb : getSBChunks super none = .ok (some chunks))
    (hty : item.key.type = TYPE_CHUNK_ITEM)
    (hnew : chunkTreeLoadItem node item chunkTree = .ok (chunkTree1, leave)) :
    (∀ c ∈ chunks, c.stripes.length = c.chunkItem.numStripes) ∧
      item.size = sizeofBtrfsChunkItem
        + readLE node (payloadOff item + 0x2c) 2 * sizeofBtrfsChunkItemStripe ∧
      chunkTree1 = chunkTree ++ [{ key := item.key, data := payload node item }] := by
  refine ⟨?_, chunkTreeLoadItem_chunk node item chunkTree chunkTree1 leave hty hnew⟩
  unfold getSBChunks at hsb
  rw [if_neg (by simp)] at hsb
  exact getSBChunksLoop_stripes super _ _ 0 none (some chunks) (by simp) hsb

/-- Witness for C13: the embedded chunk of `sbBoot` and the chunk item of `ctLeafA`. -/
theorem decoded_chunk_stripes_witness :
    (∀ c ∈ [chunkBoot], c.stripes.length = c.chunkItem.numStripes) ∧
      (readItem (ctLeafA 0) 0).size = sizeofBtrfsChunkItem
        + readLE (ctLeafA 0) (payloadOff (readItem (ctLeafA 0) 0) + 0x2c) 2
          * sizeofBtrfsChunkItemStripe ∧
      ([{ key := ⟨0x100, 0xE8, 0x100000⟩, data := chunkPayload 0x500000 }] : List KeyedItem)
        = [] ++ [{ key := (readItem (ctLeafA 0) 0).key,
                   data := payload (ctLeafA 0) (readItem (ctLeafA 0) 0) }] :=
  decoded_chunk_stripes (sbBoot 0x100000) [chunkBoot] (ctLeafA 0) (readItem (ctLeafA 0) 0) []
    [{ key := ⟨0x100, 0xE8, 0x100000⟩, data := chunkPayload 0x500000 }] false
    (by decide!) (by decide!) (by decide!)

/-! ### `loadNode` -/

/-- C14, counterexample: the node at logical `0x100200` of `devTwoLevels` loads, yet the
CRC-32C of its bytes `[4, nodeSize)` differs from the checksum stored in its first four
bytes. -/
theorem loadNode_crc_range_counterexample :
    readLE (sbBoot 0x100000) offNodeSize 4 = 0x200 ∧
      loadNode crc32c (cachedRead devTwoLevels [chunkBoot]) (sbBoot 0x100000) 0x100200 ADDR_LOGICAL
        = .ok (ctLeafA 2671219669, (ctLeafA 2671219669).take sizeofBtrfsHeader) ∧
      crc32c 0 (((ctLeafA 2671219669).drop 4).take (0x200 - 4))
        ≠ leDecode ((ctLeafA 2671219669).take 4) := by
  decide!

/-- C14, amended: `loadNode` succeeds with buffer `buf` and header view `hdr` exactly when
the cached read of `super.nodeSize` bytes succeeds with `buf`, the CRC-32C, seed 0, of the
bytes after the 32-byte checksum slot, `buf[0x20 .. nodeSize)`, equals the little-endian
32-bit value at `buf[0 .. 4)`, and `hdr` is the first `sizeof(BtrfsHeader)` bytes of `buf`;
`nodeSize` is at least the 32 bytes of the slot. It holds for every checksum function and
every block reader. -/
theorem loadNode_ok_iff (crc : Nat → List Nat → Nat)
    (reader : Nat → Nat → Nat → Except Fault (Option (List Nat))) (super : List Nat)
    (blockAddr addrType : Nat) (buf hdr : List Nat) :
    loadNode crc reader super blockAddr addrType = .ok (buf, hdr) ↔
      reader blockAddr addrType (leDecode ((super.drop 0x94).take 4)) = .ok (some buf) ∧
        0x20 ≤ leDecode ((super.drop 0x94).take 4) ∧
        crc 0 ((buf.drop 0x20).take (leDecode ((super.drop 0x94).take 4) - 0x20))
          = leDecode (buf.take 4) ∧
        hdr = buf.take 0x65 := by
  have hsz : readLE super offNodeSize 4 = leDecode ((super.drop 0x94).take 4) := rfl
  have hr : ∀ b : List Nat, readLE b 0 4 = leDecode (b.take 4) := fun _ => rfl
  have hs : ∀ (b : List Nat) (k : Nat), slice b sizeofBtrfsChecksum k = (b.drop 0x20).take k :=
    fun _ _ => rfl
  have hs2 : ∀ (b : List Nat) (k : Nat), slice b 0x20 k = (b.drop 0x20).take k :=
    fun _ _ => rfl
  have hc : sizeofBtrfsChecksum = 0x20 := rfl
  have hh : sizeofBtrfsHeader = 0x65 := rfl
  unfold loadNode
  simp only [hsz, hr, hs, hc, hh, hs2]
  cases hread : reader blockAddr addrType (leDecode ((super.drop 0x94).take 4)) with
  | error e => simp
  | ok r =>
    cases r with
    | none => simp
    | some nodeDest =>
      simp only
      by_cases hlt : leDecode ((super.drop 0x94).take 4) < 0x20
      · rw [if_pos hlt]
        constructor
        · intro h; cases h
        · rintro ⟨_, hge, _⟩; omega
      · rw [if_neg hlt]
        by_cases hcrc : crc 0 ((nodeDest.drop 0x20).take (leDecode ((super.drop 0x94).take 4) - 0x20))
            = leDecode (nodeDest.take 4)
        · rw [if_pos hcrc]
          constructor
          · intro h
            injection h with h
            injection h with h1 h2
            subst h1
            exact ⟨rfl, by omega, hcrc, h2.symm⟩
          · rintro ⟨h1, _, _, h4⟩
            injection h1 with h1
            injection h1 with h1
            subst h1
            rw [h4]
        · rw [if_neg hcrc]
          constructor
          · intro h; cases h
          · rintro ⟨h1, _, h3, _⟩
            injection h1 with h1
            injection h1 with h1
            subst h1
            exact absurd h3 hcrc

/-! ### `getTreeRootAddr` -/

theorem getTreeRootAddrLoop_first (tree : Nat) (k : KeyedItem) (post : List KeyedItem)
    (hk : IsRootItemOf tree k) :
    ∀ pre : List KeyedItem, (∀ j ∈ pre, ¬ IsRootItemOf tree j) →
      getTreeRootAddrLoop tree (pre ++ k :: post) = loadLE k.data offRootNodeBlockNum 8 := by
  intro pre
  induction pre with
  | nil => intro _; simp only [List.nil_append, getTreeRootAddrLoop]; exact if_pos hk
  | cons j rest ih =>
    intro hpre
    have hj : ¬ (j.key.type = TYPE_ROOT_ITEM ∧ j.key.objectID = tree) :=
      hpre j (List.mem_cons_self _ _)
    rw [List.cons_append, getTreeRootAddrLoop, if_neg hj]
    exact ih (fun x hx => hpre x (List.mem_cons_of_mem _ hx))

theorem getTreeRootAddrLoop_none (tree : Nat) :
    ∀ rootTree : List KeyedItem, (∀ j ∈ rootTree, ¬ IsRootItemOf tree j) →
      getTreeRootAddrLoop tree rootTree = .error .assertFailed := by
  intro rootTree
  induction rootTree with
  | nil => intro _; rfl
  | cons j rest ih =>
    intro h
    have hj : ¬ (j.key.type = TYPE_ROOT_ITEM ∧ j.key.objectID = tree) :=
      h j (List.mem_cons_self _ _)
    rw [getTreeRootAddrLoop, if_neg hj]
    exact ih (fun x hx => h x (List.mem_cons_of_mem _ hx))

theorem exists_first_rootItem (tree : Nat) :
    ∀ rootTree : List KeyedItem, (∃ k ∈ rootTree, IsRootItemOf tree k) →
      ∃ pre k post, rootTree = pre ++ k :: post ∧
        (∀ j ∈ pre, ¬ IsRootItemOf tree j) ∧ IsRootItemOf tree k := by
  intro rootTree
  induction rootTree with
  | nil => rintro ⟨k, hk, _⟩; cases hk
  | cons d rest ih =>
    rintro ⟨k, hk, hfit⟩
    by_cases hd : IsRootItemOf tree d
    · exact ⟨[], d, rest, rfl, fun _ h => (by cases h), hd⟩
    · have hk' : k ∈ rest := by
        rcases List.mem_cons.mp hk with h | h
        · subst h; exact absurd hfit hd
        · exact h
      obtain ⟨pre, k0, post, heq, hpre, h0⟩ := ih ⟨k, hk', hfit⟩
      refine ⟨d :: pre, k0, post, by rw [heq]; rfl, ?_, h0⟩
      intro e he
      rcases List.mem_cons.mp he with h | h
      · subst h; exact hd
      · exact hpre e h

/-- C16: on a cache whose `ROOT_ITEM` entries hold a whole `BtrfsRootItem` (as root-tree
Load leaves them), `getTreeRootAddr(t)` returns the `rootNodeBlockNum` of the first entry
whose key type is `ROOT_ITEM` and whose key objectID is `t`, whatever entries of other
types precede it, and it fails exactly when the cache holds no such entry. -/
theorem getTreeRootAddr_spec (rootTree : List KeyedItem) (tree : Nat)
    (hsz : ∀ k ∈ rootTree, k.key.type = TYPE_ROOT_ITEM → k.data.length = sizeofBtrfsRootItem) :
    (∀ pre k post, rootTree = pre ++ k :: post → (∀ j ∈ pre, ¬ IsRootItemOf tree j) →
        IsRootItemOf tree k →
        getTreeRootAddr rootTree tree = .ok (readLE k.data offRootNodeBlockNum 8)) ∧
      ((∃ e, getTreeRootAddr rootTree tree = .error e) ↔
        ¬ ∃ k ∈ rootTree, IsRootItemOf tree k) := by
  have hfirst : ∀ pre k post, rootTree = pre ++ k :: post →
      (∀ j ∈ pre, ¬ IsRootItemOf tree j) → IsRootItemOf tree k →
      getTreeRootAddr rootTree tree = .ok (readLE k.data offRootNodeBlockNum 8) := by
    intro pre k post heq hpre hk
    have hmem : k ∈ rootTree := by rw [heq]; simp
    have hlen := hsz k hmem hk.1
    have hne : rootTree.length ≠ 0 := by rw [heq]; simp
    unfold getTreeRootAddr
    rw [if_neg hne, heq, getTreeRootAddrLoop_first tree k post hk pre hpre]
    unfold loadLE
    rw [if_pos (by rw [hlen]; decide)]
  refine ⟨hfirst, ?_⟩
  constructor
  · rintro ⟨e, he⟩ hex
    obtain ⟨pre, k, post, heq, hpre, hk⟩ := exists_first_rootItem tree rootTree hex
    rw [hfirst pre k post heq hpre hk] at he
    cases he
  · intro hno
    refine ⟨.assertFailed, ?_⟩
    unfold getTreeRootAddr
    split
    · rfl
    · exact getTreeRootAddrLoop_none tree rootTree (fun j hj hr => hno ⟨j, hj, hr⟩)

/-- Witness for C16: the first `ROOT_ITEM` of tree 5 is the third entry of the cache. -/
theorem getTreeRootAddr_spec_witness :
    getTreeRootAddr cacheTwoRoots 5 = .ok 0x100800 :=
  (getTreeRootAddr_spec cacheTwoRoots 5 (by decide!)).1
    [{ key := ⟨5, 0x01, 0⟩, data := mkInodeItem 0 0o40755 },
     { key := ⟨5, 0x0C, 5⟩, data := leEncode 8 0 ++ leEncode 2 2 ++ [0x2E, 0x2E] }]
    { key := ⟨5, 0xA8, 0⟩, data := mkRootItem 0x100800 }
    [{ key := ⟨5, 0xA8, 7⟩, data := mkRootItem 0x100A00 }] rfl (by decide!) (by decide!)

/-! ### Root tree, `RTOP_DEFAULT_SUBVOL` -/

/-- C17, failing input: in the root tree `nodesTwoDefaults` the first `DIR_ITEM` of object
`ROOT_TREE_DIR` in traversal order names tree 5 and a later leaf holds another one naming
tree `0x101`. `parseRootTreeRec` returns from the first leaf only; the loop over the key
pointers goes on to the second leaf, which overwrites `defaultSubvol` with `0x101`. -/
theorem parseRootTreeRecDefaultSubvol_overwritten :
    (treeItems [mkLeaf 0 1 0x100 [(mkKey 6 0x54 0x8DBFC2D2, defaultEntry 5)],
        mkLeaf 0 1 0x100 [(mkKey 6 0x54 0x9DBFC2D2, defaultEntry 0x101)]]).map
        (fun p => (p.2.key, (readDirItem p.1 (payloadOff p.2)).child.objectID))
      = [(⟨6, 0x54, 0x8DBFC2D2⟩, 5), (⟨6, 0x54, 0x9DBFC2D2⟩, 0x101)] ∧
      parseRootTreeRecDefaultSubvol (tableLoad nodesTwoDefaults) 2 0x1000 0 = .ok 0x101 := by
  decide!

/-! ### Root tree, `RTOP_LOAD` -/

theorem slice_length {mem : List Nat} {off len : Nat} (h : off + len ≤ mem.length) :
    (slice mem off len).length = len := by
  unfold slice
  rw [List.length_take, List.length_drop]
  omega

/-- A hook that appends the entry of every item that `keep` selects, and never leaves the
loop, collects the selected items in order. -/
theorem walkItems_filter_map (hook : List Nat → BtrfsItem → List KeyedItem →
      Except Fault (List KeyedItem × Bool)) (keep : List Nat × BtrfsItem → Bool) :
    ∀ (items : List (List Nat × BtrfsItem)) (st : List KeyedItem),
      (∀ p ∈ items, ∀ st, hook p.1 p.2 st
        = .ok (if keep p then st ++ [keyedItemOf p] else st, false)) →
      walkItems hook items st = .ok (st ++ (items.filter keep).map keyedItemOf) := by
  intro items
  induction items with
  | nil => intro st _; simp [walkItems]
  | cons p rest ih =>
    intro st hstep
    obtain ⟨node, item⟩ := p
    have h0 := hstep (node, item) (List.mem_cons_self _ _) st
    simp only at h0
    rw [walkItems, h0]
    simp only [Bool.false_eq_true, if_false]
    rw [ih _ (fun q hq => hstep q (List.mem_cons_of_mem _ hq))]
    by_cases hk : keep (node, item) = true
    · simp [List.filter, hk]
    · simp [List.filter, hk]

theorem rootTreeLoadItem_cached (node : List Nat) (item : BtrfsItem) (rootTree : List KeyedItem)
    (hc : rootTreeCached item.key.type = true) (hs : RootSizeOk item)
    (hp : PayloadOk node item) :
    rootTreeLoadItem node item rootTree = .ok (rootTree ++ [keyedItemOf (node, item)], false) := by
  obtain ⟨h1, h2, h3, h4, h5, h6⟩ := hs
  have hpush := pushKeyedItem_of_ok node item rootTree hp
  unfold rootTreeLoadItem
  by_cases t1 : item.key.type = TYPE_INODE_ITEM
  · rw [if_pos t1, if_neg (not_not.mpr (h1 t1))]; exact hpush
  rw [if_neg t1]
  by_cases t2 : item.key.type = TYPE_INODE_REF
  · rw [if_pos t2, if_neg (Nat.not_lt.mpr (h2 t2))]; exact hpush
  rw [if_neg t2]
  by_cases t3 : item.key.type = TYPE_DIR_ITEM
  · rw [if_pos t3, if_neg (Nat.not_lt.mpr (h3 t3))]; exact hpush
  rw [if_neg t3]
  by_cases t4 : item.key.type = TYPE_ROOT_ITEM
  · rw [if_pos t4, if_neg (not_not.mpr (h4 t4))]; exact hpush
  rw [if_neg t4]
  by_cases t5 : item.key.type = TYPE_ROOT_BACKREF
  · rw [if_pos t5, if_neg (Nat.not_lt.mpr (h5 t5))]; exact hpush
  rw [if_neg t5]
  by_cases t6 : item.key.type = TYPE_ROOT_REF
  · rw [if_pos t6, if_neg (Nat.not_lt.mpr (h6 t6))]; exact hpush
  · simp [rootTreeCached, t1, t2, t3, t4, t5, t6] at hc

theorem rootTreeLoadItem_other (node : List Nat) (item : BtrfsItem) (rootTree : List KeyedItem)
    (hc : ¬ rootTreeCached item.key.type = true) :
    rootTreeLoadItem node item rootTree = .ok (rootTree, false) := by
  simp only [rootTreeCached, Bool.or_eq_true, decide_eq_true_eq, not_or] at hc
  obtain ⟨⟨⟨⟨⟨t1, t2⟩, t3⟩, t4⟩, t5⟩, t6⟩ := hc
  unfold rootTreeLoadItem
  rw [if_neg t1, if_neg t2, if_neg t3, if_neg t4, if_neg t5, if_neg t6]

theorem rootTreeLoadItem_leave : LeaveIsFlag rootTreeLoadItem (fun _ => false) := by
  intro node item st st1 leave h
  unfold rootTreeLoadItem at h
  repeat' split at h
  all_goals first
    | (cases h; done)
    | exact (pushKeyedItem_ok h).2.2
    | (injection h with h; injection h with _ h2; exact h2.symm)

/-- C15, counterexample: the root tree `nodesLongRootItem` is one leaf with one `ROOT_ITEM`
whose payload, 240 bytes inside the node, is not `sizeof(BtrfsRootItem)` bytes long. Load
asserts the size and fails; nothing is cached. -/
theorem parseRootTreeLoad_size_counterexample :
    (treeItems [mkLeaf 0 1 0x200 [(mkKey 5 0xA8 0, mkRootItem 0x4000 ++ [0])]]).map
        (fun p => (p.2.key, p.2.size, decide (PayloadOk p.1 p.2)))
        = [(⟨5, 0xA8, 0⟩, 240, true)] ∧
      parseRootTreeLoad (tableLoad nodesLongRootItem) sbRootAt1000 2 []
        = .error .assertFailed := by
  decide!

/-- C15, amended: for every root tree whose items of the six cached types (`INODE_ITEM`,
`INODE_REF`, `DIR_ITEM`, `ROOT_ITEM`, `ROOT_BACKREF`, `ROOT_REF`) pass the size assertion of
their type and have their payload inside their node, `parseRootTree(RTOP_LOAD)` on an
initially empty cache returns, for any depth budget above the height of the tree, exactly
the sequence in traversal order of one pair per leaf item of those types: the key of the
item and the `item.size` bytes at `sizeof(BtrfsHeader) + item.offset` of its node. Every
cached `ROOT_ITEM` then holds `sizeof(BtrfsRootItem)` bytes. -/
theorem parseRootTreeLoad_caches (load : Nat → Except Fault (List Nat)) (super : List Nat)
    (h depth : Nat) (leaves : List (List Nat))
    (hT : TreeAt load (some OBJID_ROOT_TREE) h (readLE super offRootTreeLAddr 8) leaves)
    (hok : ∀ node ∈ leaves, LeafOk node) (hd : h < depth)
    (hitems : ∀ p ∈ treeItems leaves, rootTreeCached p.2.key.type = true →
      RootSizeOk p.2 ∧ PayloadOk p.1 p.2) :
    parseRootTreeLoad load super depth []
        = .ok (((treeItems leaves).filter (fun p => rootTreeCached p.2.key.type)).map
            (fun p => { key := p.2.key, data := slice p.1 (sizeofBtrfsHeader + p.2.offset) p.2.size })) ∧
      ∀ k ∈ ((treeItems leaves).filter (fun p => rootTreeCached p.2.key.type)).map
            (fun p => ({ key := p.2.key,
                         data := slice p.1 (sizeofBtrfsHeader + p.2.offset) p.2.size } : KeyedItem)),
        k.key.type = TYPE_ROOT_ITEM → k.data.length = sizeofBtrfsRootItem := by
  constructor
  · unfold parseRootTreeLoad parseRootTreeRecLoad
    rw [walkTree_eq_walkItems load _ rootTreeLoadItem _ rootTreeLoadItem_leave h _ leaves hT hok
      depth [] hd rfl]
    rw [walkItems_filter_map rootTreeLoadItem (fun p => rootTreeCached p.2.key.type)]
    · rfl
    · intro p hp st
      by_cases hc : rootTreeCached p.2.key.type = true
      · obtain ⟨hs, hpl⟩ := hitems p hp hc
        rw [rootTreeLoadItem_cached p.1 p.2 st hc hs hpl]
        simp [hc]
      · rw [rootTreeLoadItem_other p.1 p.2 st hc]
        simp [hc]
  · intro k hk hty
    obtain ⟨p, hp, rfl⟩ := List.mem_map.mp hk
    obtain ⟨hmem, hc⟩ := List.mem_filter.mp hp
    obtain ⟨hs, hpl⟩ := hitems p hmem hc
    have hsz : p.2.size = sizeofBtrfsRootItem := hs.2.2.2.1 hty
    have hlen := slice_length (show sizeofBtrfsHeader + p.2.offset + p.2.size ≤ p.1.length from hpl)
    simp only
    rw [hlen, hsz]

/-- The node table `nodesRootTree` is a root tree of height 1 with the leaves
`leavesRootTree`. -/
theorem treeAt_nodesRootTree :
    TreeAt (tableLoad nodesRootTree) (some OBJID_ROOT_TREE) 1 0x1000 leavesRootTree := by
  have hleaf : ∀ k ∈ [(0x2000, [leavesRootTree.get ⟨0, by decide⟩]),
      (0x3000, [leavesRootTree.get ⟨1, by decide⟩])],
      TreeAt (tableLoad nodesRootTree) (some OBJID_ROOT_TREE) 0 k.1 k.2 := by
    intro k hk
    simp only [List.mem_cons, List.mem_singleton, List.not_mem_nil, or_false] at hk
    rcases hk with rfl | rfl
    · exact TreeAt.leaf 0 0x2000 _ (by decide!) (by decide!)
        (fun t ht => by cases ht; decide!) (by decide!)
    · exact TreeAt.leaf 0 0x3000 _ (by decide!) (by decide!)
        (fun t ht => by cases ht; decide!) (by decide!)
  exact TreeAt.inner 0 0x1000
    (mkInner 0 1 1 0x200 [(mkKey 5 0xA8 0, 0x2000), (mkKey 6 0x54 0x8DBFC2D2, 0x3000)])
    [(0x2000, [leavesRootTree.get ⟨0, by decide⟩]), (0x3000, [leavesRootTree.get ⟨1, by decide⟩])]
    (by decide!) (by decide!) (fun t ht => by cases ht; decide!) (by decide!) (by decide!)
    (by
      intro i hi
      match i, hi with
      | 0, _ =>
        exact (by decide! : loadKeyPtr (mkInner 0 1 1 0x200
          [(mkKey 5 0xA8 0, 0x2000), (mkKey 6 0x54 0x8DBFC2D2, 0x3000)]) 0 = .ok 0x2000)
      | 1, _ =>
        exact (by decide! : loadKeyPtr (mkInner 0 1 1 0x200
          [(mkKey 5 0xA8 0, 0x2000), (mkKey 6 0x54 0x8DBFC2D2, 0x3000)]) 1 = .ok 0x3000)) hleaf

/-- Witness for C15: the root tree `nodesRootTree`, of two levels; the cache holds the
`ROOT_ITEM` of the first leaf and the `DIR_ITEM` of the second, not the item of type
`0x84`. -/
theorem parseRootTreeLoad_caches_witness :
    (parseRootTreeLoad (tableLoad nodesRootTree) sbRootAt1000 2 []
        = .ok (((treeItems leavesRootTree).filter (fun p => rootTreeCached p.2.key.type)).map
            (fun p => { key := p.2.key, data := slice p.1 (sizeofBtrfsHeader + p.2.offset) p.2.size })) ∧
      ∀ k ∈ ((treeItems leavesRootTree).filter (fun p => rootTreeCached p.2.key.type)).map
            (fun p => ({ key := p.2.key,
                         data := slice p.1 (sizeofBtrfsHeader + p.2.offset) p.2.size } : KeyedItem)),
        k.key.type = TYPE_ROOT_ITEM → k.data.length = sizeofBtrfsRootItem) ∧
      ((treeItems leavesRootTree).filter (fun p => rootTreeCached p.2.key.type)).map
            (fun p => ({ key := p.2.key,
                         data := slice p.1 (sizeofBtrfsHeader + p.2.offset) p.2.size } : KeyedItem))
        = [{ key := ⟨5, 0xA8, 0⟩, data := mkRootItem 0x4000 },
           { key := ⟨6, 0x54, 0x8DBFC2D2⟩, data := defaultEntry 5 }] :=
  ⟨parseRootTreeLoad_caches (tableLoad nodesRootTree) sbRootAt1000 1 2 leavesRootTree
      (by rw [show readLE sbRootAt1000 offRootTreeLAddr 8 = 0x1000 by decide!]
          exact treeAt_nodesRootTree)
      (by decide!) (by decide) (by decide!),
    by decide!⟩

/-! ### Chained directory entries -/

/-- The chain loop is the run of its body over the chained entries, when the fixed parts of
the entries lie inside the node; the budget `size + 1` is never exhausted. -/
theorem dirItemLoop_eq_walkEntries {σ : Type}
    (body : Nat → BtrfsDirItem → σ → Except Fault (σ × Bool)) (node : List Nat)
    (base size : Nat) :
    ∀ (fuel off : Nat) (st : σ), 0 < fuel → size + 1 ≤ fuel + off →
      (∀ e ∈ dirEntries node base size fuel off, e.1 + sizeofBtrfsDirItem ≤ node.length) →
      dirItemLoop body node base size fuel off st
        = walkEntries body (dirEntries node base size fuel off) st := by
  intro fuel
  induction fuel with
  | zero => intro off st h; exact absurd h (Nat.lt_irrefl 0)
  | succ f ih =>
    intro off st _ hinv hin
    have hsz : sizeofBtrfsDirItem = 0x1e := rfl
    rw [dirEntries] at hin ⊢
    have h0 : base + off + sizeofBtrfsDirItem ≤ node.length := hin _ (List.mem_cons_self _ _)
    have hload : loadDirItem node (base + off) = .ok (readDirItem node (base + off)) := by
      unfold loadDirItem; rw [if_pos h0]
    rw [dirItemLoop, hload, walkEntries]
    simp only
    cases hb : body (base + off) (readDirItem node (base + off)) st with
    | error e => rfl
    | ok r =>
      obtain ⟨st1, leave⟩ := r
      simp only
      cases leave with
      | true => simp
      | false =>
        simp only [Bool.false_eq_true, if_false]
        by_cases hadv : size > off + sizeofBtrfsDirItem + (readDirItem node (base + off)).m
            + (readDirItem node (base + off)).n
        · rw [if_pos hadv] at hin
          rw [if_pos hadv, if_pos hadv]
          have hf : 0 < f := by omega
          have hinv1 : size + 1 ≤ f + (off + sizeofBtrfsDirItem
              + (readDirItem node (base + off)).m + (readDirItem node (base + off)).n) := by omega
          exact ih _ st1 hf hinv1 (fun e he => hin e (List.mem_cons_of_mem _ he))
        · rw [if_neg hadv, if_neg hadv]
          rfl

/-! ### FS tree, `FSOP_NAME_TO_ID` -/

theorem nameToIdDirEntry_eq (name node : List Nat) (e : Nat × BtrfsDirItem) (st : NameToIdState)
    (hin : e.1 + sizeofBtrfsDirItem + e.2.n ≤ node.length) :
    nameToIdDirEntry name node e.1 e.2 st
      = .ok (if entryMatches name node e then
          ({ childID := e.2.child.objectID, returnCode := 0, shortCircuit := true }, true)
        else (st, false)) := by
  unfold nameToIdDirEntry entryMatches loadBytes
  by_cases hn : e.2.n = name.length
  · rw [if_pos hn, if_pos hin]
    simp only
    by_cases hs : slice node (e.1 + sizeofBtrfsDirItem) e.2.n = name
    · rw [if_pos hs, if_pos (decide_eq_true ⟨hn, hs⟩)]
    · rw [if_neg hs, if_neg (fun h => hs (of_decide_eq_true h).2)]
  · rw [if_neg hn, if_neg (fun h => hn (of_decide_eq_true h).1)]

theorem walkEntries_nameToId (name node : List Nat) :
    ∀ (entries : List (Nat × BtrfsDirItem)) (st : NameToIdState),
      (∀ e ∈ entries, e.1 + sizeofBtrfsDirItem + e.2.n ≤ node.length) →
      walkEntries (nameToIdDirEntry name node) entries st
        = .ok (match entries.find? (entryMatches name node) with
          | some e => { childID := e.2.child.objectID, returnCode := 0, shortCircuit := true }
          | none => st) := by
  intro entries
  induction entries with
  | nil => intro st _; rfl
  | cons e rest ih =>
    intro st hin
    obtain ⟨entry, dirItem⟩ := e
    have h0 := nameToIdDirEntry_eq name node (entry, dirItem) st (hin _ (List.mem_cons_self _ _))
    simp only at h0
    rw [walkEntries, h0]
    by_cases hm : entryMatches name node (entry, dirItem) = true
    · simp [List.find?, hm]
    · simp only [hm, Bool.false_eq_true, if_false]
      rw [ih st (fun x hx => hin x (List.mem_cons_of_mem _ hx))]
      simp [List.find?, hm]

theorem fsNameToIdItem_eq (parentID hash : Nat) (name : List Nat) (p : List Nat × BtrfsItem)
    (st : NameToIdState) (hst : st.shortCircuit = false)
    (hchain : isCandidate parentID hash p.2 = true → ChainOk p.1 p.2) :
    fsNameToIdItem parentID hash name p.1 p.2 st
      = .ok (match nameToIdItem parentID hash name p with
        | some c => ({ childID := c, returnCode := 0, shortCircuit := true }, true)
        | none => (st, false)) := by
  unfold fsNameToIdItem nameToIdItem
  by_cases hc : isCandidate parentID hash p.2 = true
  · have hc1 : p.2.key.type = TYPE_DIR_ITEM ∧ p.2.key.objectID = parentID ∧
        p.2.key.offset % 2 ^ 32 = hash := by
      simpa [isCandidate] using hc
    have hok := hchain hc
    rw [if_pos hc1, if_pos hc]
    have hloop := dirItemLoop_eq_walkEntries (nameToIdDirEntry name p.1) p.1 (payloadOff p.2)
      p.2.size (p.2.size + 1) 0 st (by omega) (by omega)
      (fun e he => by have := hok e he; omega)
    rw [hloop]
    have hw := walkEntries_nameToId name p.1 (itemDirEntries p.1 p.2) st hok
    unfold itemDirEntries at hw ⊢
    rw [hw]
    cases hf : List.find? (entryMatches name p.1)
        (dirEntries p.1 (payloadOff p.2) p.2.size (p.2.size + 1) 0) with
    | none => simp [hst]
    | some e => simp
  · have hc1 : ¬ (p.2.key.type = TYPE_DIR_ITEM ∧ p.2.key.objectID = parentID ∧
        p.2.key.offset % 2 ^ 32 = hash) := by
      simpa [isCandidate] using hc
    rw [if_neg hc1, if_neg hc]
    simp [hst]

theorem walkItems_nameToId (parentID hash : Nat) (name : List Nat) :
    ∀ (items : List (List Nat × BtrfsItem)) (st : NameToIdState), st.shortCircuit = false →
      (∀ p ∈ items, isCandidate parentID hash p.2 = true → ChainOk p.1 p.2) →
      walkItems (fsNameToIdItem parentID hash name) items st
        = .ok (match nameToIdSpec parentID hash name items with
          | some c => { childID := c, returnCode := 0, shortCircuit := true }
          | none => st) := by
  intro items
  induction items with
  | nil => intro st _ _; rfl
  | cons p rest ih =>
    intro st hst hchain
    have h0 := fsNameToIdItem_eq parentID hash name p st hst (hchain p (List.mem_cons_self _ _))
    obtain ⟨node, item⟩ := p
    simp only at h0
    rw [walkItems, h0]
    unfold nameToIdSpec
    cases hi : nameToIdItem parentID hash name (node, item) with
    | some c => simp [List.findSome?, hi]
    | none =>
      simp only [List.findSome?, hi, Bool.false_eq_true, if_false]
      exact ih st hst (fun q hq => hchain q (List.mem_cons_of_mem _ hq))

theorem fsNameToIdItem_leave (parentID hash : Nat) (name : List Nat) :
    LeaveIsFlag (fsNameToIdItem parentID hash name) (fun st => st.shortCircuit) := by
  intro node item st st1 leave h
  unfold fsNameToIdItem at h
  repeat' split at h
  all_goals first
    | (cases h; done)
    | (injection h with h; injection h with h1 h2; subst h1; exact h2.symm)

theorem findSome?_exists {α β : Type} (f : α → Option β) :
    ∀ xs : List α, (∃ c, xs.findSome? f = some c) ↔ ∃ x ∈ xs, ∃ c, f x = some c := by
  intro xs
  induction xs with
  | nil => simp
  | cons x rest ih =>
    cases hx : f x with
    | some c =>
      simp only [List.findSome?, hx]
      exact ⟨fun _ => ⟨x, List.mem_cons_self _ _, c, hx⟩, fun _ => ⟨c, rfl⟩⟩
    | none =>
      simp only [List.findSome?, hx]
      rw [ih]
      constructor
      · rintro ⟨y, hy, c, hc⟩
        exact ⟨y, List.mem_cons_of_mem _ hy, c, hc⟩
      · rintro ⟨y, hy, c, hc⟩
        rcases List.mem_cons.mp hy with h | h
        · subst h; rw [hx] at hc; cases hc
        · exact ⟨y, h, c, hc⟩

theorem find?_exists {α : Type} (q : α → Bool) :
    ∀ xs : List α, (∃ e, xs.find? q = some e) ↔ ∃ x ∈ xs, q x = true := by
  intro xs
  induction xs with
  | nil => simp
  | cons x rest ih =>
    by_cases hx : q x = true
    · simp only [List.find?, hx]
      exact ⟨fun _ => ⟨x, List.mem_cons_self _ _, hx⟩, fun _ => ⟨x, rfl⟩⟩
    · have hx1 : q x = false := by simpa using hx
      simp only [List.find?, hx1]
      rw [ih]
      constructor
      · rintro ⟨y, hy, hq⟩
        exact ⟨y, List.mem_cons_of_mem _ hy, hq⟩
      · rintro ⟨y, hy, hq⟩
        rcases List.mem_cons.mp hy with h | h
        · subst h; exact absurd hq hx
        · exact ⟨y, h, hq⟩

/-- C18: for every FS tree whose candidate `DIR_ITEM`s hold their chained entries inside
their node, every `parentID`, `hash` and `name`, and any depth budget above the height of
the tree, `parseFSTree(FSOP_NAME_TO_ID)` returns 0 with `childID` the `child.objectID` of
the first matching chained entry in traversal order (the first entry with `n = |name|` and
name bytes equal to `name`, of the first `DIR_ITEM` with `key.objectID = parentID` and
`(u32)key.offset = hash` that has one), whatever items follow it; when no such entry exists
it returns the initial code 1 and leaves `childID` unchanged. A match exists exactly when
some candidate item has a chained entry naming `name`. -/
theorem parseFSTreeNameToId_spec (load : Nat → Except Fault (List Nat))
    (rootTree : List KeyedItem) (depth tree parentID hash : Nat) (name : List Nat)
    (childID h addr : Nat) (leaves : List (List Nat))
    (haddr : getTreeRootAddr rootTree tree = .ok addr)
    (hT : TreeAt load none h addr leaves) (hok : ∀ node ∈ leaves, LeafOk node)
    (hd : h < depth)
    (hchain : ∀ p ∈ treeItems leaves, isCandidate parentID hash p.2 = true → ChainOk p.1 p.2) :
    parseFSTreeNameToId load rootTree depth tree parentID hash name childID
        = .ok (match nameToIdSpec parentID hash name (treeItems leaves) with
          | some c => (0, c)
          | none => (1, childID)) ∧
      ((∃ c, nameToIdSpec parentID hash name (treeItems leaves) = some c) ↔
        ∃ p ∈ treeItems leaves,
          (p.2.key.type = TYPE_DIR_ITEM ∧ p.2.key.objectID = parentID ∧
            p.2.key.offset % 2 ^ 32 = hash) ∧
          ∃ e ∈ itemDirEntries p.1 p.2,
            e.2.n = name.length ∧ slice p.1 (e.1 + sizeofBtrfsDirItem) e.2.n = name) := by
  constructor
  · unfold parseFSTreeNameToId parseFSTreeRecNameToId
    rw [haddr]
    simp only
    rw [walkTree_eq_walkItems load none _ _ (fsNameToIdItem_leave parentID hash name) h addr
      leaves hT hok depth _ hd rfl]
    rw [walkItems_nameToId parentID hash name (treeItems leaves) _ rfl hchain]
    cases nameToIdSpec parentID hash name (treeItems leaves) with
    | none => rfl
    | some c => rfl
  · unfold nameToIdSpec
    rw [findSome?_exists]
    constructor
    · rintro ⟨p, hp, c, hc⟩
      unfold nameToIdItem at hc
      by_cases hcand : isCandidate parentID hash p.2 = true
      · rw [if_pos hcand] at hc
        have hfind : ∃ e, (itemDirEntries p.1 p.2).find? (entryMatches name p.1) = some e := by
          cases hf : (itemDirEntries p.1 p.2).find? (entryMatches name p.1) with
          | none => rw [hf] at hc; cases hc
          | some e => exact ⟨e, rfl⟩
        obtain ⟨e, he, hm⟩ := (find?_exists _ _).mp hfind
        exact ⟨p, hp, of_decide_eq_true hcand, e, he, of_decide_eq_true hm⟩
      · rw [if_neg hcand] at hc; cases hc
    · rintro ⟨p, hp, hcand, e, he, hm⟩
      obtain ⟨e0, he0⟩ := (find?_exists (entryMatches name p.1) _).mpr
        ⟨e, he, decide_eq_true hm⟩
      refine ⟨p, hp, e0.2.child.objectID, ?_⟩
      unfold nameToIdItem
      have hcand1 : isCandidate parentID hash p.2 = true := decide_eq_true hcand
      rw [if_pos hcand1, he0]
      rfl

/-- The node table `nodesFsTree` is a tree of height 1 with the leaves `fsLeafDir`,
`fsLeafFile`. -/
theorem treeAt_nodesFsTree :
    TreeAt (tableLoad nodesFsTree) none 1 0x4000 [fsLeafDir, fsLeafFile] := by
  have hleaf : ∀ k ∈ [(0x5000, [fsLeafDir]), (0x6000, [fsLeafFile])],
      TreeAt (tableLoad nodesFsTree) none 0 k.1 k.2 := by
    intro k hk
    simp only [List.mem_cons, List.mem_singleton, List.not_mem_nil, or_false] at hk
    rcases hk with rfl | rfl
    · exact TreeAt.leaf 0 0x5000 _ (by decide!) (by decide!) (fun t ht => by cases ht)
        (by decide!)
    · exact TreeAt.leaf 0 0x6000 _ (by decide!) (by decide!) (fun t ht => by cases ht)
        (by decide!)
  exact TreeAt.inner 0 0x4000
    (mkInner 0 5 1 0x400 [(mkKey 0x100 0x01 0, 0x5000), (mkKey 257 0x01 0, 0x6000)])
    [(0x5000, [fsLeafDir]), (0x6000, [fsLeafFile])]
    (by decide!) (by decide!) (fun t ht => by cases ht) (by decide!) (by decide!)
    (by
      intro i hi
      match i, hi with
      | 0, _ =>
        exact (by decide! : loadKeyPtr (mkInner 0 5 1 0x400
          [(mkKey 0x100 0x01 0, 0x5000), (mkKey 257 0x01 0, 0x6000)]) 0 = .ok 0x5000)
      | 1, _ =>
        exact (by decide! : loadKeyPtr (mkInner 0 5 1 0x400
          [(mkKey 0x100 0x01 0, 0x5000), (mkKey 257 0x01 0, 0x6000)]) 1 = .ok 0x6000)) hleaf

/-- Witness for C18: in `nodesFsTree` the name `hello` under the root directory is the
second chained entry of the `DIR_ITEM` filed under `helloHash`; it names object 257. -/
theorem parseFSTreeNameToId_spec_witness :
    parseFSTreeNameToId (tableLoad nodesFsTree) cacheFsTree 2 5 0x100 helloHash strHello 0
        = .ok (0, 257) ∧
      (treeItems [fsLeafDir, fsLeafFile]).map (fun p => p.2.key)
        = [⟨0x100, 0x01, 0⟩, ⟨0x100, 0x54, helloHash⟩, ⟨257, 0x01, 0⟩, ⟨257, 0x6C, 0⟩,
           ⟨258, 0x01, 0⟩] :=
  ⟨(parseFSTreeNameToId_spec (tableLoad nodesFsTree) cacheFsTree 2 5 0x100 helloHash strHello 0
      1 0x4000 [fsLeafDir, fsLeafFile] (by decide!) treeAt_nodesFsTree (by decide!) (by decide)
      (by decide!)).1.trans (by decide!),
    by decide!⟩

/-! ### FS tree, `FSOP_GET_FILE_PKG` -/

theorem clearBits_rcOf (i n : Bool) :
    clearBits (rcOf i n) 0x1 = rcOf true n ∧ clearBits (rcOf i n) 0x2 = rcOf i true ∧
      clearBits (rcOf i n) 0x4 = rcOf i n := by
  cases i <;> cases n <;> decide

theorem memcpyInto_length (dst src : List Nat) (h : src.length ≤ dst.length) :
    (memcpyInto dst src).length = dst.length := by
  unfold memcpyInto
  rw [List.length_append, List.length_drop]
  omega

theorem getFilePkgDirEntry_step (objectID keyObjectID : Nat) (node : List Nat)
    (e : Nat × BtrfsDirItem) (st : GetFilePkgState) (i n : Bool)
    (hrc : st.returnCode = rcOf i n) (hname : st.filePkg.name.length = 256)
    (hin : e.1 + sizeofBtrfsDirItem + e.2.n ≤ node.length)
    (hn : entryNames objectID e = true → e.2.n ≤ 255) :
    ∃ st1, getFilePkgDirEntry objectID keyObjectID node e.1 e.2 st = .ok (st1, false) ∧
      st1.shortCircuit = st.shortCircuit ∧
      st1.returnCode = rcOf i (n || entryNames objectID e) ∧
      st1.filePkg.extents = st.filePkg.extents ∧
      st1.filePkg.numExtents = st.filePkg.numExtents ∧
      st1.filePkg.name.length = 256 := by
  unfold getFilePkgDirEntry
  by_cases hc : e.2.child.objectID = objectID
  · have hne : entryNames objectID e = true := decide_eq_true hc
    have hn255 := hn hne
    rw [if_pos hc, if_pos hn255]
    unfold loadBytes
    rw [if_pos hin]
    simp only
    have hsl : (slice node (e.1 + sizeofBtrfsDirItem) e.2.n).length = e.2.n := slice_length hin
    have hml : (memcpyInto st.filePkg.name (slice node (e.1 + sizeofBtrfsDirItem) e.2.n)).length
        = 256 := by
      rw [memcpyInto_length _ _ (by rw [hsl, hname]; omega), hname]
    unfold storeByte
    rw [if_pos (by rw [hml]; omega)]
    refine ⟨_, rfl, rfl, ?_, rfl, rfl, ?_⟩
    · simp only [hne, Bool.or_true]
      rw [hrc]
      exact (clearBits_rcOf i n).2.1
    · simp only [List.length_set]
      exact hml
  · have hne : entryNames objectID e = false := decide_eq_false hc
    rw [if_neg hc]
    refine ⟨st, rfl, rfl, ?_, rfl, rfl, hname⟩
    rw [hne, Bool.or_false]
    exact hrc

theorem walkEntries_getFilePkg (objectID keyObjectID : Nat) (node : List Nat) :
    ∀ (entries : List (Nat × BtrfsDirItem)) (st : GetFilePkgState) (i n : Bool),
      st.returnCode = rcOf i n → st.filePkg.name.length = 256 →
      (∀ e ∈ entries, e.1 + sizeofBtrfsDirItem + e.2.n ≤ node.length) →
      (∀ e ∈ entries, entryNames objectID e = true → e.2.n ≤ 255) →
      ∃ st1, walkEntries (getFilePkgDirEntry objectID keyObjectID node) entries st = .ok st1 ∧
        st1.shortCircuit = st.shortCircuit ∧
        st1.returnCode = rcOf i (n || entries.any (entryNames objectID)) ∧
        st1.filePkg.extents = st.filePkg.extents ∧
        st1.filePkg.numExtents = st.filePkg.numExtents ∧
        st1.filePkg.name.length = 256 := by
  intro entries
  induction entries with
  | nil =>
    intro st i n hrc hname _ _
    exact ⟨st, rfl, rfl, by simpa using hrc, rfl, rfl, hname⟩
  | cons e rest ih =>
    intro st i n hrc hname hin hn
    obtain ⟨st1, hstep, hsc, hrc1, hex, hnum, hname1⟩ :=
      getFilePkgDirEntry_step objectID keyObjectID node e st i n hrc hname
        (hin e (List.mem_cons_self _ _)) (hn e (List.mem_cons_self _ _))
    obtain ⟨st2, hrest, hsc2, hrc2, hex2, hnum2, hname2⟩ :=
      ih st1 i (n || entryNames objectID e) hrc1 hname1
        (fun x hx => hin x (List.mem_cons_of_mem _ hx))
        (fun x hx => hn x (List.mem_cons_of_mem _ hx))
    obtain ⟨entry, dirItem⟩ := e
    refine ⟨st2, ?_, hsc2.trans hsc, ?_, hex2.trans hex, hnum2.trans hnum, hname2⟩
    · rw [walkEntries]
      simp only at hstep
      rw [hstep]
      simpa using hrest
    · rw [hrc2, List.any_cons, Bool.or_assoc]

theorem getFilePkgBranches_step (objectID : Nat) (p : List Nat × BtrfsItem)
    (st : GetFilePkgState) (i n : Bool)
    (hrc : st.returnCode = rcOf i n) (hname : st.filePkg.name.length = 256)
    (hok : FilePkgItemOk objectID p) :
    ∃ st1, getFilePkgBranches objectID p.1 p.2 st = .ok st1 ∧
      st1.shortCircuit = st.shortCircuit ∧
      st1.returnCode = rcOf (i || isTargetInode objectID p) (n || namesTarget objectID p) ∧
      st1.filePkg.extents = st.filePkg.extents ++
        (if isTargetExtent objectID p = true then [keyedItemOf p] else []) ∧
      st1.filePkg.numExtents = st.filePkg.numExtents +
        (if isTargetExtent objectID p = true then 1 else 0) ∧
      st1.filePkg.name.length = 256 := by
  obtain ⟨hinode, hdir, hext⟩ := hok
  unfold getFilePkgBranches
  by_cases h1 : p.2.key.type = TYPE_INODE_ITEM ∧ p.2.key.objectID = objectID
  · have hi : isTargetInode objectID p = true := decide_eq_true h1
    have hnt : namesTarget objectID p = false := by
      unfold namesTarget
      rw [h1.1]
      rfl
    have hne : isTargetExtent objectID p = false := by
      unfold isTargetExtent
      rw [h1.1]
      exact decide_eq_false (fun h => absurd h.1 (by decide))
    have hin := hinode hi
    rw [if_pos h1]
    unfold loadBytes
    rw [if_pos hin]
    refine ⟨_, rfl, rfl, ?_, ?_, ?_, hname⟩
    · simp only [hi, hnt, Bool.or_true, Bool.or_false]
      rw [hrc, (clearBits_rcOf i n).1]
      split
      · exact (clearBits_rcOf true n).2.2
      · rfl
    · simp [hne]
    · simp [hne]
  · have hi : isTargetInode objectID p = false := decide_eq_false h1
    rw [if_neg h1]
    by_cases h2 : p.2.key.type = TYPE_DIR_ITEM
    · have hne : isTargetExtent objectID p = false := by
        unfold isTargetExtent
        rw [h2]
        exact decide_eq_false (fun h => absurd h.1 (by decide))
      obtain ⟨hchain, hn255⟩ := hdir h2
      rw [if_pos h2]
      have hloop := dirItemLoop_eq_walkEntries
        (getFilePkgDirEntry objectID p.2.key.objectID p.1) p.1 (payloadOff p.2)
        p.2.size (p.2.size + 1) 0 st (by omega) (by omega)
        (fun e he => by have := hchain e he; omega)
      rw [hloop]
      obtain ⟨st1, hrun, hsc, hrc1, hex, hnum, hname1⟩ :=
        walkEntries_getFilePkg objectID p.2.key.objectID p.1 (itemDirEntries p.1 p.2) st i n
          hrc hname hchain hn255
      refine ⟨st1, hrun, hsc, ?_, ?_, ?_, hname1⟩
      · rw [hrc1, hi, Bool.or_false]
        unfold namesTarget
        rw [decide_eq_true h2, Bool.true_and]
      · rw [hex]; simp [hne]
      · rw [hnum]; simp [hne]
    · have hnt : namesTarget objectID p = false := by
        unfold namesTarget
        rw [decide_eq_false h2, Bool.false_and]
      rw [if_neg h2]
      by_cases h3 : p.2.key.type = TYPE_EXTENT_DATA ∧ p.2.key.objectID = objectID
      · have he : isTargetExtent objectID p = true := decide_eq_true h3
        have hpl : payloadOff p.2 + p.2.size ≤ p.1.length := hext he
        rw [if_pos h3]
        unfold loadKeyedItem loadBytes
        rw [if_pos hpl]
        refine ⟨_, rfl, rfl, ?_, ?_, ?_, hname⟩
        · simp only [hi, hnt, Bool.or_false]; exact hrc
        · simp only [he, if_true]; rfl
        · simp only [he, if_true]
      · have he : isTargetExtent objectID p = false := decide_eq_false h3
        rw [if_neg h3]
        refine ⟨st, rfl, rfl, ?_, ?_, ?_, hname⟩
        · simp only [hi, hnt, Bool.or_false]; exact hrc
        · simp [he]
        · simp [he]

theorem walkItems_getFilePkg (objectID : Nat) :
    ∀ (items : List (List Nat × BtrfsItem)) (st : GetFilePkgState) (i n : Bool),
      st.shortCircuit = false → st.returnCode = rcOf i n → st.filePkg.name.length = 256 →
      (∀ p ∈ visitedItems objectID items, FilePkgItemOk objectID p) →
      ∃ st1, walkItems (fsGetFilePkgItem objectID) items st = .ok st1 ∧
        st1.returnCode = rcOf (i || (visitedItems objectID items).any (isTargetInode objectID))
          (n || (visitedItems objectID items).any (namesTarget objectID)) ∧
        st1.filePkg.extents = st.filePkg.extents ++
          ((visitedItems objectID items).filter (isTargetExtent objectID)).map keyedItemOf ∧
        st1.filePkg.numExtents = st.filePkg.numExtents +
          ((visitedItems objectID items).filter (isTargetExtent objectID)).length := by
  intro items
  induction items with
  | nil =>
    intro st i n _ hrc _ _
    exact ⟨st, rfl, by simpa [visitedItems] using hrc, by simp [visitedItems],
      by simp [visitedItems]⟩
  | cons p rest ih =>
    intro st i n hsc hrc hname hok
    obtain ⟨node, item⟩ := p
    by_cases hle : item.key.objectID ≤ objectID
    · have hvis : visitedItems objectID ((node, item) :: rest)
          = (node, item) :: visitedItems objectID rest := by
        unfold visitedItems
        rw [List.takeWhile_cons]
        simp [hle]
      rw [hvis] at hok ⊢
      obtain ⟨st1, hrun, hsc1, hrc1, hex1, hnum1, hname1⟩ :=
        getFilePkgBranches_step objectID (node, item) st i n hrc hname
          (hok _ (List.mem_cons_self _ _))
      simp only at hrun
      obtain ⟨st2, hrest, hrc2, hex2, hnum2⟩ :=
        ih st1 _ _ (hsc1.trans hsc) hrc1 hname1 (fun q hq => hok q (List.mem_cons_of_mem _ hq))
      refine ⟨st2, ?_, ?_, ?_, ?_⟩
      · rw [walkItems]
        unfold fsGetFilePkgItem
        rw [if_neg (by omega), hrun]
        simp only [hsc1.trans hsc, Bool.false_eq_true, if_false]
        exact hrest
      · rw [hrc2, List.any_cons, List.any_cons, Bool.or_assoc, Bool.or_assoc]
      · rw [hex2, hex1, List.append_assoc]
        by_cases he : isTargetExtent objectID (node, item) = true
        · simp [List.filter, he]
        · simp [List.filter, he]
      · rw [hnum2, hnum1]
        by_cases he : isTargetExtent objectID (node, item) = true
        · simp [List.filter, he]; omega
        · simp [List.filter, he]
    · have hvis : visitedItems objectID ((node, item) :: rest) = [] := by
        unfold visitedItems
        rw [List.takeWhile_cons]
        simp [hle]
      rw [hvis]
      refine ⟨{ st with shortCircuit := true }, ?_, by simpa using hrc, by simp, by simp⟩
      rw [walkItems]
      unfold fsGetFilePkgItem
      rw [if_pos (by omega)]
      rfl

theorem fsGetFilePkgItem_leave (objectID : Nat) :
    LeaveIsFlag (fsGetFilePkgItem objectID) (fun st => st.shortCircuit) := by
  intro node item st st1 leave h
  unfold fsGetFilePkgItem at h
  repeat' split at h
  all_goals first
    | (cases h; done)
    | (injection h with h; injection h with h1 h2; subst h1; exact h2.symm)

/-- The run of `parseFSTree(FSOP_GET_FILE_PKG)` on a tree: the return code and the extents
in terms of the items the walk processes. -/
theorem parseFSTreeGetFilePkg_run (load : Nat → Except Fault (List Nat))
    (rootTree : List KeyedItem) (depth tree objectID : Nat) (filePkg : FilePkg)
    (h addr : Nat) (leaves : List (List Nat))
    (haddr : getTreeRootAddr rootTree tree = .ok addr)
    (hT : TreeAt load none h addr leaves) (hok : ∀ node ∈ leaves, LeafOk node)
    (hd : h < depth) (hname : filePkg.name.length = 256)
    (hitems : ∀ p ∈ visitedItems objectID (treeItems leaves), FilePkgItemOk objectID p) :
    ∃ pkg, parseFSTreeGetFilePkg load rootTree depth tree objectID filePkg
        = .ok (rcOf ((visitedItems objectID (treeItems leaves)).any (isTargetInode objectID))
            (decide (objectID = OBJID_ROOT_DIR) ||
              (visitedItems objectID (treeItems leaves)).any (namesTarget objectID)), pkg) ∧
      pkg.extents = ((visitedItems objectID (treeItems leaves)).filter
        (isTargetExtent objectID)).map keyedItemOf ∧
      pkg.numExtents = ((visitedItems objectID (treeItems leaves)).filter
        (isTargetExtent objectID)).length := by
  have hrun : ∀ st0 : GetFilePkgState, st0.shortCircuit = false →
      st0.returnCode = rcOf false (decide (objectID = OBJID_ROOT_DIR)) →
      st0.filePkg.name.length = 256 → st0.filePkg.extents = [] → st0.filePkg.numExtents = 0 →
      ∃ st1, parseFSTreeRecGetFilePkg load objectID depth addr st0 = .ok st1 ∧
        st1.returnCode
          = rcOf ((visitedItems objectID (treeItems leaves)).any (isTargetInode objectID))
            (decide (objectID = OBJID_ROOT_DIR) ||
              (visitedItems objectID (treeItems leaves)).any (namesTarget objectID)) ∧
        st1.filePkg.extents = ((visitedItems objectID (treeItems leaves)).filter
          (isTargetExtent objectID)).map keyedItemOf ∧
        st1.filePkg.numExtents = ((visitedItems objectID (treeItems leaves)).filter
          (isTargetExtent objectID)).length := by
    intro st0 hsc hrc hnm hex hnum
    obtain ⟨st1, hw, hrc1, hex1, hnum1⟩ :=
      walkItems_getFilePkg objectID (treeItems leaves) st0 false _ hsc hrc hnm hitems
    refine ⟨st1, ?_, ?_, ?_, ?_⟩
    · unfold parseFSTreeRecGetFilePkg
      rw [walkTree_eq_walkItems load none _ _ (fsGetFilePkgItem_leave objectID) h addr leaves hT
        hok depth st0 hd hsc]
      exact hw
    · rw [hrc1, Bool.false_or]
    · rw [hex1, hex, List.nil_append]
    · rw [hnum1, hnum, Nat.zero_add]
  unfold parseFSTreeGetFilePkg
  simp only
  rw [haddr]
  simp only
  by_cases hroot : objectID = OBJID_ROOT_DIR
  · obtain ⟨st1, hr, hrc1, hex1, hnum1⟩ := hrun
      { filePkg := { filePkg with objectID := objectID, numExtents := 0, extents := [],
                                  name := memcpyInto filePkg.name strRootDir, parentID := 0x0 }
        returnCode := 0x1, shortCircuit := false } rfl
      (by rw [decide_eq_true hroot]; rfl)
      (by
        show (memcpyInto filePkg.name strRootDir).length = 256
        rw [memcpyInto_length _ _ (by rw [hname]; decide), hname]) rfl rfl
    rw [if_pos hroot, if_neg (not_not.mpr hroot), hr]
    simp only
    rw [← hrc1]
    split
    · exact ⟨_, rfl, hex1, hnum1⟩
    · exact ⟨_, rfl, hex1, hnum1⟩
  · obtain ⟨st1, hr, hrc1, hex1, hnum1⟩ := hrun
      { filePkg := { filePkg with objectID := objectID, numExtents := 0, extents := [] }
        returnCode := 0x1 ||| 0x2, shortCircuit := false } rfl
      (by rw [decide_eq_false hroot]; rfl) hname rfl rfl
    rw [if_neg hroot, if_pos hroot, hr]
    simp only
    rw [← hrc1]
    split
    · exact ⟨_, rfl, hex1, hnum1⟩
    · exact ⟨_, rfl, hex1, hnum1⟩

/-- In a sequence ordered by key objectID the walk processes exactly the items whose
objectID does not exceed the target. -/
theorem visitedItems_of_sorted (objectID : Nat) :
    ∀ items : List (List Nat × BtrfsItem),
      List.Pairwise (fun a b => a.2.key.objectID ≤ b.2.key.objectID) items →
      visitedItems objectID items
        = items.filter (fun p => decide (p.2.key.objectID ≤ objectID)) := by
  intro items
  induction items with
  | nil => intro _; rfl
  | cons p rest ih =>
    intro hs
    obtain ⟨hhead, htail⟩ := List.pairwise_cons.mp hs
    unfold visitedItems at ih ⊢
    by_cases hle : p.2.key.objectID ≤ objectID
    · rw [List.takeWhile_cons, List.filter_cons]
      simp only [hle, decide_True, if_true]
      rw [ih htail]
    · rw [List.takeWhile_cons, List.filter_cons]
      simp only [hle, decide_False, Bool.false_eq_true, if_false]
      symm
      rw [List.filter_eq_nil_iff]
      intro q hq
      have := hhead q hq
      simp only [decide_eq_true_eq]
      omega

/-- C19: for every FS tree whose items are ordered by key objectID and every target id,
when what the walk reads lies inside the nodes, `parseFSTree(FSOP_GET_FILE_PKG)` returns,
for any depth budget above the height of the tree, and afterwards `numExtents` is the number
of `EXTENT_DATA` leaf items whose key objectID is the target, and `extents` holds, in
traversal order, the key and the `item.size` payload bytes of each of them. If the tree
also holds the `INODE_ITEM` of the target and a `DIR_ITEM` of a directory whose id does not
exceed the target (the root directory, for every file) with a chained entry naming the
target, the return code is 0. -/
theorem parseFSTreeGetFilePkg_extents (load : Nat → Except Fault (List Nat))
    (rootTree : List KeyedItem) (depth tree objectID : Nat) (filePkg : FilePkg)
    (h addr : Nat) (leaves : List (List Nat))
    (haddr : getTreeRootAddr rootTree tree = .ok addr)
    (hT : TreeAt load none h addr leaves) (hok : ∀ node ∈ leaves, LeafOk node)
    (hd : h < depth) (hname : filePkg.name.length = 256)
    (hsorted : List.Pairwise (fun a b => a.2.key.objectID ≤ b.2.key.objectID) (treeItems leaves))
    (hitems : ∀ p ∈ treeItems leaves, p.2.key.objectID ≤ objectID → FilePkgItemOk objectID p) :
    ∃ rc pkg, parseFSTreeGetFilePkg load rootTree depth tree objectID filePkg = .ok (rc, pkg) ∧
      pkg.numExtents = ((treeItems leaves).filter (fun p =>
        decide (p.2.key.type = TYPE_EXTENT_DATA ∧ p.2.key.objectID = objectID))).length ∧
      pkg.extents = ((treeItems leaves).filter (fun p =>
        decide (p.2.key.type = TYPE_EXTENT_DATA ∧ p.2.key.objectID = objectID))).map
          (fun p => { key := p.2.key,
                      data := slice p.1 (sizeofBtrfsHeader + p.2.offset) p.2.size }) ∧
      ((∃ p ∈ treeItems leaves, p.2.key.type = TYPE_INODE_ITEM ∧ p.2.key.objectID = objectID) →
        (∃ p ∈ treeItems leaves, p.2.key.type = TYPE_DIR_ITEM ∧ p.2.key.objectID ≤ objectID ∧
          ∃ e ∈ itemDirEntries p.1 p.2, e.2.child.objectID = objectID) →
        rc = 0) := by
  have hvis := visitedItems_of_sorted objectID (treeItems leaves) hsorted
  have hmem : ∀ p, p ∈ visitedItems objectID (treeItems leaves) ↔
      p ∈ treeItems leaves ∧ p.2.key.objectID ≤ objectID := by
    intro p
    rw [hvis, List.mem_filter, decide_eq_true_eq]
  have hfilter : (visitedItems objectID (treeItems leaves)).filter (isTargetExtent objectID)
      = (treeItems leaves).filter (isTargetExtent objectID) := by
    rw [hvis, List.filter_filter]
    apply List.filter_congr
    intro p _
    by_cases he : isTargetExtent objectID p = true
    · have := (of_decide_eq_true he).2
      simp [he, this]
    · simp [he]
  obtain ⟨pkg, hrun, hex, hnum⟩ := parseFSTreeGetFilePkg_run load rootTree depth tree objectID
    filePkg h addr leaves haddr hT hok hd hname
    (fun p hp => hitems p ((hmem p).mp hp).1 ((hmem p).mp hp).2)
  refine ⟨_, pkg, hrun, ?_, ?_, ?_⟩
  · rw [hnum, hfilter]; rfl
  · rw [hex, hfilter]; rfl
  · rintro ⟨p, hp, hpi⟩ ⟨q, hq, hqt, hqle, e, he, hec⟩
    have h1 : (visitedItems objectID (treeItems leaves)).any (isTargetInode objectID) = true :=
      List.any_eq_true.mpr ⟨p, (hmem p).mpr ⟨hp, by rw [hpi.2]⟩, decide_eq_true hpi⟩
    have h2 : (visitedItems objectID (treeItems leaves)).any (namesTarget objectID) = true := by
      refine List.any_eq_true.mpr ⟨q, (hmem q).mpr ⟨hq, hqle⟩, ?_⟩
      unfold namesTarget
      rw [decide_eq_true hqt, Bool.true_and]
      exact List.any_eq_true.mpr ⟨e, he, decide_eq_true hec⟩
    rw [h1, h2, Bool.or_true]
    rfl

/-- Witness for C19: `getFilePkg` of the regular file 257 of `nodesFsTree`, which has its
inode, a naming entry in the root directory and one `EXTENT_DATA` item at offset 0. -/
theorem parseFSTreeGetFilePkg_extents_witness :
    (∃ rc pkg, parseFSTreeGetFilePkg (tableLoad nodesFsTree) cacheFsTree 2 5 257 pkgBlank
        = .ok (rc, pkg) ∧
      pkg.numExtents = ((treeItems [fsLeafDir, fsLeafFile]).filter (fun p =>
        decide (p.2.key.type = TYPE_EXTENT_DATA ∧ p.2.key.objectID = 257))).length ∧
      pkg.extents = ((treeItems [fsLeafDir, fsLeafFile]).filter (fun p =>
        decide (p.2.key.type = TYPE_EXTENT_DATA ∧ p.2.key.objectID = 257))).map
          (fun p => { key := p.2.key,
                      data := slice p.1 (sizeofBtrfsHeader + p.2.offset) p.2.size }) ∧
      ((∃ p ∈ treeItems [fsLeafDir, fsLeafFile],
          p.2.key.type = TYPE_INODE_ITEM ∧ p.2.key.objectID = 257) →
        (∃ p ∈ treeItems [fsLeafDir, fsLeafFile],
          p.2.key.type = TYPE_DIR_ITEM ∧ p.2.key.objectID ≤ 257 ∧
          ∃ e ∈ itemDirEntries p.1 p.2, e.2.child.objectID = 257) →
        rc = 0)) ∧
      (parseFSTreeGetFilePkg (tableLoad nodesFsTree) cacheFsTree 2 5 257 pkgBlank).map
          (fun r => (r.1, r.2.numExtents, r.2.extents, r.2.parentID, cstr r.2.name))
        = .ok (0, 1, [{ key := ⟨257, 0x6C, 0⟩, data := List.replicate 0x15 0 ++ [0x61, 0x62, 0x63] }],
            0x100, strHello) :=
  ⟨parseFSTreeGetFilePkg_extents (tableLoad nodesFsTree) cacheFsTree 2 5 257 pkgBlank 1 0x4000
      [fsLeafDir, fsLeafFile] (by decide!) treeAt_nodesFsTree (by decide!) (by decide)
      (by decide!) (by decide!) (by decide!),
    by decide!⟩

/-- C20, counterexample: the regular file 257 of `nodesFsEmptyFile` has its inode, of mode
`0o100644`, and a naming entry in the root directory, and no `EXTENT_DATA` item. The
return code is 0: no bit for the extents is ever set. -/
theorem parseFSTreeGetFilePkg_no_extent_bit_counterexample :
    (treeItems [fsLeafDir, mkLeaf 0 5 0x400
        [(mkKey 257 0x01 0, mkInodeItem 0 0o100644), (mkKey 258 0x01 0, mkInodeItem 0 0o100644)]]).map
        (fun p => (p.2.key.objectID, p.2.key.type))
        = [(0x100, 0x01), (0x100, 0x54), (257, 0x01), (258, 0x01)] ∧
      (parseFSTreeGetFilePkg (tableLoad nodesFsEmptyFile) cacheFsTree 2 5 257 pkgBlank).map
          (fun r => (r.1, r.2.numExtents, readLE r.2.inode offStMode 4 &&& S_IFDIR,
            r.2.parentID, cstr r.2.name))
        = .ok (0, 0, 0, 0x100, strHello) := by
  decide!

/-- C20, amended: the return code of `parseFSTree(FSOP_GET_FILE_PKG)` uses bits 0 and 1
only. Bit 0 (need inode) is clear on return exactly when the walk processed the
`INODE_ITEM` of the target; bit 1 (need parent and name) is clear exactly when the target
is the root directory or the walk processed a `DIR_ITEM` with a chained entry whose
`child.objectID` is the target; bit 2 is never set, so clearing it for a directory changes
nothing and a missing `EXTENT_DATA` item does not make the code nonzero. The items the
walk processes are those before the first whose key objectID exceeds the target. -/
theorem parseFSTreeGetFilePkg_returnCode (load : Nat → Except Fault (List Nat))
    (rootTree : List KeyedItem) (depth tree objectID : Nat) (filePkg : FilePkg)
    (h addr : Nat) (leaves : List (List Nat))
    (haddr : getTreeRootAddr rootTree tree = .ok addr)
    (hT : TreeAt load none h addr leaves) (hok : ∀ node ∈ leaves, LeafOk node)
    (hd : h < depth) (hname : filePkg.name.length = 256)
    (hitems : ∀ p ∈ visitedItems objectID (treeItems leaves), FilePkgItemOk objectID p) :
    ∃ rc pkg, parseFSTreeGetFilePkg load rootTree depth tree objectID filePkg = .ok (rc, pkg) ∧
      (rc &&& 0x1 = 0 ↔ ∃ p ∈ visitedItems objectID (treeItems leaves),
        p.2.key.type = TYPE_INODE_ITEM ∧ p.2.key.objectID = objectID) ∧
      (rc &&& 0x2 = 0 ↔ objectID = OBJID_ROOT_DIR ∨
        ∃ p ∈ visitedItems objectID (treeItems leaves), p.2.key.type = TYPE_DIR_ITEM ∧
          ∃ e ∈ itemDirEntries p.1 p.2, e.2.child.objectID = objectID) ∧
      rc &&& 0x4 = 0 ∧ rc < 4 := by
  obtain ⟨pkg, hrun, _, _⟩ := parseFSTreeGetFilePkg_run load rootTree depth tree objectID
    filePkg h addr leaves haddr hT hok hd hname hitems
  have hbits : ∀ a b : Bool, (rcOf a b &&& 0x1 = 0 ↔ a = true) ∧
      (rcOf a b &&& 0x2 = 0 ↔ b = true) ∧ rcOf a b &&& 0x4 = 0 ∧ rcOf a b < 4 := by
    intro a b
    cases a <;> cases b <;> decide
  obtain ⟨hb0, hb1, hb2, hlt⟩ := hbits
    ((visitedItems objectID (treeItems leaves)).any (isTargetInode objectID))
    (decide (objectID = OBJID_ROOT_DIR) ||
      (visitedItems objectID (treeItems leaves)).any (namesTarget objectID))
  refine ⟨_, pkg, hrun, ?_, ?_, hb2, hlt⟩
  · rw [hb0, List.any_eq_true]
    constructor
    · rintro ⟨p, hp, hpi⟩; exact ⟨p, hp, of_decide_eq_true hpi⟩
    · rintro ⟨p, hp, hpi⟩; exact ⟨p, hp, decide_eq_true hpi⟩
  · rw [hb1, Bool.or_eq_true, decide_eq_true_eq, List.any_eq_true]
    constructor
    · rintro (hr | ⟨p, hp, hpn⟩)
      · exact Or.inl hr
      · unfold namesTarget at hpn
        rw [Bool.and_eq_true, decide_eq_true_eq, List.any_eq_true] at hpn
        obtain ⟨ht, e, he, hec⟩ := hpn
        exact Or.inr ⟨p, hp, ht, e, he, of_decide_eq_true hec⟩
    · rintro (hr | ⟨p, hp, ht, e, he, hec⟩)
      · exact Or.inl hr
      · refine Or.inr ⟨p, hp, ?_⟩
        unfold namesTarget
        rw [Bool.and_eq_true, decide_eq_true_eq, List.any_eq_true]
        exact ⟨ht, e, he, decide_eq_true hec⟩

/-- The node table `nodesFsEmptyFile` is a tree of height 1. -/
theorem treeAt_nodesFsEmptyFile :
    TreeAt (tableLoad nodesFsEmptyFile) none 1 0x4000
      [fsLeafDir, mkLeaf 0 5 0x400
        [(mkKey 257 0x01 0, mkInodeItem 0 0o100644),
         (mkKey 258 0x01 0, mkInodeItem 0 0o100644)]] := by
  have hleaf : ∀ k ∈ [(0x5000, [fsLeafDir]), (0x6000, [mkLeaf 0 5 0x400
        [(mkKey 257 0x01 0, mkInodeItem 0 0o100644),
         (mkKey 258 0x01 0, mkInodeItem 0 0o100644)]])],
      TreeAt (tableLoad nodesFsEmptyFile) none 0 k.1 k.2 := by
    intro k hk
    simp only [List.mem_cons, List.mem_singleton, List.not_mem_nil, or_false] at hk
    rcases hk with rfl | rfl
    · exact TreeAt.leaf 0 0x5000 _ (by decide!) (by decide!) (fun t ht => by cases ht)
        (by decide!)
    · exact TreeAt.leaf 0 0x6000 _ (by decide!) (by decide!) (fun t ht => by cases ht)
        (by decide!)
  exact TreeAt.inner 0 0x4000
    (mkInner 0 5 1 0x400 [(mkKey 0x100 0x01 0, 0x5000), (mkKey 257 0x01 0, 0x6000)])
    [(0x5000, [fsLeafDir]), (0x6000, [mkLeaf 0 5 0x400
        [(mkKey 257 0x01 0, mkInodeItem 0 0o100644),
         (mkKey 258 0x01 0, mkInodeItem 0 0o100644)]])]
    (by decide!) (by decide!) (fun t ht => by cases ht) (by decide!) (by decide!)
    (by
      intro i hi
      match i, hi with
      | 0, _ =>
        exact (by decide! : loadKeyPtr (mkInner 0 5 1 0x400
          [(mkKey 0x100 0x01 0, 0x5000), (mkKey 257 0x01 0, 0x6000)]) 0 = .ok 0x5000)
      | 1, _ =>
        exact (by decide! : loadKeyPtr (mkInner 0 5 1 0x400
          [(mkKey 0x100 0x01 0, 0x5000), (mkKey 257 0x01 0, 0x6000)]) 1 = .ok 0x6000)) hleaf

/-- Witness for C20: `getFilePkg` of the file 257 of `nodesFsEmptyFile`. -/
theorem parseFSTreeGetFilePkg_returnCode_witness :
    ∃ rc pkg, parseFSTreeGetFilePkg (tableLoad nodesFsEmptyFile) cacheFsTree 2 5 257 pkgBlank
        = .ok (rc, pkg) ∧
      (rc &&& 0x1 = 0 ↔ ∃ p ∈ visitedItems 257 (treeItems [fsLeafDir, mkLeaf 0 5 0x400
          [(mkKey 257 0x01 0, mkInodeItem 0 0o100644),
           (mkKey 258 0x01 0, mkInodeItem 0 0o100644)]]),
        p.2.key.type = TYPE_INODE_ITEM ∧ p.2.key.objectID = 257) ∧
      (rc &&& 0x2 = 0 ↔ 257 = OBJID_ROOT_DIR ∨
        ∃ p ∈ visitedItems 257 (treeItems [fsLeafDir, mkLeaf 0 5 0x400
          [(mkKey 257 0x01 0, mkInodeItem 0 0o100644),
           (mkKey 258 0x01 0, mkInodeItem 0 0o100644)]]), p.2.key.type = TYPE_DIR_ITEM ∧
          ∃ e ∈ itemDirEntries p.1 p.2, e.2.child.objectID = 257) ∧
      rc &&& 0x4 = 0 ∧ rc < 4 :=
  parseFSTreeGetFilePkg_returnCode (tableLoad nodesFsEmptyFile) cacheFsTree 2 5 257 pkgBlank
    1 0x4000 _ (by decide!) treeAt_nodesFsEmptyFile (by decide!) (by decide) (by decide!)
    (by decide!)

/-! ### Legal chains -/

theorem chainLength_ge (lens : List (Nat × Nat)) : lens.length ≤ chainLength lens := by
  induction lens with
  | nil => exact Nat.le_refl 0
  | cons p rest ih =>
    obtain ⟨m, n⟩ := p
    have hsz : sizeofBtrfsDirItem = 0x1e := rfl
    rw [chainLength, List.length_cons]
    omega

theorem chainLength_pos {lens : List (Nat × Nat)} (h : lens ≠ []) : 0 < chainLength lens := by
  cases lens with
  | nil => exact absurd rfl h
  | cons p rest =>
    obtain ⟨m, n⟩ := p
    have hsz : sizeofBtrfsDirItem = 0x1e := rfl
    rw [chainLength]
    omega

/-- On a legal chain whose lengths sum to `size`, the entries the loop meets are the
entries of the chain. -/
theorem dirEntries_of_legal (node : List Nat) (base size : Nat) :
    ∀ (lens : List (Nat × Nat)) (fuel off : Nat), lens ≠ [] → lens.length ≤ fuel →
      LegalChain node base lens off → off + chainLength lens = size →
      dirEntries node base size fuel off
        = (chainOffsets lens off).map (fun o => (base + o, readDirItem node (base + o))) := by
  intro lens
  induction lens with
  | nil => intro fuel off h; exact absurd rfl h
  | cons p rest ih =>
    intro fuel off _ hfuel hlegal hsum
    obtain ⟨m, n⟩ := p
    obtain ⟨hm, hn, hrest⟩ := hlegal
    cases fuel with
    | zero => simp at hfuel
    | succ f =>
      rw [dirEntries, chainOffsets, List.map_cons, hm, hn]
      rw [chainLength] at hsum
      by_cases hnil : rest = []
      · subst hnil
        have hnot : ¬ size > off + sizeofBtrfsDirItem + m + n := by
          rw [chainLength] at hsum; omega
        rw [if_neg hnot]
        rfl
      · have hpos := chainLength_pos hnil
        have hadv : size > off + sizeofBtrfsDirItem + m + n := by omega
        rw [if_pos hadv]
        rw [ih f (off + sizeofBtrfsDirItem + m + n) hnil
          (by rw [List.length_cons] at hfuel; omega) hrest (by omega)]

theorem chainOffsets_length (lens : List (Nat × Nat)) :
    ∀ off, (chainOffsets lens off).length = lens.length := by
  induction lens with
  | nil => intro off; rfl
  | cons p rest ih =>
    intro off
    obtain ⟨m, n⟩ := p
    rw [chainOffsets, List.length_cons, List.length_cons, ih]

theorem chainOffsets_bound (lens : List (Nat × Nat)) :
    ∀ off, ∀ o ∈ chainOffsets lens off, o + sizeofBtrfsDirItem ≤ off + chainLength lens := by
  induction lens with
  | nil => intro off o ho; cases ho
  | cons p rest ih =>
    intro off o ho
    obtain ⟨m, n⟩ := p
    rw [chainOffsets] at ho
    rw [chainLength]
    rcases List.mem_cons.mp ho with h | h
    · subst h; omega
    · have := ih _ o h
      omega

/-- C28: for every item payload inside its node that is the back-to-back concatenation of
`j ≥ 1` entries, entry `i` declaring `(m_i, n_i)` and having length
`sizeof(BtrfsDirItem) + m_i + n_i`, with the lengths summing to `item.size`, the chain loop
of the newer revision, run with any body, is the run of that body over exactly those `j`
entries, in order, each at the offset that is the sum of the preceding lengths (up to the
first entry at which the body leaves the loop, if it does); the budget of the loop is not
exhausted. -/
theorem dirItemLoop_legal_chain {σ : Type}
    (body : Nat → BtrfsDirItem → σ → Except Fault (σ × Bool)) (node : List Nat)
    (item : BtrfsItem) (lens : List (Nat × Nat)) (st : σ)
    (hne : lens ≠ []) (hlegal : LegalChain node (payloadOff item) lens 0)
    (hsum : chainLength lens = item.size) (hin : PayloadOk node item) :
    dirItemLoop body node (payloadOff item) item.size (item.size + 1) 0 st
        = walkEntries body ((chainOffsets lens 0).map
            (fun o => (payloadOff item + o, readDirItem node (payloadOff item + o)))) st ∧
      (chainOffsets lens 0).length = lens.length := by
  have hlen := chainLength_ge lens
  have hentries := dirEntries_of_legal node (payloadOff item) item.size lens (item.size + 1) 0
    hne (by omega) hlegal (by omega)
  have hpl : payloadOff item + item.size ≤ node.length := hin
  refine ⟨?_, chainOffsets_length lens 0⟩
  rw [dirItemLoop_eq_walkEntries body node (payloadOff item) item.size (item.size + 1) 0 st
    (by omega) (by omega) ?_, hentries]
  intro e he
  rw [hentries] at he
  obtain ⟨o, ho, rfl⟩ := List.mem_map.mp he
  have := chainOffsets_bound lens 0 o ho
  simp only
  omega

/-! ### FS tree, `FSOP_DIR_LIST` -/

theorem copyName_ok (buf node : List Nat) (entry : Nat) (dirItem : BtrfsDirItem)
    (hbuf : buf.length = 256) (hn : dirItem.n ≤ 255)
    (hin : entry + sizeofBtrfsDirItem + dirItem.n ≤ node.length) :
    copyName buf node entry dirItem
      = .ok (nameBuffer buf (slice node (entry + sizeofBtrfsDirItem) dirItem.n)) := by
  have hsl : (slice node (entry + sizeofBtrfsDirItem) dirItem.n).length = dirItem.n :=
    slice_length hin
  unfold copyName loadBytes
  rw [if_pos hn, if_pos hin]
  simp only
  unfold storeByte
  have hml := memcpyInto_length buf (slice node (entry + sizeofBtrfsDirItem) dirItem.n)
    (by rw [hsl, hbuf]; omega)
  rw [if_pos (by rw [hml, hbuf]; omega)]
  congr 1
  unfold memcpyInto nameBuffer
  generalize slice node (entry + sizeofBtrfsDirItem) dirItem.n = nm at hsl
  rw [hsl]
  have hlt : dirItem.n < buf.length := by omega
  rw [List.set_append_right _ _ (by rw [hsl]), hsl, Nat.sub_self,
    List.drop_eq_getElem_cons hlt, List.set_cons_zero, List.append_assoc]
  rfl

theorem dirListDirEntry_step (objectID : Nat) (fresh : FilePkg) (p : List Nat × BtrfsItem)
    (e : Nat × BtrfsDirItem) (st : DirListState)
    (hname : fresh.name.length = 256)
    (hin : e.1 + sizeofBtrfsDirItem + e.2.n ≤ p.1.length)
    (hn : p.2.key.objectID = objectID → e.2.n ≤ 255)
    (hne : objectID ≠ OBJID_ROOT_DIR → st.entries ≠ []) :
    ∃ st1, dirListDirEntry objectID p.2.key.objectID fresh p.1 e.1 e.2 st = .ok (st1, false) ∧
      st1.shortCircuit = st.shortCircuit ∧
      st1.entries.map face = stepFaces objectID fresh (st.entries.map face) (p, e) ∧
      (st.entries ≠ [] → st1.entries ≠ []) := by
  unfold dirListDirEntry stepFaces placedFaces
  by_cases hk : p.2.key.objectID = objectID
  · rw [if_pos hk, copyName_ok fresh.name p.1 e.1 e.2 hname (hn hk) hin]
    simp only
    by_cases hd : objectID ≠ OBJID_ROOT_DIR ∧ e.2.child.objectID = objectID
    · have hnd : namesDir objectID (p, e) = true := decide_eq_true hd
      obtain ⟨first, rest, hfr⟩ := List.exists_cons_of_ne_nil (hne hd.1)
      rw [if_pos hd, if_pos hnd, if_pos hk, if_pos hnd]
      refine ⟨_, rfl, rfl, ?_, fun _ => ?_⟩
      · simp only [hfr, List.cons_append, placeDotDot, List.map_cons, List.map_append,
          List.map_nil, setHeadParent, face, entryName, hk, List.append_assoc]
      · simp only [hfr, List.cons_append, placeDotDot]
        exact List.cons_ne_nil _ _
    · have hnd : namesDir objectID (p, e) = false := decide_eq_false hd
      rw [if_neg hd, hnd, if_pos hk]
      refine ⟨_, rfl, rfl, ?_, fun _ => ?_⟩
      · simp only [List.map_append, List.map_cons, List.map_nil, face, entryName, hk,
          Bool.false_eq_true, if_false, List.append_nil]
      · simp
  · rw [if_neg hk]
    simp only
    by_cases hd : objectID ≠ OBJID_ROOT_DIR ∧ e.2.child.objectID = objectID
    · have hnd : namesDir objectID (p, e) = true := decide_eq_true hd
      obtain ⟨first, rest, hfr⟩ := List.exists_cons_of_ne_nil (hne hd.1)
      rw [if_pos hd, if_pos hnd, if_neg hk, if_pos hnd]
      refine ⟨_, rfl, rfl, ?_, fun _ => ?_⟩
      · simp only [hfr, placeDotDot, List.map_cons, List.map_append, List.map_nil,
          setHeadParent, face, List.nil_append, List.cons_append]
      · simp only [hfr, placeDotDot]
        exact List.cons_ne_nil _ _
    · have hnd : namesDir objectID (p, e) = false := decide_eq_false hd
      rw [if_neg hd, hnd, if_neg hk]
      refine ⟨st, rfl, rfl, ?_, fun h => h⟩
      simp

theorem walkEntries_dirList (objectID : Nat) (fresh : FilePkg) (p : List Nat × BtrfsItem)
    (hname : fresh.name.length = 256) :
    ∀ (entries : List (Nat × BtrfsDirItem)) (st : DirListState),
      (∀ e ∈ entries, e.1 + sizeofBtrfsDirItem + e.2.n ≤ p.1.length) →
      (p.2.key.objectID = objectID → ∀ e ∈ entries, e.2.n ≤ 255) →
      (objectID ≠ OBJID_ROOT_DIR → st.entries ≠ []) →
      ∃ st1, walkEntries (dirListDirEntry objectID p.2.key.objectID fresh p.1) entries st
          = .ok st1 ∧
        st1.shortCircuit = st.shortCircuit ∧
        st1.entries.map face
          = (entries.map (fun e => (p, e))).foldl (stepFaces objectID fresh)
              (st.entries.map face) ∧
        (st.entries ≠ [] → st1.entries ≠ []) := by
  intro entries
  induction entries with
  | nil => intro st _ _ _; exact ⟨st, rfl, rfl, rfl, fun h => h⟩
  | cons e rest ih =>
    intro st hin hn hne
    obtain ⟨st1, hstep, hsc, hfaces, hgrow⟩ := dirListDirEntry_step objectID fresh p e st hname
      (hin e (List.mem_cons_self _ _)) (fun hk => hn hk e (List.mem_cons_self _ _)) hne
    obtain ⟨st2, hrest, hsc2, hfaces2, hgrow2⟩ := ih st1
      (fun x hx => hin x (List.mem_cons_of_mem _ hx))
      (fun hk x hx => hn hk x (List.mem_cons_of_mem _ hx))
      (fun hroot => hgrow (hne hroot))
    obtain ⟨entry, dirItem⟩ := e
    refine ⟨st2, ?_, hsc2.trans hsc, ?_, fun h => hgrow2 (hgrow h)⟩
    · rw [walkEntries]
      simp only at hstep
      rw [hstep]
      simpa using hrest
    · rw [hfaces2, hfaces, List.map_cons, List.foldl_cons]

theorem fillInodes_faces (keyObjectID : Nat) (inodeItem : List Nat) :
    ∀ (entries : List FilePkg) (returnCode : Int),
      (fillInodes keyObjectID inodeItem entries returnCode).1.map face = entries.map face := by
  intro entries
  induction entries with
  | nil => intro rc; rfl
  | cons e rest ih =>
    intro rc
    rw [fillInodes]
    split
    · simp only [List.map_cons, ih]; rfl
    · simp only [List.map_cons, ih]

theorem dirListInode_step (objectID : Nat) (p : List Nat × BtrfsItem) (st : DirListState)
    (hin : payloadOff p.2 + sizeofBtrfsInodeItem ≤ p.1.length) :
    ∃ st1, dirListInode objectID p.1 p.2 st = .ok st1 ∧
      st1.shortCircuit = st.shortCircuit ∧ st1.entries.map face = st.entries.map face := by
  unfold dirListInode loadBytes
  rw [if_pos hin]
  split
  · exact ⟨_, rfl, rfl, fillInodes_faces _ _ _ _⟩
  · exact ⟨st, rfl, rfl, rfl⟩

theorem map_face_ne_nil {entries entries1 : List FilePkg}
    (h : entries1.map face = entries.map face) (hne : entries ≠ []) : entries1 ≠ [] := by
  intro h1
  rw [h1] at h
  cases entries with
  | nil => exact hne rfl
  | cons e rest => cases h

theorem foldl_stepFaces_ne_nil (objectID : Nat) (fresh : FilePkg) :
    ∀ (xs : List ((List Nat × BtrfsItem) × (Nat × BtrfsDirItem)))
      (faces : List (Nat × Nat × List Nat)), faces ≠ [] →
      xs.foldl (stepFaces objectID fresh) faces ≠ [] := by
  intro xs
  induction xs with
  | nil => intro faces h; exact h
  | cons x rest ih =>
    intro faces h
    rw [List.foldl_cons]
    apply ih
    unfold stepFaces
    cases faces with
    | nil => exact absurd rfl h
    | cons f T =>
      obtain ⟨o, q, nm⟩ := f
      split <;> simp [setHeadParent]

theorem fsDirListItem_step (objectID : Nat) (fresh : FilePkg)
    (hname : fresh.name.length = 256) (p : List Nat × BtrfsItem) (st : DirListState)
    (hsc : st.shortCircuit = false) (hok : DirListItemOk objectID p)
    (hne : objectID ≠ OBJID_ROOT_DIR → st.entries ≠ []) :
    ∃ st1, fsDirListItem objectID fresh p.1 p.2 st = .ok (st1, false) ∧
      st1.shortCircuit = false ∧
      st1.entries.map face
        = (if p.2.key.type = TYPE_DIR_ITEM then (itemDirEntries p.1 p.2).map (fun e => (p, e))
            else []).foldl (stepFaces objectID fresh) (st.entries.map face) ∧
      (st.entries ≠ [] → st1.entries ≠ []) := by
  obtain ⟨hinode, hdir⟩ := hok
  unfold fsDirListItem
  by_cases h1 : p.2.key.type = TYPE_INODE_ITEM
  · have h2 : ¬ p.2.key.type = TYPE_DIR_ITEM := by rw [h1]; decide
    obtain ⟨st1, hrun, hsc1, hfaces⟩ := dirListInode_step objectID p st (hinode h1)
    rw [if_pos h1, hrun, if_neg h2]
    simp only [hsc1.trans hsc]
    exact ⟨st1, rfl, hsc1.trans hsc, hfaces, fun h => map_face_ne_nil hfaces h⟩
  · rw [if_neg h1]
    by_cases h2 : p.2.key.type = TYPE_DIR_ITEM
    · obtain ⟨hchain, hn255⟩ := hdir h2
      have hloop := dirItemLoop_eq_walkEntries
        (dirListDirEntry objectID p.2.key.objectID fresh p.1) p.1 (payloadOff p.2)
        p.2.size (p.2.size + 1) 0 st (by omega) (by omega)
        (fun e he => by have := hchain e he; omega)
      obtain ⟨st1, hrun, hsc1, hfaces, hgrow⟩ := walkEntries_dirList objectID fresh
        p hname (itemDirEntries p.1 p.2) st hchain hn255 hne
      rw [if_pos h2, hloop]
      unfold itemDirEntries at hrun
      rw [hrun]
      simp only [hsc1.trans hsc]
      refine ⟨st1, rfl, hsc1.trans hsc, ?_, hgrow⟩
      rw [hfaces, if_pos h2]
    · rw [if_neg h2, if_neg h2]
      simp only [hsc]
      exact ⟨st, rfl, hsc, rfl, fun h => h⟩

theorem walkItems_dirList (objectID : Nat) (fresh : FilePkg)
    (hname : fresh.name.length = 256) :
    ∀ (items : List (List Nat × BtrfsItem)) (st : DirListState),
      st.shortCircuit = false →
      (∀ p ∈ items, DirListItemOk objectID p) →
      (objectID ≠ OBJID_ROOT_DIR → st.entries ≠ []) →
      ∃ st1, walkItems (fsDirListItem objectID fresh) items st = .ok st1 ∧
        st1.entries.map face
          = (treeDirEntries items).foldl (stepFaces objectID fresh) (st.entries.map face) := by
  intro items
  induction items with
  | nil => intro st _ _ _; exact ⟨st, rfl, rfl⟩
  | cons p rest ih =>
    intro st hsc hok hne
    obtain ⟨st1, hrun, hsc1, hfaces, hgrow⟩ := fsDirListItem_step objectID fresh hname p st hsc
      (hok p (List.mem_cons_self _ _)) hne
    obtain ⟨st2, hrest, hfaces2⟩ := ih st1 hsc1
      (fun q hq => hok q (List.mem_cons_of_mem _ hq)) (fun hroot => hgrow (hne hroot))
    obtain ⟨node, item⟩ := p
    refine ⟨st2, ?_, ?_⟩
    · rw [walkItems]
      simp only at hrun
      rw [hrun]
      simpa using hrest
    · rw [hfaces2, hfaces, treeDirEntries, List.foldl_append]

theorem fsDirListItem_leave (objectID : Nat) (fresh : FilePkg) :
    LeaveIsFlag (fsDirListItem objectID fresh) (fun st => st.shortCircuit) := by
  intro node item st st1 leave h
  unfold fsDirListItem at h
  repeat' split at h
  all_goals first
    | (cases h; done)
    | (injection h with h; injection h with h1 h2; subst h1; exact h2.symm)

theorem dotParent_cons (objectID : Nat) (x : (List Nat × BtrfsItem) × (Nat × BtrfsDirItem))
    (rest : List ((List Nat × BtrfsItem) × (Nat × BtrfsDirItem))) (parent : Nat) :
    dotParent objectID (x :: rest) parent
      = dotParent objectID rest
          (if x.2.2.child.objectID = objectID then x.1.2.key.objectID else parent) := by
  unfold dotParent
  rw [List.filter_cons]
  by_cases hc : x.2.2.child.objectID = objectID
  · simp only [hc, decide_True, if_true]
    cases hf : List.filter (fun x => decide (x.2.2.child.objectID = objectID)) rest with
    | nil => rfl
    | cons y l =>
      rw [List.getLast?_cons_cons, List.getLast?_eq_getLast _ (List.cons_ne_nil y l)]
  · simp only [hc, decide_False, Bool.false_eq_true, if_false]

theorem foldl_stepFaces_root (objectID : Nat) (fresh : FilePkg)
    (hroot : objectID = OBJID_ROOT_DIR) :
    ∀ (xs : List ((List Nat × BtrfsItem) × (Nat × BtrfsDirItem)))
      (faces : List (Nat × Nat × List Nat)),
      xs.foldl (stepFaces objectID fresh) faces
        = faces ++ xs.flatMap (placedFaces objectID fresh) := by
  intro xs
  induction xs with
  | nil => intro faces; simp
  | cons x rest ih =>
    intro faces
    have hnd : namesDir objectID x = false :=
      decide_eq_false (fun h => h.1 hroot)
    rw [List.foldl_cons, ih, List.flatMap_cons]
    unfold stepFaces
    rw [hnd]
    simp only [Bool.false_eq_true, if_false, List.append_assoc]

theorem foldl_stepFaces_dir (objectID : Nat) (fresh : FilePkg)
    (hroot : objectID ≠ OBJID_ROOT_DIR) :
    ∀ (xs : List ((List Nat × BtrfsItem) × (Nat × BtrfsDirItem)))
      (o q : Nat) (nm : List Nat) (T : List (Nat × Nat × List Nat)),
      xs.foldl (stepFaces objectID fresh) ((o, q, nm) :: T)
        = (o, dotParent objectID xs q, nm) :: (T ++ xs.flatMap (placedFaces objectID fresh)) := by
  intro xs
  induction xs with
  | nil => intro o q nm T; simp [dotParent]
  | cons x rest ih =>
    intro o q nm T
    have hstep : stepFaces objectID fresh ((o, q, nm) :: T) x
        = (o, (if x.2.2.child.objectID = objectID then x.1.2.key.objectID else q), nm) ::
            (T ++ placedFaces objectID fresh x) := by
      unfold stepFaces
      by_cases hc : x.2.2.child.objectID = objectID
      · have hnd : namesDir objectID x = true := decide_eq_true ⟨hroot, hc⟩
        rw [if_pos hnd, if_pos hc]
        rfl
      · have hnd : namesDir objectID x = false := decide_eq_false (fun h => hc h.2)
        rw [hnd, if_neg hc]
        rfl
    rw [List.foldl_cons, hstep, ih, dotParent_cons, List.flatMap_cons, List.append_assoc]

/-- The run of `parseFSTree(FSOP_DIR_LIST)` on a tree: the identities of the entries when
the walk ends. -/
theorem parseFSTreeDirList_run (load : Nat → Except Fault (List Nat))
    (rootTree : List KeyedItem) (depth tree objectID : Nat) (fresh : FilePkg) (temp : List Nat)
    (h addr : Nat) (leaves : List (List Nat))
    (haddr : getTreeRootAddr rootTree tree = .ok addr)
    (hT : TreeAt load none h addr leaves) (hok : ∀ node ∈ leaves, LeafOk node)
    (hd : h < depth) (hname : fresh.name.length = 256)
    (hitems : ∀ p ∈ treeItems leaves, DirListItemOk objectID p) :
    ∃ st, parseFSTreeDirList load rootTree depth tree objectID fresh temp
        = .ok (dirListPost st) ∧
      st.entries.map face
        = (if objectID = OBJID_ROOT_DIR then []
            else [(objectID,
              dotParent objectID (treeDirEntries (treeItems leaves)) fresh.parentID,
              memcpyInto fresh.name strDot)]) ++
          (treeDirEntries (treeItems leaves)).flatMap (placedFaces objectID fresh) := by
  have hseedsc : (dirListSeed objectID fresh temp).shortCircuit = false := by
    unfold dirListSeed; split <;> rfl
  have hseedne : objectID ≠ OBJID_ROOT_DIR → (dirListSeed objectID fresh temp).entries ≠ [] := by
    intro hroot
    unfold dirListSeed
    rw [if_pos hroot]
    exact List.cons_ne_nil _ _
  obtain ⟨st, hw, hfaces⟩ := walkItems_dirList objectID fresh hname (treeItems leaves)
    (dirListSeed objectID fresh temp) hseedsc hitems hseedne
  refine ⟨st, ?_, ?_⟩
  · unfold parseFSTreeDirList parseFSTreeRecDirList
    rw [haddr]
    simp only
    rw [walkTree_eq_walkItems load none _ _ (fsDirListItem_leave objectID fresh) h addr leaves hT
      hok depth _ hd hseedsc, hw]
  · rw [hfaces]
    by_cases hroot : objectID = OBJID_ROOT_DIR
    · rw [if_pos hroot, foldl_stepFaces_root objectID fresh hroot]
      unfold dirListSeed
      rw [if_neg (not_not.mpr hroot)]
      rfl
    · rw [if_neg hroot]
      unfold dirListSeed
      rw [if_pos hroot]
      simp only [List.map_cons, List.map_nil, face]
      rw [foldl_stepFaces_dir objectID fresh hroot]
      rfl

theorem map_face_hidden (entries : List FilePkg) (f : FilePkg → Bool) :
    (entries.map (fun e => { e with hidden := f e })).map face = entries.map face := by
  rw [List.map_map]
  rfl

theorem placedFaces_root_length (objectID : Nat) (fresh : FilePkg)
    (hroot : objectID = OBJID_ROOT_DIR) :
    ∀ xs : List ((List Nat × BtrfsItem) × (Nat × BtrfsDirItem)),
      (xs.flatMap (placedFaces objectID fresh)).length
        = (xs.filter (fun x => decide (x.1.2.key.objectID = objectID))).length := by
  intro xs
  induction xs with
  | nil => rfl
  | cons x rest ih =>
    have hnd : namesDir objectID x = false := decide_eq_false (fun h => h.1 hroot)
    rw [List.flatMap_cons, List.length_append, ih, List.filter_cons]
    unfold placedFaces
    rw [hnd]
    by_cases hk : x.1.2.key.objectID = objectID
    · simp [hk]; omega
    · simp [hk]

/-- C24: for every FS tree whose items lie inside their nodes (an `INODE_ITEM` is a whole
inode, chained entries are inside the node, names of the entries of the directory have at
most 255 bytes), every directory id `D` and any depth budget above the height of the tree,
`parseFSTree(FSOP_DIR_LIST)` returns, and the entries after the seeded `.` are, in
traversal order, what `placedFaces` lists for each chained entry of each `DIR_ITEM`: one
entry with `objectID = child.objectID`, `parentID = D` and the name bytes followed by a
terminator when the item's `key.objectID` is `D`, and then one entry `..` when `D` is not
the root directory and the chained entry names `D`. `numEntries` counts the seed and these
entries; for `D = ROOT_DIR` there is no `.` and no `..`, and `numEntries` is the number of
chained entries of the `DIR_ITEM`s of `D`. The array is kept when the return code is 0. -/
theorem parseFSTreeDirList_entries (load : Nat → Except Fault (List Nat))
    (rootTree : List KeyedItem) (depth tree objectID : Nat) (fresh : FilePkg) (temp : List Nat)
    (h addr : Nat) (leaves : List (List Nat))
    (haddr : getTreeRootAddr rootTree tree = .ok addr)
    (hT : TreeAt load none h addr leaves) (hok : ∀ node ∈ leaves, LeafOk node)
    (hd : h < depth) (hname : fresh.name.length = 256)
    (hitems : ∀ p ∈ treeItems leaves, DirListItemOk objectID p) :
    ∃ rc dl, parseFSTreeDirList load rootTree depth tree objectID fresh temp = .ok (rc, dl) ∧
      dl.numEntries = seedCount objectID +
        ((treeDirEntries (treeItems leaves)).flatMap (placedFaces objectID fresh)).length ∧
      (rc = 0 → ∃ es, dl.entries = some es ∧
        (es.drop (seedCount objectID)).map face
          = (treeDirEntries (treeItems leaves)).flatMap (placedFaces objectID fresh)) ∧
      (objectID = OBJID_ROOT_DIR → dl.numEntries
        = ((treeDirEntries (treeItems leaves)).filter
            (fun x => decide (x.1.2.key.objectID = objectID))).length) := by
  obtain ⟨st, hrun, hfaces⟩ := parseFSTreeDirList_run load rootTree depth tree objectID fresh
    temp h addr leaves haddr hT hok hd hname hitems
  have hlen : st.entries.length = seedCount objectID +
      ((treeDirEntries (treeItems leaves)).flatMap (placedFaces objectID fresh)).length := by
    have := congrArg List.length hfaces
    rw [List.length_map, List.length_append] at this
    rw [this]
    unfold seedCount
    split <;> rfl
  have hdrop : (st.entries.drop (seedCount objectID)).map face
      = (treeDirEntries (treeItems leaves)).flatMap (placedFaces objectID fresh) := by
    rw [List.map_drop, hfaces]
    unfold seedCount
    split <;> rfl
  have hnum : (dirListPost st).2.numEntries = st.entries.length := by
    unfold dirListPost; split <;> rfl
  refine ⟨(dirListPost st).1, (dirListPost st).2, hrun, ?_, ?_, ?_⟩
  · rw [hnum, hlen]
  · intro hrc
    have hrc0 : st.returnCode = 0 := by
      unfold dirListPost at hrc
      split at hrc
      · assumption
      · rename_i hne; exact absurd hrc hne
    refine ⟨st.entries.map (fun e => { e with hidden := isHiddenName e.name }), ?_, ?_⟩
    · unfold dirListPost; rw [if_pos hrc0]
    · rw [List.map_drop, map_face_hidden, ← List.map_drop, hdrop]
  · intro hroot
    rw [hnum, hlen, placedFaces_root_length objectID fresh hroot]
    unfold seedCount
    rw [if_pos hroot, Nat.zero_add]

/-- C26, amended: for every directory id `D` other than the root directory, on a tree
whose items lie inside their nodes, when `parseFSTree(FSOP_DIR_LIST)` returns 0 the entry 0
of the list is named `.` and has objectID `D`, and its parentID is the `key.objectID` of
the LAST chained entry, in traversal order, whose `child.objectID` is `D`: every such entry
assigns it again. When no entry names `D` the parentID is what the allocated memory
held. -/
theorem parseFSTreeDirList_dot (load : Nat → Except Fault (List Nat))
    (rootTree : List KeyedItem) (depth tree objectID : Nat) (fresh : FilePkg) (temp : List Nat)
    (h addr : Nat) (leaves : List (List Nat))
    (hroot : objectID ≠ OBJID_ROOT_DIR)
    (haddr : getTreeRootAddr rootTree tree = .ok addr)
    (hT : TreeAt load none h addr leaves) (hok : ∀ node ∈ leaves, LeafOk node)
    (hd : h < depth) (hname : fresh.name.length = 256)
    (hitems : ∀ p ∈ treeItems leaves, DirListItemOk objectID p) :
    ∃ rc dl, parseFSTreeDirList load rootTree depth tree objectID fresh temp = .ok (rc, dl) ∧
      (rc = 0 → ∃ e0 rest, dl.entries = some (e0 :: rest) ∧ e0.objectID = objectID ∧
        cstr e0.name = [0x2E] ∧
        e0.parentID = match ((treeDirEntries (treeItems leaves)).filter
            (fun x => decide (x.2.2.child.objectID = objectID))).getLast? with
          | some x => x.1.2.key.objectID
          | none => fresh.parentID) := by
  obtain ⟨st, hrun, hfaces⟩ := parseFSTreeDirList_run load rootTree depth tree objectID fresh
    temp h addr leaves haddr hT hok hd hname hitems
  rw [if_neg hroot] at hfaces
  refine ⟨(dirListPost st).1, (dirListPost st).2, hrun, ?_⟩
  intro hrc
  have hrc0 : st.returnCode = 0 := by
    unfold dirListPost at hrc
    split at hrc
    · assumption
    · rename_i hne; exact absurd hrc hne
  cases hes : st.entries with
  | nil => rw [hes] at hfaces; cases hfaces
  | cons e0 rest =>
    rw [hes, List.map_cons, List.singleton_append] at hfaces
    injection hfaces with hhead _
    unfold face at hhead
    injection hhead with ho hrest
    injection hrest with hp hn
    refine ⟨{ e0 with hidden := isHiddenName e0.name },
      rest.map (fun e => { e with hidden := isHiddenName e.name }), ?_, ho, ?_, hp⟩
    · unfold dirListPost
      rw [if_pos hrc0, hes]
      rfl
    · show cstr e0.name = [0x2E]
      rw [hn]
      rfl

/-! ### Hidden flags -/

theorem cstr_head (name : List Nat) :
    name.head? = some 0x2E ↔ (cstr name).head? = some 0x2E := by
  cases name with
  | nil => simp [cstr]
  | cons b rest =>
    unfold cstr
    by_cases hb : b = 0
    · subst hb
      simp [List.takeWhile]
    · simp [List.takeWhile, hb]

/-- The test of the source agrees with the specification of a hidden name, read on the C
string that the buffer holds. -/
theorem isHiddenName_iff (name : List Nat) :
    isHiddenName name = true ↔ HiddenName (cstr name) := by
  unfold isHiddenName HiddenName
  rw [← cstr_head]
  simp [and_assoc]

/-- C23: whenever `parseFSTree(FSOP_GET_FILE_PKG)` returns 0, `filePkg.hidden` is true if
and only if the name starts with a dot and is neither `.` nor `..`; whenever
`parseFSTree(FSOP_DIR_LIST)` returns 0, the list holds its `numEntries` entries and the
hidden flag of every entry satisfies the same equivalence. The names `.` and `..` and the
name `ROOT_DIR`, seeded for the root directory, are not hidden. -/
theorem hidden_flag_spec (load : Nat → Except Fault (List Nat)) (rootTree : List KeyedItem)
    (depth tree objectID : Nat) (filePkg pkg : FilePkg)
    (loadD : Nat → Except Fault (List Nat)) (rootTreeD : List KeyedItem)
    (depthD treeD objectIDD : Nat) (fresh : FilePkg) (temp : List Nat) (dl : DirList)
    (hpkg : parseFSTreeGetFilePkg load rootTree depth tree objectID filePkg = .ok (0, pkg))
    (hdl : parseFSTreeDirList loadD rootTreeD depthD treeD objectIDD fresh temp = .ok (0, dl)) :
    (pkg.hidden = true ↔ HiddenName (cstr pkg.name)) ∧
      (∃ es, dl.entries = some es ∧ es.length = dl.numEntries ∧
        ∀ e ∈ es, (e.hidden = true ↔ HiddenName (cstr e.name))) ∧
      (∀ buf : List Nat, ¬ HiddenName (cstr (memcpyInto buf strDot)) ∧
        ¬ HiddenName (cstr (memcpyInto buf strDotDot)) ∧
        ¬ HiddenName (cstr (memcpyInto buf strRootDir))) := by
  refine ⟨?_, ?_, ?_⟩
  · unfold parseFSTreeGetFilePkg at hpkg
    simp only at hpkg
    split at hpkg
    · cases hpkg
    · split at hpkg
      · cases hpkg
      · split at hpkg
        · injection hpkg with hpkg
          injection hpkg with _ h2
          subst h2
          exact isHiddenName_iff _
        · rename_i hne
          injection hpkg with hpkg
          injection hpkg with h1 _
          exact absurd h1 hne
  · unfold parseFSTreeDirList at hdl
    split at hdl
    · cases hdl
    · split at hdl
      · cases hdl
      · rename_i st _
        injection hdl with hdl
        unfold dirListPost at hdl
        split at hdl
        · injection hdl with _ h2
          subst h2
          refine ⟨_, rfl, by simp, ?_⟩
          intro e he
          obtain ⟨e1, _, rfl⟩ := List.mem_map.mp he
          exact isHiddenName_iff _
        · rename_i hne
          injection hdl with h1 _
          exact absurd h1 hne
  · intro buf
    refine ⟨?_, ?_, ?_⟩
    · intro h; exact h.2.1 rfl
    · intro h; exact h.2.2 rfl
    · intro h
      have : (cstr (memcpyInto buf strRootDir)).head? = some 0x52 := rfl
      rw [h.1] at this
      cases this

/-! ### Short circuit -/

/-- The leaf loop after a prefix of items at which the hook did not leave. -/
theorem leafLoop_prefix {σ : Type}
    (hook : List Nat → BtrfsItem → σ → Except Fault (σ × Bool)) (flag : σ → Bool)
    (hlf : LeaveIsFlag hook flag) (node : List Nat) (rest : Nat) :
    ∀ (k i : Nat) (st st1 : σ),
      sizeofBtrfsHeader + (i + k) * sizeofBtrfsItem ≤ node.length →
      walkItems hook ((List.range' i k).map (fun j => (node, readItem node j))) st = .ok st1 →
      flag st1 = false →
      leafLoop hook node (k + rest) i st = leafLoop hook node rest (i + k) st1 := by
  intro k
  induction k with
  | zero =>
    intro i st st1 _ hw _
    simp only [List.range'_zero, List.map_nil, walkItems] at hw
    injection hw with hw
    subst hw
    simp
  | succ c ih =>
    intro i st st1 hb hw hf
    have hi : sizeofBtrfsHeader + (i + 1) * sizeofBtrfsItem ≤ node.length := by
      have : (i + 1) * sizeofBtrfsItem ≤ (i + (c + 1)) * sizeofBtrfsItem :=
        Nat.mul_le_mul_right _ (by omega)
      omega
    rw [show c + 1 + rest = (c + rest) + 1 by omega, leafLoop, loadItem_of_le hi]
    rw [List.range'_succ, List.map_cons, walkItems] at hw
    simp only at hw ⊢
    cases hh : hook node (readItem node i) st with
    | error e => rw [hh] at hw; cases hw
    | ok p =>
      obtain ⟨s, leave⟩ := p
      rw [hh] at hw
      simp only at hw ⊢
      have hl := hlf node (readItem node i) st s leave hh
      cases leave with
      | true =>
        simp only [if_true] at hw
        injection hw with hw
        subst hw
        rw [hf] at hl
        cases hl
      | false =>
        simp only [Bool.false_eq_true, if_false] at hw ⊢
        rw [ih (i + 1) s st1 (by rw [show i + 1 + c = i + (c + 1) by omega]; exact hb) hw hf]
        rw [show i + 1 + c = i + (c + 1) by omega]

/-- The loop over the key pointers, split after its first `a` iterations. -/
theorem keyPtrLoop_add {σ : Type} (flag : σ → Bool) (recurse : Nat → σ → Except Fault σ)
    (node : List Nat) (b : Nat) :
    ∀ (a i : Nat) (st : σ), flag st = false →
      keyPtrLoop flag recurse node (a + b) i st =
        match keyPtrLoop flag recurse node a i st with
        | .error e => .error e
        | .ok s => if flag s then .ok s else keyPtrLoop flag recurse node b (i + a) s := by
  intro a
  induction a with
  | zero =>
    intro i st hst
    simp [keyPtrLoop, hst]
  | succ c ih =>
    intro i st _
    rw [show c + 1 + b = (c + b) + 1 by omega, keyPtrLoop, keyPtrLoop]
    cases loadKeyPtr node i with
    | error e => rfl
    | ok blockNum =>
      simp only
      cases recurse blockNum st with
      | error e => rfl
      | ok s =>
        simp only
        cases hf : flag s with
        | true => simp [hf]
        | false =>
          simp only [Bool.false_eq_true, if_false]
          rw [ih (i + 1) s hf, show i + 1 + c = i + (c + 1) by omega]

theorem stopsAt_flag {σ : Type} (load : Nat → Except Fault (List Nat)) (treeID : Option Nat)
    (hook : List Nat → BtrfsItem → σ → Except Fault (σ × Bool)) (flag : σ → Bool)
    (hlf : LeaveIsFlag hook flag) (h addr : Nat) (st st' : σ)
    (hS : StopsAt load treeID hook flag h addr st st') : flag st' = true := by
  induction hS with
  | leaf h addr node i st st1 st' _ _ _ _ _ _ _ _ hhook =>
    exact (hlf node (readItem node i) st1 st' true hhook).symm
  | inner _ _ _ _ _ _ _ _ _ _ _ _ _ _ _ _ _ _ _ _ ih => exact ih

/-- C30: for every tree, every hook that leaves its loop exactly when it has set the flag,
and every state, once the hook has set `shortCircuit` while processing a leaf item (the
walk `StopsAt` that item), the walk, with any depth budget above the height of the path,
returns the state as it was at that item, with the flag set. Nothing is assumed of what
follows the item, so nothing that follows is delivered to the hook or loaded: the later
items of the leaf, the later key pointers of the nodes on the path and the nodes they
lead to may be malformed or unreadable. -/
theorem walkTree_shortCircuit {σ : Type} (load : Nat → Except Fault (List Nat))
    (treeID : Option Nat) (hook : List Nat → BtrfsItem → σ → Except Fault (σ × Bool))
    (flag : σ → Bool) (hlf : LeaveIsFlag hook flag) (h addr : Nat) (st st' : σ)
    (hS : StopsAt load treeID hook flag h addr st st') :
    ∀ depth, h < depth → flag st = false →
      walkTree load treeID hook flag depth addr st = .ok st' ∧ flag st' = true := by
  induction hS with
  | leaf h addr node i st st1 st' hload hlen hid hlevel hi hbound hw hf hhook =>
    intro depth hd _
    refine ⟨?_, (hlf node (readItem node i) st1 st' true hhook).symm⟩
    cases depth with
    | zero => omega
    | succ d =>
      have hhdr : loadHeader node = .ok (readHeader node) := by
        unfold loadHeader; rw [if_pos hlen]
      have hassert : ¬ (treeID.isSome ∧ treeID ≠ some (readHeader node).tree) := by
        rintro ⟨hsome, hne⟩
        obtain ⟨t, ht⟩ := Option.isSome_iff_exists.mp hsome
        exact hne (by rw [ht, hid t ht])
      rw [walkTree, hload]
      simp only [hhdr, if_neg hassert, if_pos hlevel]
      obtain ⟨rest, hrest⟩ : ∃ rest, (readHeader node).nrItems = i + (rest + 1) :=
        ⟨(readHeader node).nrItems - i - 1, by omega⟩
      have hb0 : sizeofBtrfsHeader + (0 + i) * sizeofBtrfsItem ≤ node.length := by
        have : (0 + i) * sizeofBtrfsItem ≤ (i + 1) * sizeofBtrfsItem :=
          Nat.mul_le_mul_right _ (by omega)
        omega
      rw [hrest, leafLoop_prefix hook flag hlf node (rest + 1) i 0 st st1 hb0 hw hf,
        Nat.zero_add, leafLoop, loadItem_of_le hbound]
      simp only [hhook, if_true]
  | inner h addr node done next st st1 st' hload hlen hid hlevel hlt hptr hdone hleaf hw hf hnext
      hS ih =>
    intro depth hd hst
    have hflag := stopsAt_flag load treeID hook flag hlf h next st1 st' hS
    refine ⟨?_, hflag⟩
    cases depth with
    | zero => omega
    | succ d =>
      have hhdr : loadHeader node = .ok (readHeader node) := by
        unfold loadHeader; rw [if_pos hlen]
      have hassert : ¬ (treeID.isSome ∧ treeID ≠ some (readHeader node).tree) := by
        rintro ⟨hsome, hne⟩
        obtain ⟨t, ht⟩ := Option.isSome_iff_exists.mp hsome
        exact hne (by rw [ht, hid t ht])
      rw [walkTree, hload]
      simp only [hhdr, if_neg hassert, if_neg hlevel]
      obtain ⟨rest, hrest⟩ : ∃ rest, (readHeader node).nrItems = done.length + (rest + 1) :=
        ⟨(readHeader node).nrItems - done.length - 1, by omega⟩
      have hprefix : keyPtrLoop flag (walkTree load treeID hook flag d) node done.length 0 st
          = .ok st1 := by
        rw [keyPtrLoop_eq_foldLeaves hook flag _ node done 0 st
          (fun j hj => by rw [Nat.zero_add]; exact hptr j hj)
          (fun k hk s hs => walkTree_eq_foldLeaves load treeID hook flag h k.1 k.2
            (hdone k hk) d s (by omega) hs) hst]
        rw [foldLeaves_eq_walkItems hook flag hlf _ st ?_ hst, hw]
        intro leafNode hmem
        obtain ⟨l, hl, hin⟩ := List.mem_flatten.mp hmem
        obtain ⟨k, hk, rfl⟩ := List.mem_map.mp hl
        exact hleaf k hk leafNode hin
      rw [hrest, keyPtrLoop_add flag _ node (rest + 1) done.length 0 st hst, hprefix]
      simp only [hf, Bool.false_eq_true, if_false, Nat.zero_add]
      rw [keyPtrLoop, hnext]
      simp only
      rw [(ih d (by omega) hf).1]
      simp only [hflag, if_true]

/-! ### Concrete trees -/

/-- The node table `nodesFsDir` is a tree of height 1 with the leaves `fsLeafDir260`,
`fsLeafKids`. -/
theorem treeAt_nodesFsDir :
    TreeAt (tableLoad nodesFsDir) none 1 0x4000 [fsLeafDir260, fsLeafKids] := by
  have hleaf : ∀ k ∈ [(0x5000, [fsLeafDir260]), (0x6000, [fsLeafKids])],
      TreeAt (tableLoad nodesFsDir) none 0 k.1 k.2 := by
    intro k hk
    simp only [List.mem_cons, List.mem_singleton, List.not_mem_nil, or_false] at hk
    rcases hk with rfl | rfl
    · exact TreeAt.leaf 0 0x5000 _ (by decide!) (by decide!) (fun t ht => by cases ht)
        (by decide!)
    · exact TreeAt.leaf 0 0x6000 _ (by decide!) (by decide!) (fun t ht => by cases ht)
        (by decide!)
  exact TreeAt.inner 0 0x4000
    (mkInner 0 5 1 0x400 [(mkKey 0x100 0x01 0, 0x5000), (mkKey 261 0x01 0, 0x6000)])
    [(0x5000, [fsLeafDir260]), (0x6000, [fsLeafKids])]
    (by decide!) (by decide!) (fun t ht => by cases ht) (by decide!) (by decide!)
    (by
      intro i hi
      match i, hi with
      | 0, _ =>
        exact (by decide! : loadKeyPtr (mkInner 0 5 1 0x400
          [(mkKey 0x100 0x01 0, 0x5000), (mkKey 261 0x01 0, 0x6000)]) 0 = .ok 0x5000)
      | 1, _ =>
        exact (by decide! : loadKeyPtr (mkInner 0 5 1 0x400
          [(mkKey 0x100 0x01 0, 0x5000), (mkKey 261 0x01 0, 0x6000)]) 1 = .ok 0x6000)) hleaf

/-- C21, failing input: in `nodesFsLongName` the entry naming the file 257 declares a name
of 256 bytes. Both operations copy 255 bytes and then store the terminator at index
`n = 256`, not at index 255. With a name buffer of 256 bytes the store leaves the buffer;
with a larger buffer, filled with `0xCC`, the byte at index 255 keeps its old value and the
terminator is at index 256. -/
theorem name_terminator_at_declared_length :
    (treeDirEntries (treeItems [mkLeaf 0 5 0x400
        [(mkKey 0x100 0x01 0, mkInodeItem 0 0o40755),
         (mkKey 0x100 0x54 helloHash, mkDirEntry 257 (List.replicate 256 0x61) []),
         (mkKey 257 0x01 0, mkInodeItem 3 0o100644)]])).map
        (fun x => (x.1.2.key.objectID, x.2.2.child.objectID, x.2.2.n)) = [(0x100, 257, 256)] ∧
      parseFSTreeGetFilePkg (tableLoad nodesFsLongName) cacheFsTree 2 5 257 pkgBlank
        = .error .outOfBounds ∧
      parseFSTreeDirList (tableLoad nodesFsLongName) cacheFsTree 2 5 0x100 pkgBlank []
        = .error .outOfBounds ∧
      (parseFSTreeGetFilePkg (tableLoad nodesFsLongName) cacheFsTree 2 5 257 pkgWide).map
          (fun r => (r.1, decide (r.2.name.take 255 = List.replicate 255 0x61),
            r.2.name.get? 255, r.2.name.get? 256))
        = .ok (0, true, some 0xCC, some 0) ∧
      (parseFSTreeDirList (tableLoad nodesFsLongName) cacheFsTree 2 5 0x100 pkgWide []).map
          (fun r => (r.1, (r.2.entries.getD []).map
            (fun e => (e.objectID, e.name.get? 255, e.name.get? 256))))
        = .ok (0, [(257, some 0xCC, some 0)]) :=
  ⟨by decide!, by decide!, by decide!, by decide!, by decide!⟩

/-- C22, failing input: `nodesFsMovedFile` is in canonical key order and the only entry
naming the file 257 is in the `DIR_ITEM` of the directory 300. The walk stops at the first
item of object 300: the return code keeps bit 1 and no name is stored, while the full walk
returns 0 with parent 300 and the name `f`. -/
theorem getFilePkg_early_stop_misses_parent :
    (treeItems [mkLeaf 0 5 0x400
        [(mkKey 0x100 0x01 0, mkInodeItem 0 0o40755),
         (mkKey 0x100 0x54 0x1111, mkDirEntry 300 [0x64] []),
         (mkKey 257 0x01 0, mkInodeItem 3 0o100644),
         (mkKey 257 0x6C 0, List.replicate 0x15 0 ++ [0x61, 0x62, 0x63]),
         (mkKey 300 0x01 0, mkInodeItem 0 0o40755),
         (mkKey 300 0x54 0x2222, mkDirEntry 257 [0x66] [])]]).map
        (fun p => (p.2.key.objectID, p.2.key.type, p.2.key.offset))
        = [(0x100, 0x01, 0), (0x100, 0x54, 0x1111), (257, 0x01, 0), (257, 0x6C, 0),
           (300, 0x01, 0), (300, 0x54, 0x2222)] ∧
      (parseFSTreeGetFilePkg (tableLoad nodesFsMovedFile) cacheFsTree 2 5 257 pkgBlank).map
          (fun r => (r.1, r.2.parentID, cstr r.2.name, r.2.numExtents))
        = .ok (2, 0, [], 1) ∧
      (parseFSTreeGetFilePkgFullWalk (tableLoad nodesFsMovedFile) cacheFsTree 2 5 257
          pkgBlank).map (fun r => (r.1, r.2.parentID, cstr r.2.name, r.2.numExtents))
        = .ok (0, 300, [0x66], 1) := by
  decide!

/-- C25, failing input: in `nodesFsHardLinks` the directory 260 names the file 261 twice.
The older `parseFSTreeRec` leaves the loop over the entries at the first match: the second
entry never gets its inode, the return code ends at 1 and the list is freed. The newer
revision fills both entries and returns 0. -/
theorem dirList_older_fills_first_link_only :
    (parseFSTreeRecDirListOld (tableLoad nodesFsHardLinks) 0x400 260 pkgBlank 2 0x4000
          (dirListSeed 260 pkgBlank [])).map
        (fun st => (st.returnCode,
          st.entries.map (fun e => (e.objectID, cstr e.name, e.inode.length))))
        = .ok (1, [(260, [0x2E], 160), (0x100, [0x2E, 0x2E], 160), (261, [0x61], 160),
            (261, [0x62], 0)]) ∧
      parseFSTreeDirListOld (tableLoad nodesFsHardLinks) 0x400 0x4000 2 260 pkgBlank []
        = .ok (1, { entries := none, numEntries := 4 }) ∧
      (parseFSTreeDirList (tableLoad nodesFsHardLinks) cacheFsTree 2 5 260 pkgBlank []).map
          (fun r => (r.1, (r.2.entries.getD []).map
            (fun e => (e.objectID, cstr e.name, e.inode.length))))
        = .ok (0, [(260, [0x2E], 160), (0x100, [0x2E, 0x2E], 160), (261, [0x61], 160),
            (261, [0x62], 160)]) :=
  ⟨by decide!, by decide!, by decide!⟩

/-- C26, counterexample: in `nodesFsTwoParents` the directories 256 and 258 each name the
directory 260. The list of 260 is returned with code 0 and the parentID of `.` is 258, the
key objectID of the later entry, not 256. -/
theorem parseFSTreeDirList_dot_counterexample :
    (treeDirEntries (treeItems [mkLeaf 0 5 0x400
        [(mkKey 0x100 0x01 0, mkInodeItem 0 0o40755),
         (mkKey 0x100 0x54 0x1111, mkDirEntry 260 [0x64] []),
         (mkKey 258 0x01 0, mkInodeItem 0 0o40755),
         (mkKey 258 0x54 0x2222, mkDirEntry 260 [0x65] []),
         (mkKey 260 0x01 0, mkInodeItem 0 0o40700)]])).map
        (fun x => (x.1.2.key.objectID, x.2.2.child.objectID)) = [(0x100, 260), (258, 260)] ∧
      (parseFSTreeDirList (tableLoad nodesFsTwoParents) cacheFsTree 2 5 260 pkgBlank []).map
          (fun r => (r.1, (r.2.entries.getD []).map
            (fun e => (e.objectID, e.parentID, cstr e.name))))
        = .ok (0, [(260, 258, [0x2E]), (0x100, 0, [0x2E, 0x2E]), (258, 0, [0x2E, 0x2E])]) := by
  decide!

/-- C27, failing input: `nodesFsDirLowChild` is in key order; the directory 260 has its
inode, is named once, by the root directory, and holds the files 261 and 259, which both
have their inode. The inode of 259 precedes the entries of 260 in the walk, so its entry is
placed after the inode has passed and is never filled: the return code is 1 and the list
is freed. With the children 261 and 262 (`nodesFsDir`) the code is 0 and the list has 4
entries. -/
theorem dirList_child_with_lower_id :
    (treeItems [mkLeaf 0 5 0x400
        [(mkKey 0x100 0x01 0, mkInodeItem 0 0o40755),
         (mkKey 0x100 0x54 0x1111, mkDirEntry 260 [0x64] []),
         (mkKey 259 0x01 0, mkInodeItem 9 0o100644),
         (mkKey 260 0x01 0, mkInodeItem 0 0o40700),
         (mkKey 260 0x54 0x2222, mkDirEntry 261 [0x61] []),
         (mkKey 260 0x54 0x3333, mkDirEntry 259 [0x62] []),
         (mkKey 261 0x01 0, mkInodeItem 1 0o100644)]]).map
        (fun p => (p.2.key.objectID, p.2.key.type,
          (itemDirEntries p.1 p.2).map (fun e => e.2.child.objectID)
            |>.filter (fun _ => decide (p.2.key.type = TYPE_DIR_ITEM))))
        = [(0x100, 0x01, []), (0x100, 0x54, [260]), (259, 0x01, []), (260, 0x01, []),
           (260, 0x54, [261]), (260, 0x54, [259]), (261, 0x01, [])] ∧
      (parseFSTreeRecDirList (tableLoad nodesFsDirLowChild) 260 pkgBlank 2 0x4000
          (dirListSeed 260 pkgBlank [])).map
        (fun st => (st.returnCode,
          st.entries.map (fun e => (e.objectID, cstr e.name, e.inode.length))))
        = .ok (1, [(260, [0x2E], 160), (0x100, [0x2E, 0x2E], 160), (261, [0x61], 160),
            (259, [0x62], 0)]) ∧
      parseFSTreeDirList (tableLoad nodesFsDirLowChild) cacheFsTree 2 5 260 pkgBlank []
        = .ok (1, { entries := none, numEntries := 4 }) ∧
      (parseFSTreeDirList (tableLoad nodesFsDir) cacheFsTree 2 5 260 pkgBlank []).map
          (fun r => (r.1, r.2.numEntries, (r.2.entries.getD []).map
            (fun e => (e.objectID, cstr e.name, readLE e.inode 0x10 8))))
        = .ok (0, 4, [(260, [0x2E], 0), (0x100, [0x2E, 0x2E], 0), (261, [0x61], 1),
            (262, [0x2E, 0x62], 2)]) := by
  decide!

/-- C29, failing inputs: (a) in `nodesFsShortItem` the `DIR_ITEM` has `item.size = 30` and
its entry declares `n = 5`, so `0 + sizeof(BtrfsDirItem) + m + n = 35` exceeds `item.size`;
`FSOP_GET_FILE_PKG` processes the entry all the same and stores as the name five bytes of
the neighbouring item, `secre`. (b) in `nodesFsPastNode` the name of the entry lies after
the end of the node; the newer revision makes no test and reads it (the read leaves the
node), where the chain loop of the older revision fails its assertion. -/
theorem chain_entry_past_item_processed :
    (treeItems [mkLeaf 0 5 0x400
        [(mkKey 0x100 0x0C 0x100, strSecret),
         (mkKey 0x100 0x54 0x1111, mkDirFixed 257 0 5),
         (mkKey 257 0x01 0, mkInodeItem 3 0o100644)]]).map
        (fun p => (p.2.key.type, p.2.size,
          ((itemDirEntries p.1 p.2).map
            (fun e => (e.1 - payloadOff p.2 + sizeofBtrfsDirItem + e.2.m + e.2.n))).filter
              (fun _ => decide (p.2.key.type = TYPE_DIR_ITEM))))
        = [(0x0C, 6, []), (0x54, 30, [35]), (0x01, 160, [])] ∧
      (parseFSTreeGetFilePkg (tableLoad nodesFsShortItem) cacheFsTree 2 5 257 pkgBlank).map
          (fun r => (r.1, r.2.parentID, cstr r.2.name))
        = .ok (0, 0x100, [0x73, 0x65, 0x63, 0x72, 0x65]) ∧
      (treeItems [mkLeaf 0 5 0x400 [(mkKey 0x100 0x54 0x1111, mkDirFixed 257 0 5)]]).map
        (fun p => (payloadOff p.2 + p.2.size, p.1.length,
          (itemDirEntries p.1 p.2).map (fun e => e.1 + sizeofBtrfsDirItem + e.2.m + e.2.n)))
        = [(0x400, 0x400, [0x405])] ∧
      parseFSTreeGetFilePkg (tableLoad nodesFsPastNode) cacheFsTree 2 5 257 pkgBlank
        = .error .outOfBounds ∧
      dirItemLoopOld 0x400 (getFilePkgDirEntry 257 0x100
          (mkLeaf 0 5 0x400 [(mkKey 0x100 0x54 0x1111, mkDirFixed 257 0 5)]))
          (mkLeaf 0 5 0x400 [(mkKey 0x100 0x54 0x1111, mkDirFixed 257 0 5)]) 30 0x401 994
          { filePkg := pkgBlank, returnCode := 3, shortCircuit := false }
        = .error .assertFailed := by
  decide!

/-! ### Instances -/

/-- Witness for C23: `getFilePkg` of the file 257 of `nodesFsTree`, named `hello`, and the
list of the directory 260 of `nodesFsDir`, whose entry `.b` is the only hidden one. -/
theorem hidden_flag_spec_witness :
    ((FilePkg.hidden { pkgBlank with
          objectID := 257, name := nameBuffer pkgBlank.name strHello, parentID := 0x100,
          inode := mkInodeItem 3 0o100644,
          extents := [{ key := ⟨257, 0x6C, 0⟩, data := List.replicate 0x15 0 ++ [0x61, 0x62, 0x63] }],
          numExtents := 1, hidden := false } = true ↔
        HiddenName (cstr (nameBuffer pkgBlank.name strHello))) ∧
      (∃ es, (dirListPost
            { entries :=
                [{ pkgBlank with objectID := 260, parentID := 0x100,
                                 name := memcpyInto pkgBlank.name strDot,
                                 inode := mkInodeItem 0 0o40700 },
                 { pkgBlank with objectID := 0x100, name := memcpyInto pkgBlank.name strDotDot,
                                 inode := mkInodeItem 0 0o40755 },
                 { pkgBlank with objectID := 261, parentID := 260,
                                 name := nameBuffer pkgBlank.name [0x61],
                                 inode := mkInodeItem 1 0o100644 },
                 { pkgBlank with objectID := 262, parentID := 260,
                                 name := nameBuffer pkgBlank.name [0x2E, 0x62],
                                 inode := mkInodeItem 2 0o100600 }]
              temp := mkInodeItem 0 0o40755, returnCode := 0, shortCircuit := false }).2.entries
            = some es ∧
          es.length = 4 ∧ ∀ e ∈ es, (e.hidden = true ↔ HiddenName (cstr e.name))) ∧
      (∀ buf : List Nat, ¬ HiddenName (cstr (memcpyInto buf strDot)) ∧
        ¬ HiddenName (cstr (memcpyInto buf strDotDot)) ∧
        ¬ HiddenName (cstr (memcpyInto buf strRootDir)))) ∧
      (parseFSTreeDirList (tableLoad nodesFsDir) cacheFsTree 2 5 260 pkgBlank []).map
          (fun r => (r.2.entries.getD []).map (fun e => (cstr e.name, e.hidden)))
        = .ok [([0x2E], false), ([0x2E, 0x2E], false), ([0x61], false), ([0x2E, 0x62], true)] :=
  ⟨hidden_flag_spec (tableLoad nodesFsTree) cacheFsTree 2 5 257 pkgBlank _
      (tableLoad nodesFsDir) cacheFsTree 2 5 260 pkgBlank [] _ (by decide!) (by decide!),
    by decide!⟩

/-- Witness for C24: the list of the directory 260 of `nodesFsDir`; after `.` come `..`,
placed by the entry of the root directory that names 260, and the children 261 and 262. -/
theorem parseFSTreeDirList_entries_witness :
    (∃ rc dl, parseFSTreeDirList (tableLoad nodesFsDir) cacheFsTree 2 5 260 pkgBlank []
        = .ok (rc, dl) ∧
      dl.numEntries = seedCount 260 +
        ((treeDirEntries (treeItems [fsLeafDir260, fsLeafKids])).flatMap
          (placedFaces 260 pkgBlank)).length ∧
      (rc = 0 → ∃ es, dl.entries = some es ∧
        (es.drop (seedCount 260)).map face
          = (treeDirEntries (treeItems [fsLeafDir260, fsLeafKids])).flatMap
              (placedFaces 260 pkgBlank)) ∧
      (260 = OBJID_ROOT_DIR → dl.numEntries
        = ((treeDirEntries (treeItems [fsLeafDir260, fsLeafKids])).filter
            (fun x => decide (x.1.2.key.objectID = 260))).length)) ∧
      (treeDirEntries (treeItems [fsLeafDir260, fsLeafKids])).flatMap (placedFaces 260 pkgBlank)
        = [(0x100, 0, memcpyInto pkgBlank.name strDotDot),
           (261, 260, nameBuffer pkgBlank.name [0x61]),
           (262, 260, nameBuffer pkgBlank.name [0x2E, 0x62])] :=
  ⟨parseFSTreeDirList_entries (tableLoad nodesFsDir) cacheFsTree 2 5 260 pkgBlank [] 1 0x4000
      [fsLeafDir260, fsLeafKids] (by decide!) treeAt_nodesFsDir (by decide!) (by decide)
      (by decide!) (by decide!),
    by decide!⟩

/-- Witness for C26: the list of the directory 260 of `nodesFsDir`, which the root
directory names once: the parentID of `.` is 256. -/
theorem parseFSTreeDirList_dot_witness :
    (∃ rc dl, parseFSTreeDirList (tableLoad nodesFsDir) cacheFsTree 2 5 260 pkgBlank []
        = .ok (rc, dl) ∧
      (rc = 0 → ∃ e0 rest, dl.entries = some (e0 :: rest) ∧ e0.objectID = 260 ∧
        cstr e0.name = [0x2E] ∧
        e0.parentID = match ((treeDirEntries (treeItems [fsLeafDir260, fsLeafKids])).filter
            (fun x => decide (x.2.2.child.objectID = 260))).getLast? with
          | some x => x.1.2.key.objectID
          | none => pkgBlank.parentID)) ∧
      ((treeDirEntries (treeItems [fsLeafDir260, fsLeafKids])).filter
          (fun x => decide (x.2.2.child.objectID = 260))).map (fun x => x.1.2.key.objectID)
        = [0x100] :=
  ⟨parseFSTreeDirList_dot (tableLoad nodesFsDir) cacheFsTree 2 5 260 pkgBlank [] 1 0x4000
      [fsLeafDir260, fsLeafKids] (by decide) (by decide!) treeAt_nodesFsDir (by decide!)
      (by decide) (by decide!) (by decide!),
    by decide!⟩

/-- Witness for C28: the `DIR_ITEM` of `fsLeafDir`, a chain of two entries of 35 bytes; a
body that records the offsets it is given records the offsets of the two entries. -/
theorem dirItemLoop_legal_chain_witness :
    (dirItemLoop (fun entry _ (st : List Nat) => .ok (st ++ [entry], false)) fsLeafDir
          (payloadOff (readItem fsLeafDir 1)) (readItem fsLeafDir 1).size
          ((readItem fsLeafDir 1).size + 1) 0 []
        = walkEntries (fun entry _ (st : List Nat) => .ok (st ++ [entry], false))
            ((chainOffsets [(0, 5), (0, 5)] 0).map
              (fun o => (payloadOff (readItem fsLeafDir 1) + o,
                readDirItem fsLeafDir (payloadOff (readItem fsLeafDir 1) + o)))) [] ∧
      (chainOffsets [(0, 5), (0, 5)] 0).length = [(0, 5), (0, 5)].length) ∧
      chainOffsets [(0, 5), (0, 5)] 0 = [0, 35] ∧
      dirItemLoop (fun entry _ (st : List Nat) => .ok (st ++ [entry], false)) fsLeafDir
          (payloadOff (readItem fsLeafDir 1)) (readItem fsLeafDir 1).size
          ((readItem fsLeafDir 1).size + 1) 0 []
        = .ok [payloadOff (readItem fsLeafDir 1), payloadOff (readItem fsLeafDir 1) + 35] :=
  ⟨dirItemLoop_legal_chain (fun entry _ (st : List Nat) => .ok (st ++ [entry], false))
      fsLeafDir (readItem fsLeafDir 1) [(0, 5), (0, 5)] [] (by decide) (by decide!)
      (by decide!) (by decide!),
    by decide, by decide!⟩

/-- Witness for C30: the lookup of `hello` in `nodesFsFirstLeafOnly`. The match is in the
second item of the first leaf; the second key pointer of the root leads to `0x6000`, which
cannot be read, and the walk returns the match. -/
theorem walkTree_shortCircuit_witness :
    (walkTree (tableLoad nodesFsFirstLeafOnly) none
          (fsNameToIdItem 0x100 helloHash strHello) (fun st => st.shortCircuit) 2 0x4000
          { childID := 0, returnCode := 1, shortCircuit := false }
        = .ok { childID := 257, returnCode := 0, shortCircuit := true } ∧
      (fun st : NameToIdState => st.shortCircuit)
        { childID := 257, returnCode := 0, shortCircuit := true } = true) ∧
      loadKeyPtr (mkInner 0 5 1 0x400
        [(mkKey 0x100 0x01 0, 0x5000), (mkKey 257 0x01 0, 0x6000)]) 1 = .ok 0x6000 ∧
      tableLoad nodesFsFirstLeafOnly 0x6000 = .error .assertFailed :=
  ⟨walkTree_shortCircuit (tableLoad nodesFsFirstLeafOnly) none
      (fsNameToIdItem 0x100 helloHash strHello) (fun st => st.shortCircuit)
      (fsNameToIdItem_leave 0x100 helloHash strHello) 1 0x4000
      { childID := 0, returnCode := 1, shortCircuit := false }
      { childID := 257, returnCode := 0, shortCircuit := true }
      (StopsAt.inner 0 0x4000
        (mkInner 0 5 1 0x400 [(mkKey 0x100 0x01 0, 0x5000), (mkKey 257 0x01 0, 0x6000)])
        [] 0x5000 _ (NameToIdState.mk 0 1 false) _
        (by decide!) (by decide!) (fun t ht => by cases ht) (by decide!) (by decide!)
        (fun i hi => absurd hi (Nat.not_lt_zero i)) (fun k hk => by cases hk)
        (fun k hk => by cases hk) (by decide!) (by decide!) (by decide!)
        (StopsAt.leaf 0 0x5000 fsLeafDir 1 _ (NameToIdState.mk 0 1 false)
          _ (by decide!) (by decide!) (fun t ht => by cases ht) (by decide!) (by decide!)
          (by decide!) (by decide!) (by decide!) (by decide!)))
      2 (by decide) rfl,
    by decide!, by decide!⟩

/-! ### Key order during the walk -/

theorem keyLe_refl (a : BtrfsDiskKey) : keyLe a a :=
  Or.inr ⟨rfl, Or.inr ⟨rfl, Nat.le_refl _⟩⟩

theorem keyLe_trans {a b c : BtrfsDiskKey} (hab : keyLe a b) (hbc : keyLe b c) : keyLe a c := by
  unfold keyLe at *
  omega

theorem treeKeys_flatten (L : List (List (List Nat))) :
    treeKeys L.flatten = (L.map treeKeys).flatten := by
  induction L with
  | nil => rfl
  | cons l rest ih =>
    have happ : ∀ l1 l2 : List (List Nat), treeKeys (l1 ++ l2) = treeKeys l1 ++ treeKeys l2 := by
      intro l1 l2
      simp [treeKeys, treeItems]
    simp only [List.flatten_cons, List.map_cons, happ, ih]

theorem treeKeys_singleton (node : List Nat) :
    treeKeys [node] = (leafItems node).map (fun item => item.key) := by
  simp [treeKeys, treeItems]

theorem validTreeAt_treeAt (load : Nat → Except Fault (List Nat)) (treeID : Option Nat)
    (h addr : Nat) (leaves : List (List Nat)) (hV : ValidTreeAt load treeID h addr leaves) :
    TreeAt load treeID h addr leaves ∧ ∀ node ∈ leaves, LeafOk node := by
  induction hV with
  | leaf h addr node hload hlen hid hlevel hleaf _ =>
    refine ⟨TreeAt.leaf h addr node hload hlen hid hlevel, ?_⟩
    intro n hn
    rw [List.mem_singleton] at hn
    rw [hn]; exact hleaf
  | inner h addr node kids hload hlen hid hlevel hcount hptr _ _ _ _ ih =>
    refine ⟨TreeAt.inner h addr node kids hload hlen hid hlevel hcount hptr
      (fun k hk => (ih k hk).1), ?_⟩
    intro n hn
    rw [List.mem_flatten] at hn
    obtain ⟨l, hl, hnl⟩ := hn
    rw [List.mem_map] at hl
    obtain ⟨k, hk, rfl⟩ := hl
    exact (ih k hk).2 n hnl

theorem validTreeAt_sorted (load : Nat → Except Fault (List Nat)) (treeID : Option Nat)
    (h addr : Nat) (leaves : List (List Nat)) (hV : ValidTreeAt load treeID h addr leaves) :
    List.Pairwise keyLe (treeKeys leaves) := by
  induction hV with
  | leaf h addr node _ _ _ _ _ hsorted =>
    rw [treeKeys_singleton]; exact hsorted
  | inner h addr node kids _ _ _ _ _ _ hptrs hlo hhi _ ih =>
    rw [treeKeys_flatten, List.pairwise_flatten]
    constructor
    · intro l hl
      rw [List.mem_map] at hl
      obtain ⟨l1, hl1, rfl⟩ := hl
      rw [List.mem_map] at hl1
      obtain ⟨k, hk, rfl⟩ := hl1
      exact ih k hk
    · rw [List.map_map, List.pairwise_map, List.pairwise_iff_getElem]
      intro i j hi hj hij x hx y hy
      have hptr : ∀ a b, a < b → b < kids.length → keyLe (keyPtrKey node a) (keyPtrKey node b) := by
        intro a b hab hb
        rw [List.pairwise_map, List.pairwise_iff_getElem] at hptrs
        have := hptrs a b (by simp; omega) (by simp; omega) hab
        simpa using this
      have hx1 : keyLe x (keyPtrKey node (i + 1)) :=
        hhi i (by omega) x (by simpa using hx)
      have hy1 : keyLe (keyPtrKey node j) y := hlo j hj y (by simpa using hy)
      have hmid : keyLe (keyPtrKey node (i + 1)) (keyPtrKey node j) := by
        by_cases hEq : i + 1 = j
        · rw [hEq]; exact keyLe_refl _
        · exact hptr (i + 1) j (by omega) hj
      exact keyLe_trans hx1 (keyLe_trans hmid hy1)

/-- C31: the walk from the root of a valid tree runs the leaf hook over the items of the
leaves from left to right, each leaf in array order (up to the item at which the hook
leaves), and the keys of these items, in that order, are non-decreasing in the canonical
order of `(objectID, type, offset)`. -/
theorem walk_delivers_keys_in_order {σ : Type} (load : Nat → Except Fault (List Nat))
    (treeID : Option Nat) (hook : List Nat → BtrfsItem → σ → Except Fault (σ × Bool))
    (flag : σ → Bool) (hlf : LeaveIsFlag hook flag) (h addr : Nat) (leaves : List (List Nat))
    (hV : ValidTreeAt load treeID h addr leaves) (depth : Nat) (st : σ) (hd : h < depth)
    (hst : flag st = false) :
    walkTree load treeID hook flag depth addr st = walkItems hook (treeItems leaves) st ∧
      List.Pairwise keyLe ((treeItems leaves).map (fun p => p.2.key)) :=
  ⟨walkTree_eq_walkItems load treeID hook flag hlf h addr leaves
      (validTreeAt_treeAt load treeID h addr leaves hV).1
      (validTreeAt_treeAt load treeID h addr leaves hV).2 depth st hd hst,
    validTreeAt_sorted load treeID h addr leaves hV⟩

/-! ### Items of unknown type -/

theorem walkItems_skip {σ : Type} (hook : List Nat → BtrfsItem → σ → Except Fault (σ × Bool))
    (keep : List Nat × BtrfsItem → Bool) :
    ∀ (items : List (List Nat × BtrfsItem)) (st : σ),
      (∀ p ∈ items, keep p = false → ∀ s, hook p.1 p.2 s = .ok (s, false)) →
      walkItems hook items st = walkItems hook (items.filter keep) st := by
  intro items
  induction items with
  | nil => intro st _; rfl
  | cons p rest ih =>
    intro st hskip
    have hrest : ∀ q ∈ rest, keep q = false → ∀ s, hook q.1 q.2 s = .ok (s, false) :=
      fun q hq => hskip q (List.mem_cons_of_mem p hq)
    obtain ⟨node, item⟩ := p
    cases hk : keep (node, item) with
    | true =>
      rw [List.filter_cons, if_pos hk]
      unfold walkItems
      cases hh : hook node item st with
      | error e => rfl
      | ok r =>
        obtain ⟨st1, leave⟩ := r
        cases leave with
        | true => rfl
        | false => simp only [Bool.false_eq_true, if_false]; exact ih st1 hrest
    | false =>
      rw [List.filter_cons, if_neg (by simp [hk])]
      have hh := hskip (node, item) (List.mem_cons_self _ _) hk st
      simp only at hh
      rw [show walkItems hook ((node, item) :: rest) st = walkItems hook rest st by
        simp only [walkItems, hh, Bool.false_eq_true, if_false]]
      exact ih st hrest

theorem leafLoop_eq_leafPairs {σ : Type}
    (hook : List Nat → BtrfsItem → σ → Except Fault (σ × Bool)) (node : List Nat)
    (hleaf : LeafOk node) (st : σ) :
    leafLoop hook node (readHeader node).nrItems 0 st = walkItems hook (leafPairs node) st := by
  rw [leafLoop_eq_walkItems hook node (readHeader node).nrItems 0 st (by
    unfold LeafOk at hleaf; simpa using hleaf)]
  simp [leafPairs, leafItems, List.range_eq_range', Function.comp_def]

theorem chunkTreeLoadItem_other (node : List Nat) (item : BtrfsItem) (chunkTree : List KeyedItem)
    (hc : chunkTreeKnown item.key.type = false) :
    chunkTreeLoadItem node item chunkTree = .ok (chunkTree, false) := by
  simp only [chunkTreeKnown, Bool.or_eq_false_iff, decide_eq_false_iff_not] at hc
  unfold chunkTreeLoadItem
  rw [if_neg hc.1, if_neg hc.2]

theorem chunkTreeItem_other (nodeSize : Nat) (node : List Nat) (item : BtrfsItem)
    (st : ChunkTreeState) (hc : chunkTreeKnown item.key.type = false) :
    chunkTreeItem nodeSize node item st = .ok (st, false) := by
  simp only [chunkTreeKnown, Bool.or_eq_false_iff, decide_eq_false_iff_not] at hc
  unfold chunkTreeItem
  rw [if_neg hc.1, if_neg hc.2]

/-- C32: for every leaf that holds its item array, the Load of the chunk tree, in the newer
and in the older revision, and the Load of the root tree run over the leaf give what they
give run over its items of recognised type alone, in the same order: the same state, or the
same failure, so an item of unrecognised type never makes a load fail. Under the FS-tree
operations an item of a type that the operation has no branch for leaves the outputs and
the return code as they are: the whole state under `FSOP_NAME_TO_ID` and `FSOP_DIR_LIST`,
the `FilePkg` and the return code under `FSOP_GET_FILE_PKG`; under `FSOP_DUMP_TREE`, which
has no output but what it prints, such an item adds its line and cannot fail. -/
theorem unknown_item_types_are_skipped (nodeSize : Nat) (node : List Nat) (hleaf : LeafOk node) :
    (∀ chunkTree, leafLoop chunkTreeLoadItem node (readHeader node).nrItems 0 chunkTree
        = walkItems chunkTreeLoadItem
            ((leafPairs node).filter (fun p => chunkTreeKnown p.2.key.type)) chunkTree) ∧
      (∀ st, leafLoop (chunkTreeItem nodeSize) node (readHeader node).nrItems 0 st
        = walkItems (chunkTreeItem nodeSize)
            ((leafPairs node).filter (fun p => chunkTreeKnown p.2.key.type)) st) ∧
      (∀ rootTree, leafLoop rootTreeLoadItem node (readHeader node).nrItems 0 rootTree
        = walkItems rootTreeLoadItem
            ((leafPairs node).filter (fun p => rootTreeCached p.2.key.type)) rootTree) ∧
      (∀ item : BtrfsItem, item.key.type ≠ TYPE_DIR_ITEM →
        ∀ parentID hash name st,
          fsNameToIdItem parentID hash name node item st = .ok (st, st.shortCircuit)) ∧
      (∀ item : BtrfsItem, item.key.type ≠ TYPE_INODE_ITEM → item.key.type ≠ TYPE_DIR_ITEM →
        ∀ objectID fresh st,
          fsDirListItem objectID fresh node item st = .ok (st, st.shortCircuit)) ∧
      (∀ item : BtrfsItem, item.key.type ≠ TYPE_INODE_ITEM → item.key.type ≠ TYPE_DIR_ITEM →
        item.key.type ≠ TYPE_EXTENT_DATA →
        ∀ objectID st, ∃ st1 leave,
          fsGetFilePkgItem objectID node item st = .ok (st1, leave) ∧
            st1.filePkg = st.filePkg ∧ st1.returnCode = st.returnCode) ∧
      (∀ item : BtrfsItem, item.key.type ≠ TYPE_INODE_ITEM → item.key.type ≠ TYPE_INODE_REF →
        item.key.type ≠ TYPE_XATTR_ITEM → item.key.type ≠ TYPE_DIR_ITEM →
        item.key.type ≠ TYPE_DIR_INDEX → item.key.type ≠ TYPE_EXTENT_DATA →
        ∀ i out, fsDumpItem node i item out
          = .ok (out ++ [.unknown i item.key.objectID item.key.type item.key.offset])) := by
  refine ⟨?_, ?_, ?_, ?_, ?_, ?_, ?_⟩
  · intro chunkTree
    rw [leafLoop_eq_leafPairs chunkTreeLoadItem node hleaf chunkTree]
    exact walkItems_skip chunkTreeLoadItem _ _ chunkTree
      (fun p _ hk s => chunkTreeLoadItem_other p.1 p.2 s hk)
  · intro st
    rw [leafLoop_eq_leafPairs (chunkTreeItem nodeSize) node hleaf st]
    exact walkItems_skip (chunkTreeItem nodeSize) _ _ st
      (fun p _ hk s => chunkTreeItem_other nodeSize p.1 p.2 s hk)
  · intro rootTree
    rw [leafLoop_eq_leafPairs rootTreeLoadItem node hleaf rootTree]
    exact walkItems_skip rootTreeLoadItem _ _ rootTree
      (fun p _ hk s => rootTreeLoadItem_other p.1 p.2 s (by simp [hk]))
  · intro item hty parentID hash name st
    unfold fsNameToIdItem
    rw [if_neg (fun h => hty h.1)]
  · intro item h1 h2 objectID fresh st
    unfold fsDirListItem
    rw [if_neg h1, if_neg h2]
  · intro item h1 h2 h3 objectID st
    have hb : getFilePkgBranches objectID node item st = .ok st := by
      unfold getFilePkgBranches
      rw [if_neg (fun h => h1 h.1), if_neg h2, if_neg (fun h => h3 h.1)]
    unfold fsGetFilePkgItem
    by_cases hgt : item.key.objectID > objectID
    · rw [if_pos hgt]; exact ⟨_, _, rfl, rfl, rfl⟩
    · rw [if_neg hgt, hb]; exact ⟨_, _, rfl, rfl, rfl⟩
  · intro item h1 h2 h3 h4 h5 h6 i out
    unfold fsDumpItem
    rw [if_neg h1, if_neg h2, if_neg h3, if_neg h4, if_neg h5, if_neg h6]

/-! ### Bounds of leaf items in the newer walkers -/

/-- C34: with an empty root-tree cache `parseFSTree` fails, under every operation, at the
assertion of `getTreeRootAddr`, whatever the tree, the inputs and the nodes are; and with
no chunk loaded `logiToPhys` fails its assertion for every address and length, and so does
every load of a node by its logical address. -/
theorem queries_before_load_fail (load : Nat → Except Fault (List Nat))
    (crc : Nat → List Nat → Nat) (readPhysical : Nat → Nat → Option (List Nat))
    (super : List Nat) (depth tree parentID hash objectID childID addr len : Nat)
    (name temp : List Nat) (filePkg fresh : FilePkg) :
    parseFSTreeNameToId load [] depth tree parentID hash name childID = .error .assertFailed ∧
      parseFSTreeGetFilePkg load [] depth tree objectID filePkg = .error .assertFailed ∧
      parseFSTreeDirList load [] depth tree objectID fresh temp = .error .assertFailed ∧
      parseFSTreeDumpTree load [] depth tree = .error .assertFailed ∧
      logiToPhys [] addr len = .error .assertFailed ∧
      loadNode crc (cachedRead readPhysical []) super addr ADDR_LOGICAL
        = .error .assertFailed := by
  refine ⟨?_, ?_, ?_, ?_, ?_, ?_⟩
  · simp [parseFSTreeNameToId, getTreeRootAddr]
  · simp [parseFSTreeGetFilePkg, getTreeRootAddr]
  · simp [parseFSTreeDirList, getTreeRootAddr]
  · simp [parseFSTreeDumpTree, getTreeRootAddr]
  · simp [logiToPhys]
  · simp [loadNode, cachedRead, logiToPhys]

/-! ### `FSOP_DUMP_TREE` -/

/-- C35, failing input: the FS tree `nodesFsExtent 4` is one leaf holding an `EXTENT_DATA`
item whose type byte is 4. `parseFSTreeRec` indexes the table `fdTypeStrs`, of four
entries, with the type byte as it is: the lookup leaves the table, for the type byte 4 as
for 255. With the type byte 1 the same tree is dumped and 0 is returned. -/
theorem dumpTree_extent_type_indexes_past_table :
    fdTypeStrs.length = 4 ∧
      (treeItems [mkLeaf 0 5 0x400
          [(mkKey 257 0x01 0, mkInodeItem 3 0o100644),
           (mkKey 257 0x6C 0, List.replicate 8 0 ++ leEncode 8 3 ++ List.replicate 4 0 ++ [4] ++
              List.replicate 0x20 0)]]).map
          (fun p => (p.2.key.type, readLE p.1 (payloadOff p.2 + 0x14) 1))
        = [(0x01, 0), (0x6C, 4)] ∧
      parseFSTreeDumpTree (tableLoad (nodesFsExtent 4)) cacheFsTree 2 5 = .error .outOfBounds ∧
      parseFSTreeDumpTree (tableLoad (nodesFsExtent 255)) cacheFsTree 2 5
        = .error .outOfBounds ∧
      parseFSTreeDumpTree (tableLoad (nodesFsExtent 1)) cacheFsTree 2 5
        = .ok (0, [.node 5 0x4000 0 2, .inodeItem 0 257 0 0 0o100644 3,
            .extentData 1 257 0 3 [0x72, 0x65, 0x67, 0x75, 0x6C, 0x61, 0x72],
            .extentNonInline 0 0 0]) :=
  ⟨by decide, by decide!, by decide!, by decide!, by decide!⟩

/-! ### The inode of `..` -/

/-- C36, failing input: in the key-ordered tree `nodesFsParentAbove` the directory 260
names the file 261 and is named by the directory 300, so `P = 300 > D = 260`. The inode of
260 has size 0 and that of 300 has size 7. `FSOP_DIR_LIST` of 260 returns 0 and the entry
`..` has the objectID 300, but its inode is the one saved before the first entry was
placed, that of 260 itself: when the `INODE_ITEM` of 300 is met, `numEntries` is 2 and
nothing is saved. -/
theorem dotdot_inode_of_parent_with_larger_id :
    (treeItems [mkLeaf 0 5 0x400
        [(mkKey 260 0x01 0, mkInodeItem 0 0o40700),
         (mkKey 260 0x54 0x2222, mkDirEntry 261 [0x61] []),
         (mkKey 261 0x01 0, mkInodeItem 1 0o100644),
         (mkKey 300 0x01 0, mkInodeItem 7 0o40755),
         (mkKey 300 0x54 0x1111, mkDirEntry 260 [0x64] [])]]).map
        (fun p => (p.2.key.objectID, p.2.key.type,
          decide (p.2.key.type = TYPE_INODE_ITEM ∧ payload p.1 p.2 = mkInodeItem 7 0o40755)))
      = [(260, 0x01, false), (260, 0x54, false), (261, 0x01, false), (300, 0x01, true),
         (300, 0x54, false)] ∧
      (parseFSTreeDirList (tableLoad nodesFsParentAbove) cacheFsTree 2 5 260 pkgBlank []).map
          (fun r => (r.1, (r.2.entries.getD []).map
            (fun e => (e.objectID, cstr e.name, decide (e.inode = mkInodeItem 7 0o40755),
              decide (e.inode = mkInodeItem 0 0o40700)))))
        = .ok (0, [(260, [0x2E], false, true), (261, [0x61], false, false),
            (300, [0x2E, 0x2E], false, true)]) :=
  ⟨by decide!, by decide!⟩

/-! ### The chain loops of the two revisions -/

/-- C38, failing inputs: (a) in `fsLeafXattr` the `DIR_ITEM` at offset 878 is a legal chain
of two entries of 35 bytes, `item.size = 70`. The loop of the newer revision visits the
entries at 878 and 913. The loop of the older revision tests
`item.size > sizeof(BtrfsDirItem) + m + n` with the length of the current entry alone:
after the second entry `70 > 35` still holds and it goes on to offset 948, the payload of
the neighbouring `XATTR_ITEM`, which it visits as a third entry. (b) in `fsLeafDir` the same
chain is followed by an inode; the older loop runs through it to the end of the node and
fails its bounds assertion. -/
theorem older_chain_loop_runs_past_item :
    (leafItems fsLeafXattr).map (fun item => (item.key.type, payloadOff item, item.size))
        = [(0x18, 948, 76), (0x54, 878, 70)] ∧
      (LegalChain fsLeafXattr 878 [(0, 5), (0, 5)] 0 ∧ chainLength [(0, 5), (0, 5)] = 70) ∧
      dirItemLoop recordEntry fsLeafXattr 878 70 (70 + 1) 0 [] = .ok [878, 913] ∧
      dirItemLoopOld 0x400 recordEntry fsLeafXattr 70 (0x400 + 1) 878 [] = .ok [878, 913, 948] ∧
      (leafItems fsLeafDir).map (fun item => (item.key.type, payloadOff item, item.size))
        = [(0x01, 864, 160), (0x54, 794, 70)] ∧
      (LegalChain fsLeafDir 794 [(0, 5), (0, 5)] 0 ∧
        dirItemLoop recordEntry fsLeafDir 794 70 (70 + 1) 0 [] = .ok [794, 829]) ∧
      dirItemLoopOld 0x400 recordEntry fsLeafDir 70 (0x400 + 1) 794 [] = .error .assertFailed ∧
      (parseFSTreeDirList (tableLoad nodesFsTree) cacheFsTree 2 5 0x100 pkgBlank []).map
          (fun r => r.2.numEntries) = .ok 2 ∧
      parseFSTreeDirListOld (tableLoad nodesFsTree) 0x400 0x4000 2 0x100 pkgBlank []
        = .error .assertFailed :=
  ⟨by decide!, by decide!, by decide!, by decide!, by decide!, by decide!, by decide!,
    by decide!, by decide!⟩

/-! ### `getSBChunks` and the end of the chunk array -/

/-- C39, failing inputs: (a) `sbCutRecord` has `n = 10` and a record of 97 bytes at the
start of the array. `getSBChunks` tests `sbPtr < sbMax` before a record only: the record,
which begins before `chunkData + n` and ends after it, is decoded and installed. (b)
`sbLongArray` has `n = 0x801`, more than the `0x800` bytes of the array; no test is made of
`n`, and 22 chunks are installed, the last one decoded from the bytes 2037 to 2134 after
the start of the array. With `n = 0` nothing is installed. -/
theorem getSBChunks_decodes_past_n :
    (readLE sbCutRecord offN 4 = 10 ∧ recBoot.bytes.length = 97) ∧
      getSBChunks sbCutRecord none = .ok (some [chunkBoot]) ∧
      readLE sbLongArray offN 4 = 0x801 ∧
      (getSBChunks sbLongArray none).map
          (fun chunks => (chunks.getD []).map (fun c => (c.logiOffset, c.stripes.length)))
        = .ok (List.replicate 22 (0x100000, 1)) ∧
      getSBChunks (sbWithChunks 0 recBoot.bytes) none = .ok none :=
  ⟨by decide!, by decide!, by decide!, by decide!, by decide!⟩

/-! ### Termination of the walkers -/

theorem exists_kids (P : Nat → Nat × List (List Nat) → Prop) :
    ∀ n, (∀ i, i < n → ∃ k, P i k) →
      ∃ kids : List (Nat × List (List Nat)), kids.length = n ∧
        ∀ i (hi : i < kids.length), P i (kids.get ⟨i, hi⟩) := by
  intro n
  induction n with
  | zero => intro _; exact ⟨[], rfl, fun i hi => absurd hi (Nat.not_lt_zero i)⟩
  | succ n ih =>
    intro h
    obtain ⟨kids, hlen, hP⟩ := ih (fun i hi => h i (Nat.lt_succ_of_lt hi))
    obtain ⟨k, hk⟩ := h n (Nat.lt_succ_self n)
    refine ⟨kids ++ [k], by simp [hlen], ?_⟩
    intro i hi
    by_cases hlt : i < kids.length
    · have hget : (kids ++ [k]).get ⟨i, hi⟩ = kids.get ⟨i, hlt⟩ := by
        simp [List.getElem_append_left hlt]
      rw [hget]; exact hP i hlt
    · have hi1 : i < kids.length + 1 := by simpa using hi
      have hin : i = n := by omega
      have hget : (kids ++ [k]).get ⟨i, hi⟩ = k := by
        simp [List.getElem_append_right (Nat.le_of_not_lt hlt), hin, hlen]
      rw [hget, hin]; exact hk

theorem levelsDescend_treeAt (load : Nat → Except Fault (List Nat)) (treeID : Option Nat)
    (hL : LevelsDescend load treeID) :
    ∀ (L addr : Nat) (node : List Nat), load addr = .ok node → (readHeader node).level = L →
      ∃ leaves, TreeAt load treeID L addr leaves := by
  intro L
  induction L with
  | zero =>
    intro addr node hload hlev
    exact ⟨[node], TreeAt.leaf 0 addr node hload (hL addr node hload).1
      (hL addr node hload).2.1 hlev⟩
  | succ L ih =>
    intro addr node hload hlev
    obtain ⟨hlen, hid, hkids⟩ := hL addr node hload
    have hne : (readHeader node).level ≠ 0 := by omega
    obtain ⟨kids, hklen, hk⟩ := exists_kids
      (fun i k => loadKeyPtr node i = .ok k.1 ∧ TreeAt load treeID L k.1 k.2)
      (readHeader node).nrItems (fun i hi => by
        obtain ⟨child, cnode, hptr, hcl, hclev⟩ := hkids hne i hi
        obtain ⟨leaves, hT⟩ := ih child cnode hcl (by omega)
        exact ⟨(child, leaves), hptr, hT⟩)
    refine ⟨_, TreeAt.inner L addr node kids hload hlen hid hne hklen
      (fun i hi => (hk i hi).1) ?_⟩
    intro k hkmem
    obtain ⟨i, hi⟩ := List.mem_iff_get.1 hkmem
    rw [← hi]
    exact (hk i.1 i.2).2

theorem walkTree_selfLoop {σ : Type}
    (hook : List Nat → BtrfsItem → σ → Except Fault (σ × Bool)) (flag : σ → Bool) :
    ∀ (depth : Nat) (st : σ),
      walkTree (tableLoad nodesSelfLoop) none hook flag depth 0x4000 st = .error .outOfFuel := by
  intro depth
  induction depth with
  | zero => intro st; rfl
  | succ depth ih =>
    intro st
    have hload : tableLoad nodesSelfLoop 0x4000
        = .ok (mkInner 0 5 1 0x400 [(mkKey 0x100 0x01 0, 0x4000)]) := by decide!
    have hhdr : loadHeader (mkInner 0 5 1 0x400 [(mkKey 0x100 0x01 0, 0x4000)])
        = .ok ⟨5, 1, 1⟩ := by decide!
    have hptr : loadKeyPtr (mkInner 0 5 1 0x400 [(mkKey 0x100 0x01 0, 0x4000)]) 0
        = .ok 0x4000 := by decide!
    unfold walkTree
    rw [hload]
    simp only [hhdr]
    rw [if_neg (by simp), if_neg (by decide)]
    show keyPtrLoop flag _ _ (0 + 1) 0 st = _
    unfold keyPtrLoop
    simp only [hptr, ih st]

/-- C37: under the precondition `LevelsDescend` (every key pointer of a node of level
`L > 0` refers to a node that loads and has level `L - 1`) the walk from any node that loads
terminates: the nodes below it form a tree whose height is the level of the node, and for
every depth budget above that level the walk is the run of the leaf loops over the leaves of
that tree, one after the other, each leaf once (and, when the item arrays lie inside the
leaves, the run of the hook over their items, each once, up to the item at which it
leaves). The walkers themselves test neither levels nor cycles: on `nodesSelfLoop`, whose
root is its own child, the walk exhausts every depth budget. -/
theorem walkers_terminate_when_levels_descend {σ : Type} (load : Nat → Except Fault (List Nat))
    (treeID : Option Nat) (hook : List Nat → BtrfsItem → σ → Except Fault (σ × Bool))
    (flag : σ → Bool) (hL : LevelsDescend load treeID) (addr : Nat) (node : List Nat)
    (hload : load addr = .ok node) :
    (∃ leaves, TreeAt load treeID (readHeader node).level addr leaves ∧
      (∀ depth st, (readHeader node).level < depth → flag st = false →
        walkTree load treeID hook flag depth addr st = foldLeaves hook flag leaves st) ∧
      (LeaveIsFlag hook flag → (∀ leaf ∈ leaves, LeafOk leaf) →
        ∀ depth st, (readHeader node).level < depth → flag st = false →
          walkTree load treeID hook flag depth addr st
            = walkItems hook (treeItems leaves) st)) ∧
      ∀ depth st,
        walkTree (tableLoad nodesSelfLoop) none hook flag depth 0x4000 st
          = .error .outOfFuel := by
  refine ⟨?_, walkTree_selfLoop hook flag⟩
  obtain ⟨leaves, hT⟩ := levelsDescend_treeAt load treeID hL _ addr node hload rfl
  refine ⟨leaves, hT, ?_, ?_⟩
  · intro depth st hd hst
    exact walkTree_eq_foldLeaves load treeID hook flag _ addr leaves hT depth st hd hst
  · intro hlf hok depth st hd hst
    exact walkTree_eq_walkItems load treeID hook flag hlf _ addr leaves hT hok depth st hd hst

/-! ### Witnesses on `nodesFsTree` -/

/-- The node table `nodesFsTree` is a valid tree: its two leaves and the two key pointers of
its root are in key order, and the key pointers bound the keys of the leaves. -/
theorem validTreeAt_nodesFsTree :
    ValidTreeAt (tableLoad nodesFsTree) none 1 0x4000 [fsLeafDir, fsLeafFile] := by
  have hleaf : ∀ k ∈ [(0x5000, [fsLeafDir]), (0x6000, [fsLeafFile])],
      ValidTreeAt (tableLoad nodesFsTree) none 0 k.1 k.2 := by
    intro k hk
    simp only [List.mem_cons, List.mem_singleton, List.not_mem_nil, or_false] at hk
    rcases hk with rfl | rfl
    · exact ValidTreeAt.leaf 0 0x5000 _ (by decide!) (by decide!) (fun t ht => by cases ht)
        (by decide!) (by decide!) (by decide!)
    · exact ValidTreeAt.leaf 0 0x6000 _ (by decide!) (by decide!) (fun t ht => by cases ht)
        (by decide!) (by decide!) (by decide!)
  exact ValidTreeAt.inner 0 0x4000
    (mkInner 0 5 1 0x400 [(mkKey 0x100 0x01 0, 0x5000), (mkKey 257 0x01 0, 0x6000)])
    [(0x5000, [fsLeafDir]), (0x6000, [fsLeafFile])]
    (by decide!) (by decide!) (fun t ht => by cases ht) (by decide!) (by decide!)
    (by
      intro i hi
      match i, hi with
      | 0, _ =>
        exact (by decide! : loadKeyPtr (mkInner 0 5 1 0x400
          [(mkKey 0x100 0x01 0, 0x5000), (mkKey 257 0x01 0, 0x6000)]) 0 = .ok 0x5000)
      | 1, _ =>
        exact (by decide! : loadKeyPtr (mkInner 0 5 1 0x400
          [(mkKey 0x100 0x01 0, 0x5000), (mkKey 257 0x01 0, 0x6000)]) 1 = .ok 0x6000))
    (by decide!)
    (by
      intro i hi
      match i, hi with
      | 0, _ =>
        exact (by decide! : ∀ key ∈ treeKeys [fsLeafDir], keyLe (keyPtrKey (mkInner 0 5 1 0x400
          [(mkKey 0x100 0x01 0, 0x5000), (mkKey 257 0x01 0, 0x6000)]) 0) key)
      | 1, _ =>
        exact (by decide! : ∀ key ∈ treeKeys [fsLeafFile], keyLe (keyPtrKey (mkInner 0 5 1 0x400
          [(mkKey 0x100 0x01 0, 0x5000), (mkKey 257 0x01 0, 0x6000)]) 1) key))
    (by
      intro i hi
      match i, hi with
      | 0, _ =>
        exact (by decide! : ∀ key ∈ treeKeys [fsLeafDir], keyLe key (keyPtrKey (mkInner 0 5 1 0x400
          [(mkKey 0x100 0x01 0, 0x5000), (mkKey 257 0x01 0, 0x6000)]) (0 + 1))))
    hleaf

/-- In the node table `nodesFsTree` the two key pointers of the root, of level 1, refer to
nodes of level 0. -/
theorem levelsDescend_nodesFsTree : LevelsDescend (tableLoad nodesFsTree) none := by
  intro addr node hload
  have hcases : node = mkInner 0 5 1 0x400
        [(mkKey 0x100 0x01 0, 0x5000), (mkKey 257 0x01 0, 0x6000)] ∨
      node = fsLeafDir ∨ node = fsLeafFile := by
    have hlk : nodesFsTree.lookup addr = some node := by
      unfold tableLoad at hload
      cases h : nodesFsTree.lookup addr with
      | none => rw [h] at hload; cases hload
      | some n => rw [h] at hload; injection hload with h1; rw [h1]
    unfold nodesFsTree at hlk
    simp only [List.lookup] at hlk
    repeat' split at hlk
    all_goals first
      | (cases hlk; done)
      | (cases hlk; simp)
  have hleafDir : (readHeader fsLeafDir).level = 0 := by decide!
  have hleafFile : (readHeader fsLeafFile).level = 0 := by decide!
  rcases hcases with rfl | rfl | rfl
  · refine ⟨by decide!, (fun t ht => by cases ht), ?_⟩
    intro _ i hi
    have hn : (readHeader (mkInner 0 5 1 0x400
        [(mkKey 0x100 0x01 0, 0x5000), (mkKey 257 0x01 0, 0x6000)])).nrItems = 2 := by decide!
    rw [hn] at hi
    match i, hi with
    | 0, _ => exact ⟨0x5000, fsLeafDir, by decide!, by decide!, by decide!⟩
    | 1, _ => exact ⟨0x6000, fsLeafFile, by decide!, by decide!, by decide!⟩
  · exact ⟨by decide!, (fun t ht => by cases ht), fun hne => absurd hleafDir hne⟩
  · exact ⟨by decide!, (fun t ht => by cases ht), fun hne => absurd hleafFile hne⟩

/-- Witness for C31: the valid tree `nodesFsTree` under `FSOP_NAME_TO_ID`; its keys in
traversal order. -/
theorem walk_delivers_keys_in_order_witness :
    (walkTree (tableLoad nodesFsTree) none (fsNameToIdItem 0x100 helloHash strHello)
          (fun st => st.shortCircuit) 2 0x4000 (NameToIdState.mk 0 1 false)
        = walkItems (fsNameToIdItem 0x100 helloHash strHello)
            (treeItems [fsLeafDir, fsLeafFile]) (NameToIdState.mk 0 1 false) ∧
      List.Pairwise keyLe ((treeItems [fsLeafDir, fsLeafFile]).map (fun p => p.2.key))) ∧
      (treeItems [fsLeafDir, fsLeafFile]).map (fun p => p.2.key)
        = [⟨0x100, 0x01, 0⟩, ⟨0x100, 0x54, helloHash⟩, ⟨257, 0x01, 0⟩, ⟨257, 0x6C, 0⟩,
           ⟨258, 0x01, 0⟩] :=
  ⟨walk_delivers_keys_in_order (tableLoad nodesFsTree) none
      (fsNameToIdItem 0x100 helloHash strHello) (fun st => st.shortCircuit)
      (fsNameToIdItem_leave 0x100 helloHash strHello) 1 0x4000 [fsLeafDir, fsLeafFile]
      validTreeAt_nodesFsTree 2 (NameToIdState.mk 0 1 false) (by decide) rfl,
    by decide!⟩

/-- Witness for C32: the leaf `ctLeafUnknown` holds a chunk item between two items of
unknown types; the chunk-tree Load over the leaf is the Load over the chunk item alone. -/
theorem unknown_item_types_are_skipped_witness :
    LeafOk ctLeafUnknown ∧
      leafLoop chunkTreeLoadItem ctLeafUnknown (readHeader ctLeafUnknown).nrItems 0 []
        = walkItems chunkTreeLoadItem
            ((leafPairs ctLeafUnknown).filter (fun p => chunkTreeKnown p.2.key.type)) [] ∧
      ((leafPairs ctLeafUnknown).map (fun p => p.2.key.type) = [0x99, 0xE8, 0xF0] ∧
        ((leafPairs ctLeafUnknown).filter (fun p => chunkTreeKnown p.2.key.type)).map
          (fun p => p.2.key.type) = [0xE8]) ∧
      leafLoop chunkTreeLoadItem ctLeafUnknown (readHeader ctLeafUnknown).nrItems 0 []
        = .ok [{ key := ⟨0x100, 0xE8, 0x100000⟩, data := chunkPayload 0x500000 }] :=
  ⟨by decide!, (unknown_item_types_are_skipped 0x200 ctLeafUnknown (by decide!)).1 [],
    by decide!, by decide!⟩

/-- Witness for C37: the node table `nodesFsTree`, walked from its root at `0x4000` under
`FSOP_NAME_TO_ID`. -/
theorem walkers_terminate_when_levels_descend_witness :
    LevelsDescend (tableLoad nodesFsTree) none ∧
      tableLoad nodesFsTree 0x4000
        = .ok (mkInner 0 5 1 0x400 [(mkKey 0x100 0x01 0, 0x5000), (mkKey 257 0x01 0, 0x6000)]) ∧
      ((∃ leaves, TreeAt (tableLoad nodesFsTree) none
          (readHeader (mkInner 0 5 1 0x400
            [(mkKey 0x100 0x01 0, 0x5000), (mkKey 257 0x01 0, 0x6000)])).level 0x4000 leaves ∧
        (∀ depth st, (readHeader (mkInner 0 5 1 0x400
            [(mkKey 0x100 0x01 0, 0x5000), (mkKey 257 0x01 0, 0x6000)])).level < depth →
          (fun st : NameToIdState => st.shortCircuit) st = false →
          walkTree (tableLoad nodesFsTree) none (fsNameToIdItem 0x100 helloHash strHello)
              (fun st => st.shortCircuit) depth 0x4000 st
            = foldLeaves (fsNameToIdItem 0x100 helloHash strHello)
                (fun st => st.shortCircuit) leaves st) ∧
        (LeaveIsFlag (fsNameToIdItem 0x100 helloHash strHello) (fun st => st.shortCircuit) →
          (∀ leaf ∈ leaves, LeafOk leaf) →
          ∀ depth st, (readHeader (mkInner 0 5 1 0x400
              [(mkKey 0x100 0x01 0, 0x5000), (mkKey 257 0x01 0, 0x6000)])).level < depth →
            (fun st : NameToIdState => st.shortCircuit) st = false →
            walkTree (tableLoad nodesFsTree) none (fsNameToIdItem 0x100 helloHash strHello)
                (fun st => st.shortCircuit) depth 0x4000 st
              = walkItems (fsNameToIdItem 0x100 helloHash strHello) (treeItems leaves) st)) ∧
        ∀ depth st,
          walkTree (tableLoad nodesSelfLoop) none (fsNameToIdItem 0x100 helloHash strHello)
              (fun st => st.shortCircuit) depth 0x4000 st
            = .error .outOfFuel) :=
  ⟨levelsDescend_nodesFsTree, by decide!,
    walkers_terminate_when_levels_descend (tableLoad nodesFsTree) none
      (fsNameToIdItem 0x100 helloHash strHello) (fun st => st.shortCircuit)
      levelsDescend_nodesFsTree 0x4000 _ (by decide!)⟩

end WinBtrfs
